import Mathlib

/-!
# hwameistor: local-volume scheduler core and pool registry

A shallow embedding of `pkg/scheduler/scheduler/scheduler-lvm.go`
(`LVMVolumeScheduler`): the filter stage for bound volumes and pending claims,
the score stage, and the helpers they call; and of the pool registry of
`pkg/local-disk-manager/member/node/manager.go` (`nodeManager`): the rebuild of the
pools from the registry and their publication to the resource store.

Conventions of the embedding

* Go's `int64` is `Int`; where the source can overflow the result is wrapped with
  `wrapInt64`.
* Go's `float64` is `F64`: a rational that is a binary64 value, the two infinities
  or NaN; every arithmetic operation is the exact rational operation followed by
  `F64.round` (round to nearest, ties to even).
* A Go function returning `(T, error)` returns `T × Option SchedError`; a function
  that can panic returns `Except Panic _`.
* The collaborators that the scheduler only calls (the object cache, the storage
  class lister, the replica planner) are fields of the scheduler, as in the source.
* A Go map is the list of its entries; state that a method can change (the pool
  map, the resource store) is passed in and returned.
-/

set_option autoImplicit false

namespace Hwameistor

/-! ## API objects -/

deriving instance DecidableEq for Except

/-- The `error` values the scheduler returns. -/
inductive SchedError where
  /-- an error returned by `hwameiStorCache.Get` -/
  | cacheGet (msg : String)
  /-- an error returned by `scLister.Get` -/
  | scListerGet (msg : String)
  /-- `fmt.Errorf("pending localvolume")` -/
  | pendingLocalVolume
  /-- `fmt.Errorf("not right node")` -/
  | notRightNode
  /-- `fmt.Errorf("filtered out the node %s", node.Name)` -/
  | filteredOut (node : String)
  /-- `fmt.Errorf("need %d node(s) to place volume, but only find %d node(s) ...")` -/
  | needNodes (need : Int) (found : Int)
  /-- `fmt.Errorf("invalid pool info")` -/
  | invalidPoolInfo
  /-- `fmt.Errorf("storageclass is empty in pvc %s", pvc.Name)` -/
  | storageClassEmpty (pvc : String)
  deriving DecidableEq, Repr

/-- Run-time panics of the Go code. -/
inductive Panic where
  /-- dereference of a nil pointer -/
  | nilPointerDereference
  /-- slice index out of range -/
  | indexOutOfRange
  deriving DecidableEq, Repr

/-- One replica of a volume: `VolumeReplica`, of which only `Hostname` is read. -/
structure VolumeReplica where
  Hostname : String
  deriving DecidableEq, Repr

/-- `VolumeConfig`: the placement of a provisioned volume. -/
structure VolumeConfig where
  Replicas : List VolumeReplica
  deriving DecidableEq, Repr

/-- `LocalVolumeSpec`, the fields the scheduler reads or writes. -/
structure LocalVolumeSpec where
  PersistentVolumeClaimName : String := ""
  PersistentVolumeClaimNamespace : String := ""
  PoolName : String := ""
  RequiredCapacityBytes : Int := 0
  ReplicaNumber : Int := 0
  Config : Option VolumeConfig := none
  deriving DecidableEq, Repr

/-- `LocalVolume`; `{}` is Go's zero value `v1alpha1.LocalVolume{}`. -/
structure LocalVolume where
  Name : String := ""
  Spec : LocalVolumeSpec := {}
  deriving DecidableEq, Repr

/-- `LocalDevice`: a disk as a pool lists it. -/
structure LocalDevice where
  DevPath : String := ""
  Class : String := ""
  CapacityBytes : Int := 0
  deriving DecidableEq, Repr

/-- `LocalPool`, the fields of a node's storage pool; `{}` is Go's zero value. The Go
field `Type` is `PoolType` here. -/
structure LocalPool where
  Class : String := ""
  PoolType : String := ""
  TotalCapacityBytes : Int := 0
  UsedCapacityBytes : Int := 0
  VolumeCapacityBytesLimit : Int := 0
  FreeCapacityBytes : Int := 0
  TotalVolumeCount : Int := 0
  UsedVolumeCount : Int := 0
  FreeVolumeCount : Int := 0
  Disks : List LocalDevice := []
  Volumes : List String := []
  deriving DecidableEq, Repr

/-- `LocalStorageNode`: a node with its pools, keyed by pool name (`Status.Pools`). -/
structure LocalStorageNode where
  Name : String := ""
  Pools : List (String × LocalPool) := []
  deriving DecidableEq, Repr

/-- `corev1.Node`, of which only the name is read. -/
structure Node where
  Name : String
  deriving DecidableEq, Repr

/-- `corev1.PersistentVolumeClaimSpec`: the storage class name (a `*string`) and the
resource requests, a map from resource name to the quantity's `Value()`. -/
structure PersistentVolumeClaimSpec where
  StorageClassName : Option String
  Requests : List (String × Int) := []
  deriving DecidableEq, Repr

/-- `corev1.PersistentVolumeClaim`. -/
structure PersistentVolumeClaim where
  Name : String
  Namespace : String := ""
  Spec : PersistentVolumeClaimSpec
  deriving DecidableEq, Repr

/-- `storagev1.StorageClass`, of which only `Parameters` is read. -/
structure StorageClass where
  Parameters : List (String × String)
  deriving DecidableEq, Repr

/-- A Go map read `m[key]` on a `map[string]string`: the zero value when absent. -/
def StorageClass.param (sc : StorageClass) (key : String) : String :=
  (sc.Parameters.lookup key).getD ""

/-- `corev1.ResourceStorage`. -/
def ResourceStorage : String := "storage"

/-- `pvc.Spec.Resources.Requests[corev1.ResourceStorage]` followed by `Value()`
(equally `Requests.Storage().Value()`): the zero quantity when the key is absent. -/
def PersistentVolumeClaim.storageValue (pvc : PersistentVolumeClaim) : Int :=
  (pvc.Spec.Requests.lookup ResourceStorage).getD 0

/-- A Go map read `node.Status.Pools[name]`: the zero-valued pool when absent. -/
def LocalStorageNode.pool (node : LocalStorageNode) (name : String) : LocalPool :=
  (node.Pools.lookup name).getD {}

/-! ## Constants of the API package -/

/-- Modelled from the spec: the storage class parameter key `poolClass`
(`v1alpha1.VolumeParameterPoolClassKey`, declared outside the sources at hand). -/
def VolumeParameterPoolClassKey : String := "poolClass"

/-- Modelled from the spec: the storage class parameter key `poolType`
(`v1alpha1.VolumeParameterPoolTypeKey`). -/
def VolumeParameterPoolTypeKey : String := "poolType"

/-- Modelled from the spec: the storage class parameter key `replicaNumber`
(`v1alpha1.VolumeParameterReplicaNumberKey`). -/
def VolumeParameterReplicaNumberKey : String := "replicaNumber"

/-- Modelled from the spec: disk class `HDD` (`v1alpha1.DiskClassNameHDD`). -/
def DiskClassNameHDD : String := "HDD"

/-- Modelled from the spec: disk class `SSD` (`v1alpha1.DiskClassNameSSD`). -/
def DiskClassNameSSD : String := "SSD"

/-- Modelled from the spec: disk class `NVMe` (`v1alpha1.DiskClassNameNVMe`). -/
def DiskClassNameNVMe : String := "NVMe"

/-- Modelled from the spec: pool type `REGULAR` (`v1alpha1.PoolTypeRegular`). -/
def PoolTypeRegular : String := "REGULAR"

/-- Modelled from the spec: pool name of the HDD class, `"LocalStorage_Pool" + class`
(`v1alpha1.PoolNameForHDD`). -/
def PoolNameForHDD : String := "LocalStorage_PoolHDD"

/-- Modelled from the spec: pool name of the SSD class (`v1alpha1.PoolNameForSSD`). -/
def PoolNameForSSD : String := "LocalStorage_PoolSSD"

/-- Modelled from the spec: pool name of the NVMe class (`v1alpha1.PoolNameForNVMe`). -/
def PoolNameForNVMe : String := "LocalStorage_PoolNVMe"

/-- Modelled from the spec: `framework.MaxNodeScore`, the host scheduler's score
ceiling, `100`. -/
def MaxNodeScore : Int := 100

/-! ## Machine integers and `strconv.Atoi` -/

/-- Two's complement wrap of an integer into the `int64` range. -/
def wrapInt64 (x : Int) : Int := (x + 2 ^ 63) % 2 ^ 64 - 2 ^ 63

/-- The decimal digit a byte stands for, if any. -/
def digitVal (c : Char) : Option Nat :=
  if '0' ≤ c ∧ c ≤ '9' then some (c.toNat - '0'.toNat) else none

/-- The value of a string of decimal digits; `none` when a character is not a digit. -/
def parseDigits : List Char → Nat → Option Nat
  | [], acc => some acc
  | c :: cs, acc =>
    match digitVal c with
    | none => none
    | some d => parseDigits cs (acc * 10 + d)

/-- `strconv.Atoi` on a 64-bit platform, as a pair (value, `err == nil`): an optional
sign and at least one decimal digit; a syntax error gives 0, a value out of the
`int64` range gives the nearest bound, both with an error. -/
def atoi (s : String) : Int × Bool :=
  let (neg, digits) :=
    match s.data with
    | '-' :: cs => (true, cs)
    | '+' :: cs => (false, cs)
    | cs => (false, cs)
  if digits.isEmpty then (0, false)
  else
    match parseDigits digits 0 with
    | none => (0, false)
    | some un =>
      if !neg && 2 ^ 63 ≤ un then (2 ^ 63 - 1, false)
      else if neg && 2 ^ 63 < un then (-(2 ^ 63), false)
      else (if neg then -(un : Int) else (un : Int), true)

/-! ## The scheduler -/

/-- `cache.Cache`, the two kinds of object the scheduler gets by name; an error of
`Get` is kept as its message. -/
structure Cache where
  getLocalVolume : String → Except String LocalVolume
  getLocalStorageNode : String → Except String LocalStorageNode

/-- `LVMVolumeScheduler`: `replicaScheduler` is the planner's `GetNodeCandidates`,
`scLister` the storage class lister's `Get`. -/
structure LVMVolumeScheduler where
  csiDriverName : String := ""
  topoNodeLabelKey : String := ""
  replicaScheduler : List LocalVolume → List LocalStorageNode
  hwameiStorCache : Cache
  scLister : String → Except String StorageClass

/-- `buildStoragePoolName`. -/
def buildStoragePoolName (poolClass poolType : String) : Except SchedError String :=
  if poolClass = DiskClassNameHDD ∧ poolType = PoolTypeRegular then .ok PoolNameForHDD
  else if poolClass = DiskClassNameSSD ∧ poolType = PoolTypeRegular then .ok PoolNameForSSD
  else if poolClass = DiskClassNameNVMe ∧ poolType = PoolTypeRegular then .ok PoolNameForNVMe
  else .error .invalidPoolInfo

/-- `LVMVolumeScheduler.constructLocalVolumeForPVC`: the storage class name is
dereferenced without a nil check. -/
def constructLocalVolumeForPVC (s : LVMVolumeScheduler) (pvc : PersistentVolumeClaim) :
    Except Panic (Except SchedError LocalVolume) :=
  match pvc.Spec.StorageClassName with
  | none => .error .nilPointerDereference
  | some scName =>
    match s.scLister scName with
    | .error e => .ok (.error (.scListerGet e))
    | .ok sc =>
      match buildStoragePoolName (sc.param VolumeParameterPoolClassKey)
          (sc.param VolumeParameterPoolTypeKey) with
      | .error e => .ok (.error e)
      | .ok poolName =>
        .ok (.ok
          { Name := ""
            Spec :=
              { PersistentVolumeClaimName := pvc.Name
                PersistentVolumeClaimNamespace := pvc.Namespace
                PoolName := poolName
                RequiredCapacityBytes := pvc.storageValue
                ReplicaNumber := (atoi (sc.param VolumeParameterReplicaNumberKey)).1
                Config := none } })

/-- The loop of `filterForExistingLocalVolumes` over the bound volume names. -/
def existingLocalVolumesLoop (s : LVMVolumeScheduler) (node : Node) :
    List String → Bool × Option SchedError
  | [] => (true, none)
  | lvName :: rest =>
    match s.hwameiStorCache.getLocalVolume lvName with
    | .error e => (false, some (.cacheGet e))
    | .ok lv =>
      match lv.Spec.Config with
      | none => (false, some .pendingLocalVolume)
      | some cfg =>
        if cfg.Replicas.any (fun rep => rep.Hostname == node.Name) then
          existingLocalVolumesLoop s node rest
        else (false, some .notRightNode)

/-- `LVMVolumeScheduler.filterForExistingLocalVolumes`. -/
def filterForExistingLocalVolumes (s : LVMVolumeScheduler) (lvs : List String) (node : Node) :
    Bool × Option SchedError :=
  if lvs.length = 0 then (true, none) else existingLocalVolumesLoop s node lvs

/-- The loop of `filterForNewPVCs` that builds a synthetic volume for each claim and
stops at the first error. -/
def constructLocalVolumes (s : LVMVolumeScheduler) :
    List PersistentVolumeClaim → Except Panic (Except SchedError (List LocalVolume))
  | [] => .ok (.ok [])
  | pvc :: rest =>
    match constructLocalVolumeForPVC s pvc with
    | .error p => .error p
    | .ok (.error e) => .ok (.error e)
    | .ok (.ok lv) =>
      match constructLocalVolumes s rest with
      | .error p => .error p
      | .ok (.error e) => .ok (.error e)
      | .ok (.ok lvs) => .ok (.ok (lv :: lvs))

/-- `LVMVolumeScheduler.filterForNewPVCs`. -/
def filterForNewPVCs (s : LVMVolumeScheduler) (pvcs : List PersistentVolumeClaim) (node : Node) :
    Except Panic (Bool × Option SchedError) :=
  if pvcs.length = 0 then .ok (true, none)
  else
    match constructLocalVolumes s pvcs with
    | .error p => .error p
    | .ok (.error e) => .ok (false, some e)
    | .ok (.ok lvs) =>
      let qualifiedNodes := s.replicaScheduler lvs
      match lvs with
      | [] => .error .indexOutOfRange
      | lv0 :: _ =>
        if (qualifiedNodes.length : Int) < lv0.Spec.ReplicaNumber then
          .ok (false, some (.needNodes lv0.Spec.ReplicaNumber qualifiedNodes.length))
        else if qualifiedNodes.any (fun qn => qn.Name == node.Name) then .ok (true, none)
        else .ok (false, none)

/-- `LVMVolumeScheduler.Filter`. -/
def Filter (s : LVMVolumeScheduler) (lvs : List String) (pendingPVCs : List PersistentVolumeClaim)
    (node : Node) : Except Panic (Bool × Option SchedError) :=
  match filterForExistingLocalVolumes s lvs node with
  | (_, some err) => .ok (false, some err)
  | (false, none) => .ok (false, some (.filteredOut node.Name))
  | (true, none) => filterForNewPVCs s pendingPVCs node

/-! ## binary64 arithmetic -/

/-- The rational `2 ^ e`. -/
def pow2 (e : ℤ) : ℚ :=
  if 0 ≤ e then ((2 ^ e.toNat : ℕ) : ℚ) else 1 / ((2 ^ (-e).toNat : ℕ) : ℚ)

/-- Number of binary digits of `n`, by halving; the first argument bounds the number
of steps. -/
def bitLenAux : ℕ → ℕ → ℕ
  | 0, _ => 0
  | fuel + 1, n => if n = 0 then 0 else bitLenAux fuel (n / 2) + 1

/-- Number of binary digits of `n` (`0` for `0`). -/
def bitLen (n : ℕ) : ℕ := bitLenAux n n

/-- For `q ≠ 0`, the integer `e` with `2 ^ e ≤ |q| < 2 ^ (e + 1)`. -/
def ilog2 (q : ℚ) : ℤ :=
  let k : ℤ := (bitLen q.num.natAbs : ℤ) - (bitLen q.den : ℤ)
  if pow2 k ≤ |q| then k else k - 1

/-- Floor of a rational. -/
def qfloor (q : ℚ) : ℤ := q.num / (q.den : ℤ)

/-- The integer nearest to `t`, a tie going to the even one. -/
def roundHalfEven (t : ℚ) : ℤ :=
  let n := qfloor t
  let r := t - n
  if r < 1 / 2 then n else if 1 / 2 < r then n + 1 else if n % 2 = 0 then n else n + 1

/-- A `float64`: a finite value (kept as the rational it denotes), an infinity with
its sign, or NaN. The sign of a zero is not kept: the only divisors in the scheduler
are conversions of integers, which are never the negative zero, and a zero converts
to the integer 0 whatever its sign. -/
inductive F64 where
  | fin (q : ℚ)
  | inf (negative : Bool)
  | nan
  deriving DecidableEq, Repr

namespace F64

/-- Rounding of an exact result to binary64, to nearest with ties to even: a 53-bit
significand at the exponent of `q`, which is not taken below that of the subnormal
numbers (`2 ^ (-1074)`); a result of magnitude `2 ^ 1024` or more is an infinity. -/
def round (q : ℚ) : F64 :=
  if q = 0 then fin 0
  else
    let e := max (ilog2 q - 52) (-1074)
    let v := (roundHalfEven (q / pow2 e) : ℚ) * pow2 e
    if pow2 1024 ≤ |v| then inf (decide (q < 0)) else fin v

/-- The conversion `float64(i)` of an integer. -/
def ofInt64 (i : Int) : F64 := round (i : ℚ)

/-- The quotient `x / y` of IEEE 754. -/
def div : F64 → F64 → F64
  | nan, _ => nan
  | _, nan => nan
  | inf _, inf _ => nan
  | inf n, fin b => inf (n != decide (b < 0))
  | fin _, inf _ => fin 0
  | fin a, fin b =>
    if b = 0 then (if a = 0 then nan else inf (decide (a < 0))) else round (a / b)

/-- The product `x * y` of IEEE 754. -/
def mul : F64 → F64 → F64
  | nan, _ => nan
  | _, nan => nan
  | inf n, inf m => inf (n != m)
  | inf n, fin b => if b = 0 then nan else inf (n != decide (b < 0))
  | fin a, inf m => if a = 0 then nan else inf (decide (a < 0) != m)
  | fin a, fin b => round (a * b)

/-- Truncation of a rational toward zero. -/
def truncate (q : ℚ) : ℤ := if 0 ≤ q then qfloor q else -qfloor (-q)

end F64

/-- What the Go specification leaves to the implementation: the result of converting
to `int64` a `float64` that `int64` cannot represent (NaN, an infinity, a value out of
range). -/
structure Platform where
  toInt64Invalid : F64 → Int

/-- On amd64 the conversion instruction answers every such value with the smallest
`int64`. -/
def amd64 : Platform where
  toInt64Invalid := fun _ => -(2 ^ 63)

/-- On arm64 the conversion saturates, and NaN gives 0. -/
def arm64 : Platform where
  toInt64Invalid := fun x =>
    match x with
    | .nan => 0
    | .inf true => -(2 ^ 63)
    | .inf false => 2 ^ 63 - 1
    | .fin q => if q < 0 then -(2 ^ 63) else 2 ^ 63 - 1

/-- The conversion `int64(x)` of a `float64`: the fraction is discarded; a value that
`int64` cannot represent gives the platform's answer. -/
def F64.toInt64 (p : Platform) : F64 → Int
  | .fin q =>
    if -(2 ^ 63) ≤ F64.truncate q ∧ F64.truncate q < 2 ^ 63 then F64.truncate q
    else p.toInt64Invalid (.fin q)
  | x => p.toInt64Invalid x

/-! ## Score -/

/-- `LVMVolumeScheduler.scoreOneVolume`. -/
def scoreOneVolume (p : Platform) (s : LVMVolumeScheduler) (pvc : PersistentVolumeClaim)
    (node : LocalStorageNode) : Int × Option SchedError :=
  match pvc.Spec.StorageClassName with
  | none => (0, some (.storageClassEmpty pvc.Name))
  | some scName =>
    match s.scLister scName with
    | .error e => (0, some (.scListerGet e))
    | .ok relatedSC =>
      let volumeClass := relatedSC.param VolumeParameterPoolClassKey
      let volumeCapacity := pvc.storageValue
      match buildStoragePoolName volumeClass PoolTypeRegular with
      | .error e => (0, some e)
      | .ok poolClass =>
        let relatedPool := node.pool poolClass
        let nodeFreeCapacity := relatedPool.FreeCapacityBytes
        (F64.toInt64 p
          (F64.mul
            (F64.div (F64.ofInt64 (wrapInt64 (nodeFreeCapacity - volumeCapacity)))
              (F64.ofInt64 nodeFreeCapacity))
            (F64.ofInt64 MaxNodeScore)),
         none)

/-- The loop of `Score` that adds the per-claim scores to `scoreTotal` and stops at
the first error. -/
def scoreLoop (p : Platform) (s : LVMVolumeScheduler) (node : LocalStorageNode) :
    List PersistentVolumeClaim → Int → Int × Option SchedError
  | [], scoreTotal => (scoreTotal, none)
  | volume :: rest, scoreTotal =>
    match scoreOneVolume p s volume node with
    | (_, some err) => (0, some err)
    | (score, none) => scoreLoop p s node rest (wrapInt64 (scoreTotal + score))

/-- `LVMVolumeScheduler.Score`. -/
def Score (p : Platform) (s : LVMVolumeScheduler) (unboundPVCs : List PersistentVolumeClaim)
    (node : String) : Int × Option SchedError :=
  match s.hwameiStorCache.getLocalStorageNode node with
  | .error e => (0, some (.cacheGet e))
  | .ok storageNode =>
    match scoreLoop p s storageNode unboundPVCs 0 with
    | (_, some err) => (0, some err)
    | (scoreTotal, none) =>
      (F64.toInt64 p
        (F64.mul
          (F64.div (F64.ofInt64 scoreTotal)
            (F64.ofInt64 (wrapInt64 (MaxNodeScore * (unboundPVCs.length : Int)))))
          (F64.ofInt64 MaxNodeScore)),
       none)

/-! ## Concrete clusters used to instantiate the theorems -/

/-- Storage classes `hdd1`, `hdd2`, `ssd1`, `nvme3` (HDD, SSD or NVMe pools with 1, 2
or 3 replicas) and `bad` (a class that is not recognised). -/
def exampleClasses (name : String) : Except String StorageClass :=
  if name = "hdd1" then
    .ok ⟨[("poolClass", "HDD"), ("poolType", "REGULAR"), ("replicaNumber", "1")]⟩
  else if name = "hdd2" then
    .ok ⟨[("poolClass", "HDD"), ("poolType", "REGULAR"), ("replicaNumber", "2")]⟩
  else if name = "ssd1" then
    .ok ⟨[("poolClass", "SSD"), ("poolType", "REGULAR"), ("replicaNumber", "1")]⟩
  else if name = "nvme3" then
    .ok ⟨[("poolClass", "NVMe"), ("poolType", "REGULAR"), ("replicaNumber", "3")]⟩
  else if name = "bad" then
    .ok ⟨[("poolClass", "TAPE"), ("poolType", "REGULAR"), ("replicaNumber", "1")]⟩
  else .error "storageclass not found"

/-- Node `n1`: an HDD pool of 100 bytes with 20 used. -/
def exampleNode1 : LocalStorageNode where
  Name := "n1"
  Pools := [("LocalStorage_PoolHDD",
    { TotalCapacityBytes := 100, UsedCapacityBytes := 20, FreeCapacityBytes := 80 })]

/-- Node `n2`: an HDD pool with 100 bytes free and an SSD pool with 17 bytes free. -/
def exampleNode2 : LocalStorageNode where
  Name := "n2"
  Pools := [("LocalStorage_PoolHDD",
      { TotalCapacityBytes := 120, UsedCapacityBytes := 20, FreeCapacityBytes := 100 }),
    ("LocalStorage_PoolSSD",
      { TotalCapacityBytes := 20, UsedCapacityBytes := 3, FreeCapacityBytes := 17 })]

/-- A cache with volume `V` placed on `n1` and `n2`, volume `W` not yet configured,
and the nodes `n1` and `n2`. -/
def exampleCache : Cache where
  getLocalVolume := fun name =>
    if name = "V" then
      .ok { Name := "V", Spec := { Config := some ⟨[⟨"n1"⟩, ⟨"n2"⟩]⟩ } }
    else if name = "W" then .ok { Name := "W" }
    else .error "localvolume not found"
  getLocalStorageNode := fun name =>
    if name = "n1" then .ok exampleNode1
    else if name = "n2" then .ok exampleNode2
    else .error "localstoragenode not found"

/-- A scheduler over `exampleCache` whose planner answers with the given nodes. -/
def exampleScheduler (qualified : List LocalStorageNode) : LVMVolumeScheduler where
  replicaScheduler := fun _ => qualified
  hwameiStorCache := exampleCache
  scLister := exampleClasses

/-- A pending claim of `req` bytes with storage class `sc`. -/
def exampleClaim (name sc : String) (req : Int) : PersistentVolumeClaim where
  Name := name
  Namespace := "default"
  Spec := { StorageClassName := some sc, Requests := [("storage", req)] }

/-! ## Both results of `buildStoragePoolName`, and the reservation stage -/

/-- `buildStoragePoolName` with both of its results, the name and the error: on an
error the name is the empty string. -/
def buildStoragePoolNamePair (poolClass poolType : String) : String × Option SchedError :=
  if poolClass = DiskClassNameHDD ∧ poolType = PoolTypeRegular then (PoolNameForHDD, none)
  else if poolClass = DiskClassNameSSD ∧ poolType = PoolTypeRegular then (PoolNameForSSD, none)
  else if poolClass = DiskClassNameNVMe ∧ poolType = PoolTypeRegular then (PoolNameForNVMe, none)
  else ("", some .invalidPoolInfo)

/-- `LVMVolumeScheduler.Reserve`: the body is `return nil`. The scheduler comes back
with the error because a method on a pointer receiver could have changed it. -/
def Reserve (s : LVMVolumeScheduler) (_pendingPVCs : List PersistentVolumeClaim)
    (_node : String) : LVMVolumeScheduler × Option SchedError :=
  (s, none)

/-- `LVMVolumeScheduler.Unreserve`: the body is `return nil`. -/
def Unreserve (s : LVMVolumeScheduler) (_pendingPVCs : List PersistentVolumeClaim)
    (_node : String) : LVMVolumeScheduler × Option SchedError :=
  (s, none)

/-- Storage classes with a recognised pool class whose pool type is missing
(`hddNoType`) or not recognised (`hddFast`), next to the regular `hdd1`. -/
def exampleClassesMistyped (name : String) : Except String StorageClass :=
  if name = "hddNoType" then .ok ⟨[("poolClass", "HDD"), ("replicaNumber", "1")]⟩
  else if name = "hddFast" then
    .ok ⟨[("poolClass", "HDD"), ("poolType", "FAST"), ("replicaNumber", "1")]⟩
  else if name = "hdd1" then
    .ok ⟨[("poolClass", "HDD"), ("poolType", "REGULAR"), ("replicaNumber", "1")]⟩
  else .error "storageclass not found"

/-- A scheduler over `exampleCache` and `exampleClassesMistyped` whose planner answers
with the given nodes. -/
def exampleSchedulerMistyped (qualified : List LocalStorageNode) : LVMVolumeScheduler where
  replicaScheduler := fun _ => qualified
  hwameiStorCache := exampleCache
  scLister := exampleClassesMistyped

/-- A pending claim of 10 bytes that names no storage class. -/
def exampleClaimNoClass : PersistentVolumeClaim where
  Name := "c"
  Namespace := "default"
  Spec := { StorageClassName := none, Requests := [("storage", 10)] }

/-- Node `n1` with an HDD pool of 50 bytes, all free. -/
def exampleNode50 : LocalStorageNode where
  Name := "n1"
  Pools := [("LocalStorage_PoolHDD",
    { TotalCapacityBytes := 50, UsedCapacityBytes := 0, FreeCapacityBytes := 50 })]

/-- A planner that answers with the nodes, among the given ones, whose pool has the
free capacity that every volume requires. -/
def capacityPlanner (nodes : List LocalStorageNode) (lvs : List LocalVolume) :
    List LocalStorageNode :=
  nodes.filter (fun n =>
    lvs.all (fun lv =>
      decide (lv.Spec.RequiredCapacityBytes ≤ (n.pool lv.Spec.PoolName).FreeCapacityBytes)))

/-- A cache that holds the node `exampleNode50` and no volume. -/
def exampleCache50 : Cache where
  getLocalVolume := fun _ => .error "localvolume not found"
  getLocalStorageNode := fun name =>
    if name = "n1" then .ok exampleNode50 else .error "localstoragenode not found"

/-- A scheduler whose planner is `capacityPlanner` over the single node `exampleNode50`. -/
def exampleScheduler50 : LVMVolumeScheduler where
  replicaScheduler := capacityPlanner [exampleNode50]
  hwameiStorCache := exampleCache50
  scLister := exampleClasses

/-! ## The node manager of the local disk manager -/

/-- A disk as the registry lists it (`ListDisksByType`); the fields are those that
`rebuildLocalPools` reads. -/
structure Disk where
  DevPath : String := ""
  DiskType : String := ""
  Capacity : Int := 0
  deriving DecidableEq, Repr

/-- A volume as the registry lists it (`ListVolumesByType`); the fields are those that
`rebuildLocalPools` reads. -/
structure Volume where
  Name : String := ""
  Capacity : Int := 0
  deriving DecidableEq, Repr

/-- `registry.Manager`, the two listings that `rebuildLocalPools` calls. -/
structure RegistryManager where
  ListDisksByType : String → List Disk
  ListVolumesByType : String → List Volume

/-- What `rebuildLocalPools` uses of package `types`, which is declared outside the
sources at hand: the device types it iterates, the pool name of a device type and the
volume limit of a pool. They are parameters of the model. -/
structure TypesPackage where
  DefaultDevTypes : List String
  GetLocalDiskPoolName : String → String
  MaxLimitVolume : Int

/-- Modelled from the spec: the classes HDD, SSD and NVMe, the pool name
`"LocalStorage_Pool"` followed by the class, and `MAX_VOLUMES_PER_POOL = 1000`. -/
def specTypes : TypesPackage where
  DefaultDevTypes := ["HDD", "SSD", "NVMe"]
  GetLocalDiskPoolName := fun devType => "LocalStorage_Pool" ++ devType
  MaxLimitVolume := 1000

/-- The Go map `pools map[types.DevType]*LocalPool`, as the list of its entries; a key
that is absent (or holds nil) has no entry. -/
abbrev PoolMap := List (String × LocalPool)

/-- The map read `pools[key]`: `none` stands for nil. -/
def getPool : PoolMap → String → Option LocalPool
  | [], _ => none
  | (k, v) :: rest, key => if k = key then some v else getPool rest key

/-- The map write `pools[key] = pool`: the entry of the key is replaced, or a new entry
is added. -/
def setPool : PoolMap → String → LocalPool → PoolMap
  | [], key, pool => [(key, pool)]
  | (k, v) :: rest, key, pool =>
    if k = key then (k, pool) :: rest else (k, v) :: setPool rest key pool

/-- `nodeManager`, the fields that the rebuild of the pools reads or writes. -/
structure nodeManager where
  nodeName : String := ""
  registryManager : RegistryManager
  pools : PoolMap := []

/-- The sum `totalCapacity += classDisk.Capacity` over the disks, in `int64`. -/
def totalCapacityOf (disks : List Disk) : Int :=
  disks.foldl (fun totalCapacity classDisk => wrapInt64 (totalCapacity + classDisk.Capacity)) 0

/-- The running maximum `if maxCapacity < classDisk.Capacity` over the disks, from 0. -/
def maxCapacityOf (disks : List Disk) : Int :=
  disks.foldl
    (fun maxCapacity classDisk =>
      if maxCapacity < classDisk.Capacity then classDisk.Capacity else maxCapacity) 0

/-- The sum `usedCapacity += classVolume.Capacity` over the volumes, in `int64`. -/
def usedCapacityOf (volumes : List Volume) : Int :=
  volumes.foldl (fun usedCapacity classVolume => wrapInt64 (usedCapacity + classVolume.Capacity)) 0

/-- The assignments of `rebuildLocalPools` to the fields of the pool of one device
type, from the disks and volumes just listed. -/
def writeDiscovery (t : TypesPackage) (disks : List Disk) (volumes : List Volume)
    (pool : LocalPool) : LocalPool :=
  { pool with
    Volumes := volumes.map (fun classVolume => classVolume.Name)
    Disks := disks.map (fun classDisk =>
      { DevPath := classDisk.DevPath, Class := classDisk.DiskType,
        CapacityBytes := classDisk.Capacity })
    TotalCapacityBytes := totalCapacityOf disks
    UsedCapacityBytes := usedCapacityOf volumes
    FreeCapacityBytes := wrapInt64 (totalCapacityOf disks - usedCapacityOf volumes)
    TotalVolumeCount := t.MaxLimitVolume
    UsedVolumeCount := (volumes.length : Int)
    VolumeCapacityBytesLimit := maxCapacityOf disks
    FreeVolumeCount := wrapInt64 (t.MaxLimitVolume - (volumes.length : Int)) }

/-- One iteration of the loop of `rebuildLocalPools`, for the device type `devType`. -/
def rebuildLocalPool (t : TypesPackage) (registryManager : RegistryManager)
    (pools : PoolMap) (devType : String) : PoolMap :=
  let poolName := t.GetLocalDiskPoolName devType
  let disks := registryManager.ListDisksByType devType
  let volumes := registryManager.ListVolumesByType devType
  if volumes.length = 0 ∧ disks.length = 0 then pools
  else
    let pool : LocalPool :=
      match getPool pools poolName with
      | none => { Class := devType, PoolType := PoolTypeRegular }
      | some existing => existing
    setPool pools poolName (writeDiscovery t disks volumes pool)

/-- `nodeManager.rebuildLocalPools`. -/
def rebuildLocalPools (t : TypesPackage) (m : nodeManager) : nodeManager :=
  { m with pools := t.DefaultDevTypes.foldl (rebuildLocalPool t m.registryManager) m.pools }

/-- The change of a pool already in the map: the value at the key's entry is replaced
by its image under `f`. -/
def modifyPool (key : String) (f : LocalPool → LocalPool) : PoolMap → PoolMap
  | [] => []
  | (k, v) :: rest => if k = key then (k, f v) :: rest else (k, v) :: modifyPool key f rest

/-- One iteration of the loop of `rebuildLocalPools` on a map that already has the
pool of the device type. -/
def rewriteLocalPool (t : TypesPackage) (registryManager : RegistryManager)
    (pools : PoolMap) (devType : String) : PoolMap :=
  let disks := registryManager.ListDisksByType devType
  let volumes := registryManager.ListVolumesByType devType
  if volumes.length = 0 ∧ disks.length = 0 then pools
  else modifyPool (t.GetLocalDiskPoolName devType) (writeDiscovery t disks volumes) pools

/-- A registry with two HDD disks of 100 and 200 bytes and two HDD replicas of 30 and
40 bytes. -/
def exampleRegistry : RegistryManager where
  ListDisksByType := fun devType =>
    if devType = "HDD" then
      [{ DevPath := "/dev/sda", DiskType := "HDD", Capacity := 100 },
       { DevPath := "/dev/sdb", DiskType := "HDD", Capacity := 200 }]
    else []
  ListVolumesByType := fun devType =>
    if devType = "HDD" then
      [{ Name := "replica-1", Capacity := 30 }, { Name := "replica-2", Capacity := 40 }]
    else []

/-- A registry that lists no disk and no volume. -/
def emptyRegistry : RegistryManager where
  ListDisksByType := fun _ => []
  ListVolumesByType := fun _ => []

/-! ## Further nodes and storage classes used to instantiate the theorems -/

/-- Node `n3`: an HDD pool with `2 ^ 53 + 3` bytes free. -/
def exampleNodeHuge : LocalStorageNode where
  Name := "n3"
  Pools := [("LocalStorage_PoolHDD",
    { TotalCapacityBytes := 9007199254740995, UsedCapacityBytes := 0,
      FreeCapacityBytes := 9007199254740995 })]

/-- Node `n4`: an HDD pool of 100 bytes with nothing free. -/
def exampleNodeFull : LocalStorageNode where
  Name := "n4"
  Pools := [("LocalStorage_PoolHDD",
    { TotalCapacityBytes := 100, UsedCapacityBytes := 100, FreeCapacityBytes := 0 })]

/-- Storage classes for HDD pools whose `replicaNumber` is not an integer (`hddTwo`),
is missing (`hddNone`), carries a sign (`hddPlus2`) or is a decimal numeral beyond
`int64` (`hddHuge`, twenty nines). -/
def exampleClassesReplica (name : String) : Except String StorageClass :=
  if name = "hddTwo" then
    .ok ⟨[("poolClass", "HDD"), ("poolType", "REGULAR"), ("replicaNumber", "two")]⟩
  else if name = "hddNone" then .ok ⟨[("poolClass", "HDD"), ("poolType", "REGULAR")]⟩
  else if name = "hddPlus2" then
    .ok ⟨[("poolClass", "HDD"), ("poolType", "REGULAR"), ("replicaNumber", "+2")]⟩
  else if name = "hddHuge" then
    .ok ⟨[("poolClass", "HDD"), ("poolType", "REGULAR"),
      ("replicaNumber", "99999999999999999999")]⟩
  else .error "storageclass not found"

/-- A scheduler over `exampleCache` and `exampleClassesReplica` whose planner answers
with the given nodes. -/
def exampleSchedulerReplica (qualified : List LocalStorageNode) : LVMVolumeScheduler where
  replicaScheduler := fun _ => qualified
  hwameiStorCache := exampleCache
  scLister := exampleClassesReplica

/-! ## The publication of the pools: `syncNodeResources` -/

/-- The errors of the resource store: the object is not there, the update carries a
stale version, or the store cannot be reached. -/
inductive StoreError where
  /-- `errors.IsNotFound` -/
  | notFound
  /-- `errors.IsConflict`, the answer to an update of a stale version -/
  | conflict
  /-- any other error, kept as its message -/
  | unavailable (msg : String)
  deriving DecidableEq, Repr

/-- `LocalDiskNodeStatus`, the fields that `syncNodeResources` writes. `Pools` is a
`map[types.DevType]LocalPool`; the nil map and the empty map are both `[]`. -/
structure LocalDiskNodeStatus where
  Pools : PoolMap := []
  TotalDisk : Int := 0
  TotalCapacity : Int := 0
  FreeCapacity : Int := 0
  deriving DecidableEq, Repr

/-- `LocalDiskNode`, the fields that the node manager reads or writes
(`AttachNode` is `Spec.AttachNode`). -/
structure LocalDiskNode where
  Name : String := ""
  AttachNode : String := ""
  Status : LocalDiskNodeStatus := {}
  deriving DecidableEq, Repr

/-- `client.Client`, the two calls of `syncNodeResources`. The store is outside the
sources at hand, so its behaviour is a parameter: a call answers from a state of
the store and leaves a state of the store. -/
structure K8sClient (σ : Type) where
  Get : σ → String → Except StoreError LocalDiskNode × σ
  Update : σ → LocalDiskNode → Option StoreError × σ

/-- A call that `syncNodeResources` makes to the store. -/
inductive StoreCall where
  | get (name : String)
  | update (obj : LocalDiskNode)
  deriving DecidableEq, Repr

/-- What a call of `syncNodeResources` leaves behind: the error it returns, the
manager, the store, and the calls it made to the store, in order. -/
structure SyncResult (σ : Type) where
  err : Option StoreError
  manager : nodeManager
  store : σ
  calls : List StoreCall

/-- The variables of the loop of `syncNodeResources`. -/
structure SyncLoopState where
  localPools : PoolMap := []
  totalDisk : Int := 0
  totalCapacity : Int := 0
  freeCapacity : Int := 0
  deriving DecidableEq, Repr

/-- One iteration of the loop of `syncNodeResources`, on the entry of `m.pools` with
the key `pooName`: the copy of `DeepCopyInto` is the value itself. -/
def syncLoopStep (st : SyncLoopState) (entry : String × LocalPool) : SyncLoopState :=
  let pooName := entry.1
  let lp := entry.2
  { localPools := setPool st.localPools pooName lp
    totalDisk := wrapInt64 (st.totalDisk + (lp.Disks.length : Int))
    totalCapacity := wrapInt64 (st.totalCapacity + lp.TotalCapacityBytes)
    freeCapacity := wrapInt64 (st.freeCapacity + lp.FreeCapacityBytes) }

/-- `nodeManager.syncNodeResources`. The client `m.k8sClient` and the state of the
store are arguments; the loop takes the entries of `m.pools` in the order of the
list. -/
def syncNodeResources {σ : Type} (k8sClient : K8sClient σ) (store : σ) (m : nodeManager) :
    SyncResult σ :=
  match k8sClient.Get store m.nodeName with
  | (.error err, store1) =>
    { err := some err, manager := m, store := store1, calls := [.get m.nodeName] }
  | (.ok diskNode, store1) =>
    let st := m.pools.foldl syncLoopStep {}
    let diskNode : LocalDiskNode :=
      { diskNode with
        Status :=
          { diskNode.Status with
            Pools := st.localPools
            TotalDisk := st.totalDisk
            TotalCapacity := st.totalCapacity
            FreeCapacity := st.freeCapacity } }
    match k8sClient.Update store1 diskNode with
    | (err, store2) =>
      { err := err, manager := m, store := store2,
        calls := [.get m.nodeName, .update diskNode] }

/-- A store that holds one node object and answers the updates with the replies of a
script, in turn: `none` accepts the update, an error refuses it; once the script is
used up every update is accepted. -/
structure ScriptedStore where
  node : LocalDiskNode
  replies : List (Option StoreError) := []
  deriving DecidableEq, Repr

/-- The client of a `ScriptedStore`. -/
def scriptedClient : K8sClient ScriptedStore where
  Get := fun st name =>
    if name = st.node.Name then (.ok st.node, st) else (.error .notFound, st)
  Update := fun st obj =>
    match st.replies with
    | [] => (none, { st with node := obj })
    | none :: rest => (none, { node := obj, replies := rest })
    | some e :: rest => (some e, { st with replies := rest })

/-- The manager of node `n1` after a rebuild on `exampleRegistry`: one HDD pool. -/
def exampleManager : nodeManager :=
  rebuildLocalPools specTypes { nodeName := "n1", registryManager := exampleRegistry }

/-- The node object of `n1` as an earlier publication left it: an SSD pool that the
node no longer has. -/
def exampleDiskNode : LocalDiskNode :=
  { Name := "n1", AttachNode := "n1",
    Status :=
      { Pools := [("LocalStorage_PoolSSD",
          { Class := "SSD", TotalCapacityBytes := 50, FreeCapacityBytes := 50 })],
        TotalDisk := 1, TotalCapacity := 50, FreeCapacity := 50 } }

/-! ## Properties of the binary64 model -/

theorem pow2_eq_zpow (e : ℤ) : pow2 e = (2 : ℚ) ^ e := by
  unfold pow2
  split
  · next h =>
    obtain ⟨n, rfl⟩ := Int.eq_ofNat_of_zero_le h
    simp
  · next h =>
    obtain ⟨n, hn⟩ := Int.eq_ofNat_of_zero_le (by omega : 0 ≤ -e)
    have he : e = -(n : ℤ) := by omega
    subst he
    simp

theorem bitLenAux_eq (fuel n : ℕ) (h : n ≤ fuel) :
    bitLenAux fuel n = if n = 0 then 0 else Nat.log 2 n + 1 := by
  induction fuel generalizing n with
  | zero =>
    have : n = 0 := by omega
    subst this
    simp [bitLenAux]
  | succ fuel ih =>
    rw [bitLenAux]
    by_cases hn : n = 0
    · simp [hn]
    · simp only [hn, if_false]
      rw [ih (n / 2) (by omega)]
      by_cases h2 : n / 2 = 0
      · have h1 : n = 1 := by omega
        subst h1
        simp
      · simp only [h2, if_false]
        rw [Nat.log_of_one_lt_of_le (by norm_num : 1 < 2) (by omega : 2 ≤ n)]

theorem bitLen_eq (n : ℕ) (hn : n ≠ 0) : bitLen n = Nat.log 2 n + 1 := by
  rw [bitLen, bitLenAux_eq n n le_rfl]
  simp [hn]

theorem ilog2_spec (q : ℚ) (hq : q ≠ 0) :
    (2 : ℚ) ^ ilog2 q ≤ |q| ∧ |q| < (2 : ℚ) ^ (ilog2 q + 1) := by
  have hnum : q.num.natAbs ≠ 0 := by
    simpa using hq
  have hden : q.den ≠ 0 := q.den_nz
  set a := Nat.log 2 q.num.natAbs with ha
  set b := Nat.log 2 q.den with hb
  have ha1 : (2 : ℚ) ^ a ≤ (q.num.natAbs : ℚ) := by
    exact_mod_cast Nat.pow_log_le_self 2 hnum
  have ha2 : (q.num.natAbs : ℚ) < (2 : ℚ) ^ (a + 1) := by
    exact_mod_cast Nat.lt_pow_succ_log_self (by norm_num : 1 < 2) q.num.natAbs
  have hb1 : (2 : ℚ) ^ b ≤ (q.den : ℚ) := by
    exact_mod_cast Nat.pow_log_le_self 2 hden
  have hb2 : (q.den : ℚ) < (2 : ℚ) ^ (b + 1) := by
    exact_mod_cast Nat.lt_pow_succ_log_self (by norm_num : 1 < 2) q.den
  have hdpos : (0 : ℚ) < q.den := by exact_mod_cast Nat.pos_of_ne_zero hden
  have habs : |q| = (q.num.natAbs : ℚ) / q.den := by
    conv_lhs => rw [← Rat.num_div_den q]
    rw [abs_div, abs_of_pos hdpos]
    congr 1
    rw [Nat.cast_natAbs, Int.cast_abs]
  have hk : ((bitLen q.num.natAbs : ℤ) - (bitLen q.den : ℤ)) = (a : ℤ) - b := by
    rw [bitLen_eq _ hnum, bitLen_eq _ hden]
    push_cast
    ring
  have hlow : (2 : ℚ) ^ ((a : ℤ) - b - 1) ≤ |q| := by
    rw [habs, le_div_iff₀ hdpos]
    have : (2 : ℚ) ^ ((a : ℤ) - b - 1) * 2 ^ (b + 1) = 2 ^ a := by
      rw [← zpow_natCast, ← zpow_natCast, ← zpow_add₀ (by norm_num : (2 : ℚ) ≠ 0)]
      congr 1
      push_cast
      ring
    calc (2 : ℚ) ^ ((a : ℤ) - b - 1) * q.den
        ≤ (2 : ℚ) ^ ((a : ℤ) - b - 1) * 2 ^ (b + 1) := by
          apply mul_le_mul_of_nonneg_left hb2.le
          positivity
      _ = 2 ^ a := this
      _ ≤ _ := ha1
  have hhigh : |q| < (2 : ℚ) ^ ((a : ℤ) - b + 1) := by
    rw [habs, div_lt_iff₀ hdpos]
    have : (2 : ℚ) ^ ((a : ℤ) - b + 1) * 2 ^ b = 2 ^ (a + 1) := by
      rw [← zpow_natCast, ← zpow_natCast, ← zpow_add₀ (by norm_num : (2 : ℚ) ≠ 0)]
      congr 1
      push_cast
      ring
    calc (q.num.natAbs : ℚ) < 2 ^ (a + 1) := ha2
      _ = (2 : ℚ) ^ ((a : ℤ) - b + 1) * 2 ^ b := this.symm
      _ ≤ (2 : ℚ) ^ ((a : ℤ) - b + 1) * q.den := by
          apply mul_le_mul_of_nonneg_left hb1
          positivity
  unfold ilog2
  simp only [hk, pow2_eq_zpow]
  split
  · next h => exact ⟨h, hhigh⟩
  · next h =>
    refine ⟨hlow, ?_⟩
    rw [sub_add_cancel]
    exact not_le.mp h

theorem qfloor_eq_floor (q : ℚ) : qfloor q = ⌊q⌋ := by
  rw [qfloor]
  exact (Rat.floor_def' q).symm

theorem roundHalfEven_near (t : ℚ) : |(roundHalfEven t : ℚ) - t| ≤ 1 / 2 := by
  have h0 : (⌊t⌋ : ℚ) ≤ t := Int.floor_le t
  have h1 : t < (⌊t⌋ : ℚ) + 1 := Int.lt_floor_add_one t
  unfold roundHalfEven
  simp only [qfloor_eq_floor]
  split
  · next h =>
    rw [abs_le]
    constructor <;> linarith
  · next h =>
    split
    · next h' =>
      push_cast
      rw [abs_le]
      constructor <;> linarith
    · next h' =>
      have heq : t - ⌊t⌋ = 1 / 2 := le_antisymm (not_lt.mp h') (not_lt.mp h)
      split
      · rw [abs_le]
        constructor <;> linarith
      · push_cast
        rw [abs_le]
        constructor <;> linarith

/-- Rounding to binary64 in the range of the normal numbers: the result is finite and
its relative error is at most `2 ^ (-53)`. -/
theorem F64.round_near (q : ℚ) (hlo : (2 : ℚ) ^ (-1022 : ℤ) ≤ |q|)
    (hhi : |q| ≤ (2 : ℚ) ^ (1023 : ℤ)) :
    ∃ v, F64.round q = .fin v ∧ |v - q| ≤ |q| / 2 ^ 53 := by
  have hq : q ≠ 0 := by
    intro h
    rw [h, abs_zero] at hlo
    exact absurd hlo (not_le.mpr (by positivity))
  obtain ⟨hl, hu⟩ := ilog2_spec q hq
  have he0 : -1022 ≤ ilog2 q := by
    by_contra hcon
    have hlt : ilog2 q + 1 ≤ -1022 := by omega
    have : (2 : ℚ) ^ (ilog2 q + 1) ≤ (2 : ℚ) ^ (-1022 : ℤ) :=
      zpow_le_zpow_right₀ (by norm_num) hlt
    linarith
  have hmax : max (ilog2 q - 52) (-1074) = ilog2 q - 52 := max_eq_left (by omega)
  set e := ilog2 q - 52 with he
  have hpe : (0 : ℚ) < (2 : ℚ) ^ e := by positivity
  set m := roundHalfEven (q / (2 : ℚ) ^ e) with hm
  have hnear := roundHalfEven_near (q / (2 : ℚ) ^ e)
  rw [← hm] at hnear
  have herr : |(m : ℚ) * (2 : ℚ) ^ e - q| ≤ (2 : ℚ) ^ e / 2 := by
    have : (m : ℚ) * (2 : ℚ) ^ e - q = ((m : ℚ) - q / (2 : ℚ) ^ e) * (2 : ℚ) ^ e := by
      field_simp
    rw [this, abs_mul, abs_of_pos hpe]
    calc |(m : ℚ) - q / (2 : ℚ) ^ e| * (2 : ℚ) ^ e ≤ 1 / 2 * (2 : ℚ) ^ e :=
          mul_le_mul_of_nonneg_right hnear hpe.le
      _ = (2 : ℚ) ^ e / 2 := by ring
  have hulp : (2 : ℚ) ^ e / 2 ≤ |q| / 2 ^ 53 := by
    have h2 : (2 : ℚ) ^ e = (2 : ℚ) ^ ilog2 q / 2 ^ 52 := by
      rw [he, zpow_sub₀ (by norm_num : (2 : ℚ) ≠ 0)]
      norm_num
    rw [h2]
    have : (2 : ℚ) ^ ilog2 q / 2 ^ 52 / 2 = (2 : ℚ) ^ ilog2 q / 2 ^ 53 := by
      rw [div_div]
      norm_num
    rw [this]
    exact div_le_div_of_nonneg_right hl (by positivity)
  have hbound : |(m : ℚ) * (2 : ℚ) ^ e - q| ≤ |q| / 2 ^ 53 := herr.trans hulp
  have hfin : ¬ (2 : ℚ) ^ (1024 : ℤ) ≤ |(m : ℚ) * (2 : ℚ) ^ e| := by
    rw [not_le]
    have h1 : |(m : ℚ) * (2 : ℚ) ^ e| ≤ |q| + |q| / 2 ^ 53 := by
      calc |(m : ℚ) * (2 : ℚ) ^ e| = |q + ((m : ℚ) * (2 : ℚ) ^ e - q)| := by ring_nf
        _ ≤ |q| + |(m : ℚ) * (2 : ℚ) ^ e - q| := abs_add _ _
        _ ≤ |q| + |q| / 2 ^ 53 := by linarith
    have h2 : |q| + |q| / 2 ^ 53 ≤ (2 : ℚ) ^ (1023 : ℤ) + (2 : ℚ) ^ (1023 : ℤ) / 2 ^ 53 := by
      have := div_le_div_of_nonneg_right hhi (by positivity : (0 : ℚ) ≤ 2 ^ 53)
      linarith
    have h3 : (2 : ℚ) ^ (1023 : ℤ) + (2 : ℚ) ^ (1023 : ℤ) / 2 ^ 53 < (2 : ℚ) ^ (1024 : ℤ) := by
      have h1024 : (2 : ℚ) ^ (1024 : ℤ) = 2 * (2 : ℚ) ^ (1023 : ℤ) := by
        rw [show (1024 : ℤ) = 1 + 1023 by norm_num, zpow_add₀ (by norm_num : (2 : ℚ) ≠ 0)]
        norm_num
      have hp : (0 : ℚ) < (2 : ℚ) ^ (1023 : ℤ) := by positivity
      rw [h1024]
      have : (2 : ℚ) ^ (1023 : ℤ) / 2 ^ 53 < (2 : ℚ) ^ (1023 : ℤ) := by
        apply div_lt_self hp
        norm_num
      linarith
    linarith
  refine ⟨(m : ℚ) * (2 : ℚ) ^ e, ?_, hbound⟩
  unfold F64.round
  simp only [hq, if_false, hmax, pow2_eq_zpow]
  rw [← hm]
  simp only [hfin, if_false]

/-- Rounding of a positive rational of moderate size: finite, within a factor
`1 ± 2 ^ (-53)` of the exact value. -/
theorem F64.round_pos_bounds (q : ℚ) (hlo : 1 / 2 ^ 70 ≤ q) (hhi : q ≤ 2 ^ 70) :
    ∃ v, F64.round q = .fin v ∧ q * (1 - 1 / 2 ^ 53) ≤ v ∧ v ≤ q * (1 + 1 / 2 ^ 53) := by
  have hpos : 0 < q := lt_of_lt_of_le (by positivity) hlo
  have habs : |q| = q := abs_of_pos hpos
  have h1 : (2 : ℚ) ^ (-1022 : ℤ) ≤ |q| := by
    rw [habs]
    refine le_trans ?_ hlo
    have : (1 : ℚ) / 2 ^ 70 = (2 : ℚ) ^ (-70 : ℤ) := by
      rw [zpow_neg, one_div]
      norm_cast
    rw [this]
    exact zpow_le_zpow_right₀ (by norm_num) (by norm_num)
  have h2 : |q| ≤ (2 : ℚ) ^ (1023 : ℤ) := by
    rw [habs]
    refine le_trans hhi ?_
    have : (2 : ℚ) ^ 70 = (2 : ℚ) ^ (70 : ℤ) := by norm_cast
    rw [this]
    exact zpow_le_zpow_right₀ (by norm_num) (by norm_num)
  obtain ⟨v, hv, herr⟩ := F64.round_near q h1 h2
  rw [habs, abs_le] at herr
  refine ⟨v, hv, ?_, ?_⟩
  · have := herr.1
    linarith
  · have := herr.2
    linarith

theorem F64.round_zero : F64.round 0 = .fin 0 := by
  simp [F64.round]

theorem F64.ofInt64_MaxNodeScore : F64.ofInt64 MaxNodeScore = .fin 100 := by
  decide!

/-- The float64 expression `float64(a) / float64(b) * float64(MaxNodeScore)` shared by
`scoreOneVolume` and `Score`, for integers `0 < a ≤ b < 2 ^ 63`: the result is finite
and within a factor `1 ± 2 ^ (-50)` of `a / b * 100`. -/
theorem scoreRatio_bounds (a b : Int) (ha : 0 < a) (hab : a ≤ b) (hb : b < 2 ^ 63) :
    ∃ P, F64.mul (F64.div (F64.ofInt64 a) (F64.ofInt64 b)) (F64.ofInt64 MaxNodeScore) = .fin P ∧
      (a : ℚ) / b * 100 * (1 - 1 / 2 ^ 50) ≤ P ∧ P ≤ (a : ℚ) / b * 100 * (1 + 1 / 2 ^ 50) := by
  have haQ : (1 : ℚ) ≤ a := by exact_mod_cast ha
  have hbQ : (b : ℚ) ≤ 2 ^ 63 := by exact_mod_cast hb.le
  have habQ : (a : ℚ) ≤ b := by exact_mod_cast hab
  have hbpos : (0 : ℚ) < b := by linarith
  obtain ⟨A, hA, hA1, hA2⟩ := F64.round_pos_bounds (a : ℚ)
    (le_trans (by norm_num) haQ) (le_trans (habQ.trans hbQ) (by norm_num))
  obtain ⟨B, hB, hB1, hB2⟩ := F64.round_pos_bounds (b : ℚ)
    (le_trans (by norm_num) (haQ.trans habQ)) (le_trans hbQ (by norm_num))
  have hApos : 0 < A := lt_of_lt_of_le (mul_pos (by linarith) (by norm_num)) hA1
  have hBpos : 0 < B := lt_of_lt_of_le (mul_pos hbpos (by norm_num)) hB1
  set y : ℚ := (a : ℚ) / b with hy
  have hypos : 0 < y := div_pos (by linarith) hbpos
  have hy1 : y ≤ 1 := (div_le_one hbpos).mpr habQ
  have hylo : 1 / 2 ^ 63 ≤ y := by
    rw [hy, div_le_div_iff₀ (by positivity) hbpos]
    nlinarith
  -- the quotient of the two conversions
  have hR1 : y * (1 - 2 / 2 ^ 53) ≤ A / B := by
    rw [le_div_iff₀ hBpos]
    have hyb : y * b = a := by
      rw [hy]
      field_simp
    calc y * (1 - 2 / 2 ^ 53) * B ≤ y * (1 - 2 / 2 ^ 53) * (b * (1 + 1 / 2 ^ 53)) := by
          apply mul_le_mul_of_nonneg_left hB2
          apply mul_nonneg hypos.le
          norm_num
      _ = (y * b) * ((1 - 2 / 2 ^ 53) * (1 + 1 / 2 ^ 53)) := by ring
      _ ≤ (y * b) * (1 - 1 / 2 ^ 53) := by
          apply mul_le_mul_of_nonneg_left _ (by rw [hyb]; linarith)
          norm_num
      _ = a * (1 - 1 / 2 ^ 53) := by rw [hyb]
      _ ≤ A := hA1
  have hR2 : A / B ≤ y * (1 + 3 / 2 ^ 53) := by
    rw [div_le_iff₀ hBpos]
    have hyb : y * b = a := by
      rw [hy]
      field_simp
    calc A ≤ a * (1 + 1 / 2 ^ 53) := hA2
      _ = (y * b) * (1 + 1 / 2 ^ 53) := by rw [hyb]
      _ ≤ (y * b) * ((1 + 3 / 2 ^ 53) * (1 - 1 / 2 ^ 53)) := by
          apply mul_le_mul_of_nonneg_left _ (by rw [hyb]; linarith)
          norm_num
      _ = y * (1 + 3 / 2 ^ 53) * (b * (1 - 1 / 2 ^ 53)) := by ring
      _ ≤ y * (1 + 3 / 2 ^ 53) * B := by
          apply mul_le_mul_of_nonneg_left hB1
          apply mul_nonneg hypos.le
          norm_num
  have hRlo : 1 / 2 ^ 70 ≤ A / B := by
    refine le_trans ?_ hR1
    calc (1 : ℚ) / 2 ^ 70 ≤ 1 / 2 ^ 63 * (1 - 2 / 2 ^ 53) := by norm_num
      _ ≤ y * (1 - 2 / 2 ^ 53) := mul_le_mul_of_nonneg_right hylo (by norm_num)
  have hRhi : A / B ≤ 2 := by
    refine le_trans hR2 ?_
    calc y * (1 + 3 / 2 ^ 53) ≤ 1 * (1 + 3 / 2 ^ 53) :=
          mul_le_mul_of_nonneg_right hy1 (by norm_num)
      _ ≤ 2 := by norm_num
  obtain ⟨Q, hQ, hQ1, hQ2⟩ := F64.round_pos_bounds (A / B) hRlo (hRhi.trans (by norm_num))
  have hRpos : 0 < A / B := div_pos hApos hBpos
  have hQlo : 1 / 2 ^ 70 * (1 - 1 / 2 ^ 53) ≤ Q :=
    le_trans (mul_le_mul_of_nonneg_right hRlo (by norm_num)) hQ1
  have hQhi : Q ≤ 2 * (1 + 1 / 2 ^ 53) :=
    le_trans hQ2 (mul_le_mul_of_nonneg_right hRhi (by norm_num))
  have hQpos : 0 < Q := lt_of_lt_of_le (by norm_num) hQlo
  obtain ⟨P, hP, hP1, hP2⟩ := F64.round_pos_bounds (Q * 100)
    (by nlinarith) (by nlinarith)
  refine ⟨P, ?_, ?_, ?_⟩
  · rw [F64.ofInt64_MaxNodeScore, F64.ofInt64, F64.ofInt64, hA, hB]
    simp only [F64.div, hBpos.ne', if_false, hQ, F64.mul, hP]
  · calc y * 100 * (1 - 1 / 2 ^ 50)
        ≤ y * 100 * ((1 - 2 / 2 ^ 53) * (1 - 1 / 2 ^ 53) * (1 - 1 / 2 ^ 53)) := by
          apply mul_le_mul_of_nonneg_left _ (by positivity)
          norm_num
      _ = y * (1 - 2 / 2 ^ 53) * (1 - 1 / 2 ^ 53) * 100 * (1 - 1 / 2 ^ 53) := by ring
      _ ≤ A / B * (1 - 1 / 2 ^ 53) * 100 * (1 - 1 / 2 ^ 53) := by
          apply mul_le_mul_of_nonneg_right _ (by norm_num)
          apply mul_le_mul_of_nonneg_right _ (by norm_num)
          exact mul_le_mul_of_nonneg_right hR1 (by norm_num)
      _ ≤ Q * 100 * (1 - 1 / 2 ^ 53) := by
          apply mul_le_mul_of_nonneg_right _ (by norm_num)
          exact mul_le_mul_of_nonneg_right hQ1 (by norm_num)
      _ ≤ P := hP1
  · calc P ≤ Q * 100 * (1 + 1 / 2 ^ 53) := hP2
      _ ≤ A / B * (1 + 1 / 2 ^ 53) * 100 * (1 + 1 / 2 ^ 53) := by
          apply mul_le_mul_of_nonneg_right _ (by norm_num)
          exact mul_le_mul_of_nonneg_right hQ2 (by norm_num)
      _ ≤ y * (1 + 3 / 2 ^ 53) * (1 + 1 / 2 ^ 53) * 100 * (1 + 1 / 2 ^ 53) := by
          apply mul_le_mul_of_nonneg_right _ (by norm_num)
          apply mul_le_mul_of_nonneg_right _ (by norm_num)
          exact mul_le_mul_of_nonneg_right hR2 (by norm_num)
      _ = y * 100 * ((1 + 3 / 2 ^ 53) * (1 + 1 / 2 ^ 53) * (1 + 1 / 2 ^ 53)) := by ring
      _ ≤ y * 100 * (1 + 1 / 2 ^ 50) := by
          apply mul_le_mul_of_nonneg_left _ (by positivity)
          norm_num

theorem wrapInt64_of_range (x : Int) (h0 : -(2 ^ 63) ≤ x) (h1 : x < 2 ^ 63) :
    wrapInt64 x = x := by
  unfold wrapInt64
  omega

/-- Conversion to `int64` of a finite non-negative value in range: its floor. -/
theorem F64.toInt64_fin_nonneg (p : Platform) (P : ℚ) (h0 : 0 ≤ P) (h1 : P < 2 ^ 63) :
    F64.toInt64 p (.fin P) = ⌊P⌋ := by
  have hf0 : (0 : ℤ) ≤ ⌊P⌋ := Int.floor_nonneg.mpr h0
  have hf1 : ⌊P⌋ < (2 : ℤ) ^ 63 := by
    rw [Int.floor_lt]
    exact_mod_cast h1
  have ht : F64.truncate P = ⌊P⌋ := by
    simp only [F64.truncate, h0, if_true, qfloor_eq_floor]
  have hlo : -(2 : ℤ) ^ 63 ≤ ⌊P⌋ := by
    have : -(2 : ℤ) ^ 63 ≤ 0 := by norm_num
    exact this.trans hf0
  simp only [F64.toInt64, ht, hlo, hf1, and_self, if_true]

/-- The integer that `int64(float64(a) / float64(b) * float64(MaxNodeScore))` yields
for `0 ≤ a ≤ b`, `0 < b < 2 ^ 63`: it lies in `[0, 100]`, between the floors of
`a / b * 100 - 2 ^ (-40)` and `a / b * 100 + 2 ^ (-40)`, on every platform. -/
theorem scoreRatio_toInt64 (p : Platform) (a b : Int) (ha : 0 ≤ a) (hab : a ≤ b)
    (hb0 : 0 < b) (hb : b < 2 ^ 63) :
    ∃ sc : Int,
      F64.toInt64 p
        (F64.mul (F64.div (F64.ofInt64 a) (F64.ofInt64 b)) (F64.ofInt64 MaxNodeScore)) = sc ∧
      ⌊(a : ℚ) / b * 100 - 1 / 2 ^ 40⌋ ≤ sc ∧ sc ≤ ⌊(a : ℚ) / b * 100 + 1 / 2 ^ 40⌋ ∧
      0 ≤ sc ∧ sc ≤ 100 := by
  have hbQ : (0 : ℚ) < b := by exact_mod_cast hb0
  rcases eq_or_lt_of_le ha with h0 | hpos
  · subst h0
    have hbQ1 : (1 : ℚ) ≤ b := by exact_mod_cast hb0
    have hbQ2 : (b : ℚ) ≤ 2 ^ 63 := by exact_mod_cast hb.le
    obtain ⟨B, hB, hB1, _⟩ := F64.round_pos_bounds (b : ℚ)
      (le_trans (by norm_num) hbQ1) (le_trans hbQ2 (by norm_num))
    have hBpos : 0 < B := lt_of_lt_of_le (mul_pos hbQ (by norm_num)) hB1
    have hval : F64.mul (F64.div (F64.ofInt64 0) (F64.ofInt64 b)) (F64.ofInt64 MaxNodeScore)
        = .fin 0 := by
      rw [F64.ofInt64_MaxNodeScore, F64.ofInt64, F64.ofInt64, hB]
      simp [F64.div, F64.mul, F64.round_zero, hBpos.ne']
    refine ⟨0, ?_, ?_, ?_, le_rfl, by norm_num⟩
    · rw [hval, F64.toInt64_fin_nonneg p 0 le_rfl (by norm_num)]
      simp
    · rw [Int.floor_le_iff]
      norm_num
    · rw [Int.le_floor]
      norm_num
  · obtain ⟨P, hP, hP1, hP2⟩ := scoreRatio_bounds a b hpos hab hb
    have haQ : (0 : ℚ) < a := by exact_mod_cast hpos
    have habQ : (a : ℚ) ≤ b := by exact_mod_cast hab
    have hx0 : 0 < (a : ℚ) / b * 100 := by positivity
    have hx1 : (a : ℚ) / b * 100 ≤ 100 := by
      have : (a : ℚ) / b ≤ 1 := (div_le_one hbQ).mpr habQ
      linarith
    have hlow : (a : ℚ) / b * 100 - 1 / 2 ^ 40 ≤ P := by
      have : (a : ℚ) / b * 100 * (1 / 2 ^ 50) ≤ 100 * (1 / 2 ^ 50) :=
        mul_le_mul_of_nonneg_right hx1 (by norm_num)
      have h2 : (100 : ℚ) * (1 / 2 ^ 50) ≤ 1 / 2 ^ 40 := by norm_num
      linarith
    have hhigh : P ≤ (a : ℚ) / b * 100 + 1 / 2 ^ 40 := by
      have : (a : ℚ) / b * 100 * (1 / 2 ^ 50) ≤ 100 * (1 / 2 ^ 50) :=
        mul_le_mul_of_nonneg_right hx1 (by norm_num)
      have h2 : (100 : ℚ) * (1 / 2 ^ 50) ≤ 1 / 2 ^ 40 := by norm_num
      linarith
    have hP0 : 0 ≤ P := by
      refine le_trans ?_ hP1
      exact mul_nonneg hx0.le (by norm_num)
    have hP101 : P < 101 := by
      have h2 : (1 : ℚ) / 2 ^ 40 < 1 := by norm_num
      linarith
    refine ⟨⌊P⌋, ?_, Int.floor_le_floor hlow, Int.floor_le_floor hhigh,
      Int.floor_nonneg.mpr hP0, ?_⟩
    · rw [hP]
      exact F64.toInt64_fin_nonneg p P hP0 (lt_trans hP101 (by norm_num))
    · have : ⌊P⌋ < 101 := by
        rw [Int.floor_lt]
        exact_mod_cast hP101
      omega

/-! ## Filter: bound volumes -/

/-- The loop over bound volumes ends in acceptance without an error or in rejection
with an error; it never rejects silently. -/
theorem existingLocalVolumesLoop_cases (s : LVMVolumeScheduler) (node : Node)
    (lvs : List String) :
    existingLocalVolumesLoop s node lvs = (true, none) ∨
      ∃ e, existingLocalVolumesLoop s node lvs = (false, some e) := by
  induction lvs with
  | nil => exact Or.inl rfl
  | cons n rest ih =>
    cases hget : s.hwameiStorCache.getLocalVolume n with
    | error e => exact Or.inr ⟨.cacheGet e, by simp [existingLocalVolumesLoop, hget]⟩
    | ok lv =>
      cases hcfg : lv.Spec.Config with
      | none =>
        exact Or.inr ⟨.pendingLocalVolume, by simp [existingLocalVolumesLoop, hget, hcfg]⟩
      | some cfg =>
        by_cases hany : cfg.Replicas.any (fun rep => rep.Hostname == node.Name) = true
        · have hstep : existingLocalVolumesLoop s node (n :: rest) =
              existingLocalVolumesLoop s node rest := by
            rw [existingLocalVolumesLoop]
            simp only [hget, hcfg, hany, if_true]
          rw [hstep]
          exact ih
        · refine Or.inr ⟨.notRightNode, ?_⟩
          rw [existingLocalVolumesLoop]
          simp only [hget, hcfg, hany, Bool.false_eq_true, if_false]

/-- The same for `filterForExistingLocalVolumes`. -/
theorem filterForExistingLocalVolumes_cases (s : LVMVolumeScheduler) (node : Node)
    (lvs : List String) :
    filterForExistingLocalVolumes s lvs node = (true, none) ∨
      ∃ e, filterForExistingLocalVolumes s lvs node = (false, some e) := by
  unfold filterForExistingLocalVolumes
  split
  · exact Or.inl rfl
  · exact existingLocalVolumesLoop_cases s node lvs

/-- When the bound-volume stage rejects, `Filter` returns false with that error,
whatever the pending claims are. -/
theorem Filter_of_existing_rejects (s : LVMVolumeScheduler) (lvs : List String)
    (pendingPVCs : List PersistentVolumeClaim) (node : Node) (e : SchedError)
    (h : filterForExistingLocalVolumes s lvs node = (false, some e)) :
    Filter s lvs pendingPVCs node = .ok (false, some e) := by
  simp [Filter, h]

/-- When the bound-volume stage accepts, `Filter` is the pending-claim stage. -/
theorem Filter_of_existing_accepts (s : LVMVolumeScheduler) (lvs : List String)
    (pendingPVCs : List PersistentVolumeClaim) (node : Node)
    (h : filterForExistingLocalVolumes s lvs node = (true, none)) :
    Filter s lvs pendingPVCs node = filterForNewPVCs s pendingPVCs node := by
  simp [Filter, h]

/-- With every listed volume in the cache and configured, the loop accepts exactly
when every volume has a replica on the node. -/
theorem existingLocalVolumesLoop_accepts_iff (s : LVMVolumeScheduler) (node : Node)
    (lvs : List String)
    (hcfg : ∀ n ∈ lvs, ∃ lv cfg,
      s.hwameiStorCache.getLocalVolume n = .ok lv ∧ lv.Spec.Config = some cfg) :
    existingLocalVolumesLoop s node lvs = (true, none) ↔
      ∀ n ∈ lvs, ∀ lv cfg, s.hwameiStorCache.getLocalVolume n = .ok lv →
        lv.Spec.Config = some cfg → ∃ rep ∈ cfg.Replicas, rep.Hostname = node.Name := by
  induction lvs with
  | nil => simp [existingLocalVolumesLoop]
  | cons n rest ih =>
    obtain ⟨lv, cfg, hget, hc⟩ := hcfg n (List.mem_cons_self _ _)
    have ih' := ih (fun m hm => hcfg m (List.mem_cons_of_mem _ hm))
    by_cases hany : cfg.Replicas.any (fun rep => rep.Hostname == node.Name) = true
    · have hstep : existingLocalVolumesLoop s node (n :: rest) =
          existingLocalVolumesLoop s node rest := by
        rw [existingLocalVolumesLoop]
        simp only [hget, hc, hany, if_true]
      rw [hstep, ih']
      constructor
      · intro h m hm lv' cfg' hget' hc'
        rcases List.mem_cons.mp hm with rfl | hm
        · rw [hget] at hget'
          cases hget'
          rw [hc] at hc'
          cases hc'
          simpa using hany
        · exact h m hm lv' cfg' hget' hc'
      · intro h m hm
        exact h m (List.mem_cons_of_mem _ hm)
    · have hstep : existingLocalVolumesLoop s node (n :: rest) =
          (false, some .notRightNode) := by
        rw [existingLocalVolumesLoop]
        simp only [hget, hc, hany, Bool.false_eq_true, if_false]
      rw [hstep]
      constructor
      · intro h
        cases h
      · intro h
        exfalso
        apply hany
        simpa using h n (List.mem_cons_self _ _) lv cfg hget hc

/-! ## Filter: pending claims -/

/-- When every claim constructs, the construction loop returns the volumes in order. -/
theorem constructLocalVolumes_of_forall₂ (s : LVMVolumeScheduler)
    (pvcs : List PersistentVolumeClaim) (lvs : List LocalVolume)
    (h : List.Forall₂ (fun pvc lv => constructLocalVolumeForPVC s pvc = .ok (.ok lv)) pvcs lvs) :
    constructLocalVolumes s pvcs = .ok (.ok lvs) := by
  induction h with
  | nil => rfl
  | cons hhead _ ih =>
    rw [constructLocalVolumes]
    simp only [hhead, ih]

/-- When the construction loop returns volumes, every claim constructed, in order. -/
theorem forall₂_of_constructLocalVolumes (s : LVMVolumeScheduler)
    (pvcs : List PersistentVolumeClaim) (lvs : List LocalVolume)
    (h : constructLocalVolumes s pvcs = .ok (.ok lvs)) :
    List.Forall₂ (fun pvc lv => constructLocalVolumeForPVC s pvc = .ok (.ok lv)) pvcs lvs := by
  induction pvcs generalizing lvs with
  | nil =>
    rw [constructLocalVolumes] at h
    cases h
    exact List.Forall₂.nil
  | cons pvc rest ih =>
    rw [constructLocalVolumes] at h
    cases hc : constructLocalVolumeForPVC s pvc with
    | error p => simp [hc] at h
    | ok r =>
      cases r with
      | error e => simp [hc] at h
      | ok lv =>
        cases hr : constructLocalVolumes s rest with
        | error p => simp [hc, hr] at h
        | ok r' =>
          cases r' with
          | error e => simp [hc, hr] at h
          | ok lvs' =>
            simp only [hc, hr] at h
            cases h
            exact List.Forall₂.cons hc (ih lvs' hr)

/-- The pending-claim stage once the claims have constructed: the comparison of the
planner's answer with the first volume's replica number, then the membership test. -/
theorem filterForNewPVCs_of_constructed (s : LVMVolumeScheduler)
    (pvcs : List PersistentVolumeClaim) (node : Node) (lv0 : LocalVolume)
    (rest : List LocalVolume) (hne : pvcs ≠ [])
    (h : constructLocalVolumes s pvcs = .ok (.ok (lv0 :: rest))) :
    filterForNewPVCs s pvcs node =
      if ((s.replicaScheduler (lv0 :: rest)).length : Int) < lv0.Spec.ReplicaNumber then
        .ok (false, some (.needNodes lv0.Spec.ReplicaNumber
          (s.replicaScheduler (lv0 :: rest)).length))
      else if (s.replicaScheduler (lv0 :: rest)).any (fun qn => qn.Name == node.Name) then
        .ok (true, none)
      else .ok (false, none) := by
  have hlen : ¬ pvcs.length = 0 := by
    simpa [List.length_eq_zero] using hne
  simp only [filterForNewPVCs, hlen, if_false, h]

/-! ## Claims on Filter -/

/-- C1: for bound volumes that all exist in the cache with a config, the bound-volume
stage (and `Filter` with no pending claims) accepts the node exactly when every listed
volume has a replica whose hostname is the node's name; when some volume misses the
node, `Filter` returns false with an error, whatever the pending claims are. -/
theorem Filter_bound_accepts_iff_replica_on_node (s : LVMVolumeScheduler)
    (lvs : List String) (pendingPVCs : List PersistentVolumeClaim) (node : Node)
    (hne : lvs ≠ [])
    (hcfg : ∀ n ∈ lvs, ∃ lv cfg,
      s.hwameiStorCache.getLocalVolume n = .ok lv ∧ lv.Spec.Config = some cfg) :
    (filterForExistingLocalVolumes s lvs node = (true, none) ↔
      ∀ n ∈ lvs, ∀ lv cfg, s.hwameiStorCache.getLocalVolume n = .ok lv →
        lv.Spec.Config = some cfg → ∃ rep ∈ cfg.Replicas, rep.Hostname = node.Name) ∧
    (Filter s lvs [] node = .ok (true, none) ↔
      ∀ n ∈ lvs, ∀ lv cfg, s.hwameiStorCache.getLocalVolume n = .ok lv →
        lv.Spec.Config = some cfg → ∃ rep ∈ cfg.Replicas, rep.Hostname = node.Name) ∧
    ((¬ ∀ n ∈ lvs, ∀ lv cfg, s.hwameiStorCache.getLocalVolume n = .ok lv →
        lv.Spec.Config = some cfg → ∃ rep ∈ cfg.Replicas, rep.Hostname = node.Name) →
      ∃ e, Filter s lvs pendingPVCs node = .ok (false, some e)) := by
  have hlen : ¬ lvs.length = 0 := by
    simpa [List.length_eq_zero] using hne
  have hdef : filterForExistingLocalVolumes s lvs node = existingLocalVolumesLoop s node lvs := by
    simp only [filterForExistingLocalVolumes, hlen, if_false]
  have hiff := existingLocalVolumesLoop_accepts_iff s node lvs hcfg
  rw [← hdef] at hiff
  refine ⟨hiff, ?_, ?_⟩
  · rw [← hiff]
    constructor
    · intro h
      rcases filterForExistingLocalVolumes_cases s node lvs with hacc | ⟨e, hrej⟩
      · exact hacc
      · rw [Filter_of_existing_rejects s lvs [] node e hrej] at h
        cases h
    · intro h
      rw [Filter_of_existing_accepts s lvs [] node h]
      rfl
  · intro hmiss
    rcases filterForExistingLocalVolumes_cases s node lvs with hacc | ⟨e, hrej⟩
    · exact absurd (hiff.mp hacc) hmiss
    · exact ⟨e, Filter_of_existing_rejects s lvs pendingPVCs node e hrej⟩

/-- C1 at volume `V` (replicas on `n1`, `n2`): `n1` is accepted. -/
theorem Filter_bound_accepts_iff_replica_on_node_witness :
    Filter (exampleScheduler []) ["V"] [] ⟨"n1"⟩ = .ok (true, none) ↔
      ∀ n ∈ ["V"], ∀ lv cfg,
        (exampleScheduler []).hwameiStorCache.getLocalVolume n = .ok lv →
        lv.Spec.Config = some cfg → ∃ rep ∈ cfg.Replicas, rep.Hostname = "n1" :=
  (Filter_bound_accepts_iff_replica_on_node (exampleScheduler []) ["V"] [] ⟨"n1"⟩
    (by decide)
    (by
      intro n hn
      rw [List.mem_singleton] at hn
      subst hn
      exact ⟨_, _, rfl, rfl⟩)).2.1

/-- C2: for a non-empty list of pending claims that all construct, when the planner's
list is at least as long as the first claim's replica number, the pending-claim stage
accepts exactly when the node's name is the name of a node of the list; otherwise it
returns false (with no error). -/
theorem filterForNewPVCs_accepts_iff_node_qualifying (s : LVMVolumeScheduler)
    (pvc0 : PersistentVolumeClaim) (pvcs : List PersistentVolumeClaim)
    (lv0 : LocalVolume) (lvs : List LocalVolume) (node : Node)
    (hall : List.Forall₂ (fun pvc lv => constructLocalVolumeForPVC s pvc = .ok (.ok lv))
      (pvc0 :: pvcs) (lv0 :: lvs))
    (hlen : lv0.Spec.ReplicaNumber ≤ ((s.replicaScheduler (lv0 :: lvs)).length : Int)) :
    (filterForNewPVCs s (pvc0 :: pvcs) node = .ok (true, none) ↔
      ∃ qn ∈ s.replicaScheduler (lv0 :: lvs), qn.Name = node.Name) ∧
    ((¬ ∃ qn ∈ s.replicaScheduler (lv0 :: lvs), qn.Name = node.Name) →
      filterForNewPVCs s (pvc0 :: pvcs) node = .ok (false, none)) := by
  have hcons := constructLocalVolumes_of_forall₂ s _ _ hall
  have hdef := filterForNewPVCs_of_constructed s (pvc0 :: pvcs) node lv0 lvs
    (List.cons_ne_nil _ _) hcons
  have hnlt : ¬ ((s.replicaScheduler (lv0 :: lvs)).length : Int) < lv0.Spec.ReplicaNumber :=
    not_lt.mpr hlen
  rw [hdef]
  simp only [hnlt, if_false]
  by_cases hany : (s.replicaScheduler (lv0 :: lvs)).any (fun qn => qn.Name == node.Name) = true
  · have hex : ∃ qn ∈ s.replicaScheduler (lv0 :: lvs), qn.Name = node.Name := by
      simpa using hany
    simp only [hany, if_true, true_iff]
    exact ⟨hex, fun h => absurd hex h⟩
  · have hex : ¬ ∃ qn ∈ s.replicaScheduler (lv0 :: lvs), qn.Name = node.Name := by
      simpa using hany
    simp only [hany, Bool.false_eq_true, if_false]
    refine ⟨⟨fun h => ?_, fun h => absurd h hex⟩, fun _ => trivial⟩
    cases h

/-- C2 at one HDD claim with one replica and planner answer `[n1, n2]`: `n1` is
accepted because it is in the list. -/
theorem filterForNewPVCs_accepts_iff_node_qualifying_witness :
    (filterForNewPVCs (exampleScheduler [{ Name := "n1" }, { Name := "n2" }])
        [exampleClaim "c" "hdd1" 10] ⟨"n1"⟩ = .ok (true, none) ↔
      ∃ qn ∈ ([{ Name := "n1" }, { Name := "n2" }] : List LocalStorageNode),
        qn.Name = "n1") ∧
    ((¬ ∃ qn ∈ ([{ Name := "n1" }, { Name := "n2" }] : List LocalStorageNode),
        qn.Name = "n1") →
      filterForNewPVCs (exampleScheduler [{ Name := "n1" }, { Name := "n2" }])
        [exampleClaim "c" "hdd1" 10] ⟨"n1"⟩ = .ok (false, none)) :=
  filterForNewPVCs_accepts_iff_node_qualifying
    (exampleScheduler [{ Name := "n1" }, { Name := "n2" }])
    (exampleClaim "c" "hdd1" 10) []
    { Spec := { PersistentVolumeClaimName := "c", PersistentVolumeClaimNamespace := "default",
                PoolName := "LocalStorage_PoolHDD", RequiredCapacityBytes := 10,
                ReplicaNumber := 1 } }
    [] ⟨"n1"⟩ (List.Forall₂.cons (by decide) List.Forall₂.nil) (by decide)

/-- C3: for a single pending claim whose volume has replica number `k` and a planner
answer shorter than `k`, `Filter` returns false with an error on every node and for
every list of bound volumes; when the bound-volume stage accepts (for instance with no
bound volumes) the error reports need `k` and have the length of the planner's answer. -/
theorem Filter_single_claim_insufficient_topology (s : LVMVolumeScheduler)
    (lvs : List String) (pvc : PersistentVolumeClaim) (lv : LocalVolume) (node : Node)
    (hc : constructLocalVolumeForPVC s pvc = .ok (.ok lv))
    (hlt : ((s.replicaScheduler [lv]).length : Int) < lv.Spec.ReplicaNumber) :
    (∃ e, Filter s lvs [pvc] node = .ok (false, some e)) ∧
    (filterForExistingLocalVolumes s lvs node = (true, none) →
      Filter s lvs [pvc] node =
        .ok (false, some (.needNodes lv.Spec.ReplicaNumber (s.replicaScheduler [lv]).length))) ∧
    Filter s [] [pvc] node =
      .ok (false, some (.needNodes lv.Spec.ReplicaNumber (s.replicaScheduler [lv]).length)) := by
  have hcons : constructLocalVolumes s [pvc] = .ok (.ok [lv]) :=
    constructLocalVolumes_of_forall₂ s _ _ (List.Forall₂.cons hc List.Forall₂.nil)
  have hnew : filterForNewPVCs s [pvc] node =
      .ok (false, some (.needNodes lv.Spec.ReplicaNumber (s.replicaScheduler [lv]).length)) := by
    rw [filterForNewPVCs_of_constructed s [pvc] node lv [] (List.cons_ne_nil _ _) hcons]
    simp only [hlt, if_true]
  have hacc : filterForExistingLocalVolumes s lvs node = (true, none) →
      Filter s lvs [pvc] node =
        .ok (false, some (.needNodes lv.Spec.ReplicaNumber (s.replicaScheduler [lv]).length)) := by
    intro h
    rw [Filter_of_existing_accepts s lvs [pvc] node h, hnew]
  refine ⟨?_, hacc, by rw [Filter_of_existing_accepts s [] [pvc] node rfl, hnew]⟩
  rcases filterForExistingLocalVolumes_cases s node lvs with h | ⟨e, h⟩
  · exact ⟨_, hacc h⟩
  · exact ⟨e, Filter_of_existing_rejects s lvs [pvc] node e h⟩

/-- C3 at an NVMe claim with 3 replicas when exactly `n1` and `n2` qualify: `n1`, a
qualifying node, is rejected with need 3, have 2. -/
theorem Filter_single_claim_insufficient_topology_witness :
    Filter (exampleScheduler [{ Name := "n1" }, { Name := "n2" }]) []
      [exampleClaim "c" "nvme3" 10] ⟨"n1"⟩ = .ok (false, some (.needNodes 3 2)) :=
  (Filter_single_claim_insufficient_topology
    (exampleScheduler [{ Name := "n1" }, { Name := "n2" }]) []
    (exampleClaim "c" "nvme3" 10)
    { Spec := { PersistentVolumeClaimName := "c", PersistentVolumeClaimNamespace := "default",
                PoolName := "LocalStorage_PoolNVMe", RequiredCapacityBytes := 10,
                ReplicaNumber := 3 } }
    ⟨"n1"⟩ (by decide) (by decide)).2.2

/-- C4: with pending claims of 1 and 3 replicas, in this order, and two qualifying
nodes, `Filter` accepts `n1`: only the first claim's replica number is compared with
the number of qualifying nodes, which is below the maximum over the claims. -/
theorem Filter_compares_first_claim_replica_number_only :
    Filter (exampleScheduler [{ Name := "n1" }, { Name := "n2" }]) []
      [exampleClaim "a" "hdd1" 10, exampleClaim "b" "nvme3" 10] ⟨"n1"⟩ = .ok (true, none) ∧
    (constructLocalVolumes (exampleScheduler [{ Name := "n1" }, { Name := "n2" }])
      [exampleClaim "a" "hdd1" 10, exampleClaim "b" "nvme3" 10]).map
      (fun r => r.map (fun lvs => lvs.map (fun lv => lv.Spec.ReplicaNumber))) =
        .ok (.ok [1, 3]) ∧
    (((exampleScheduler [{ Name := "n1" }, { Name := "n2" }]).replicaScheduler []).length : Int)
      < max 1 3 := by
  decide

/-- C5, refuted as stated: a planner answer `[n1, n1]`, of length 2 with a single
distinct node, lets `Filter` accept `n1` for a claim that needs 2 replicas. -/
theorem Filter_accepts_repeated_qualifying_entries :
    Filter (exampleScheduler [{ Name := "n1" }, { Name := "n1" }]) []
      [exampleClaim "c" "hdd2" 10] ⟨"n1"⟩ = .ok (true, none) ∧
    (constructLocalVolumeForPVC (exampleScheduler [{ Name := "n1" }, { Name := "n1" }])
      (exampleClaim "c" "hdd2" 10)).map (fun r => r.map (fun lv => lv.Spec.ReplicaNumber)) =
        .ok (.ok 2) ∧
    ((([{ Name := "n1" }, { Name := "n1" }] : List LocalStorageNode).map
      (fun n => n.Name)).dedup.length : Int) < 2 := by
  decide

/-- C5, amended: with a non-empty list of pending claims, `Filter` accepts a node only
if the claims construct, the planner's answer has at least as many entries (repeated
ones counted) as the first claim's replica number, and the node's name is the name of
an entry. -/
theorem Filter_accepts_only_if_enough_entries (s : LVMVolumeScheduler)
    (lvs : List String) (pvcs : List PersistentVolumeClaim) (node : Node)
    (hne : pvcs ≠ []) (hok : Filter s lvs pvcs node = .ok (true, none)) :
    ∃ lv0 rest, constructLocalVolumes s pvcs = .ok (.ok (lv0 :: rest)) ∧
      lv0.Spec.ReplicaNumber ≤ ((s.replicaScheduler (lv0 :: rest)).length : Int) ∧
      ∃ qn ∈ s.replicaScheduler (lv0 :: rest), qn.Name = node.Name := by
  have hlen : ¬ pvcs.length = 0 := by
    simpa [List.length_eq_zero] using hne
  rcases filterForExistingLocalVolumes_cases s node lvs with hacc | ⟨e, hrej⟩
  · rw [Filter_of_existing_accepts s lvs pvcs node hacc] at hok
    cases hcons : constructLocalVolumes s pvcs with
    | error p => simp [filterForNewPVCs, hlen, hcons] at hok
    | ok r =>
      cases r with
      | error e => simp [filterForNewPVCs, hlen, hcons] at hok
      | ok built =>
        cases built with
        | nil => simp [filterForNewPVCs, hlen, hcons] at hok
        | cons lv0 rest =>
          rw [filterForNewPVCs_of_constructed s pvcs node lv0 rest hne hcons] at hok
          refine ⟨lv0, rest, rfl, ?_⟩
          by_cases hlt : ((s.replicaScheduler (lv0 :: rest)).length : Int)
              < lv0.Spec.ReplicaNumber
          · simp [hlt] at hok
          · simp only [hlt, if_false] at hok
            refine ⟨not_lt.mp hlt, ?_⟩
            by_cases hany : (s.replicaScheduler (lv0 :: rest)).any
                (fun qn => qn.Name == node.Name) = true
            · simpa using hany
            · simp [hany] at hok
  · rw [Filter_of_existing_rejects s lvs pvcs node e hrej] at hok
    cases hok

/-- C5 amended, at a claim needing 2 replicas with planner answer `[n1, n2]`. -/
theorem Filter_accepts_only_if_enough_entries_witness :
    ∃ lv0 rest,
      constructLocalVolumes (exampleScheduler [{ Name := "n1" }, { Name := "n2" }])
        [exampleClaim "c" "hdd2" 10] = .ok (.ok (lv0 :: rest)) ∧
      lv0.Spec.ReplicaNumber ≤
        (((exampleScheduler [{ Name := "n1" }, { Name := "n2" }]).replicaScheduler
          (lv0 :: rest)).length : Int) ∧
      ∃ qn ∈ (exampleScheduler [{ Name := "n1" }, { Name := "n2" }]).replicaScheduler
        (lv0 :: rest), qn.Name = "n2" :=
  Filter_accepts_only_if_enough_entries
    (exampleScheduler [{ Name := "n1" }, { Name := "n2" }]) ["V"]
    [exampleClaim "c" "hdd2" 10] ⟨"n2"⟩ (by decide) (by decide)

/-- C6: if a listed bound volume is in the cache with no config and every volume
before it in the list has a replica on the node, `Filter` returns false with the
error "pending localvolume", whatever follows in the list and whatever the pending
claims are. -/
theorem Filter_rejects_unconfigured_bound_volume (s : LVMVolumeScheduler)
    (before after : List String) (lvName : String) (lv : LocalVolume)
    (pendingPVCs : List PersistentVolumeClaim) (node : Node)
    (hbefore : ∀ n ∈ before, ∃ lv' cfg, s.hwameiStorCache.getLocalVolume n = .ok lv' ∧
      lv'.Spec.Config = some cfg ∧ ∃ rep ∈ cfg.Replicas, rep.Hostname = node.Name)
    (hget : s.hwameiStorCache.getLocalVolume lvName = .ok lv)
    (hnil : lv.Spec.Config = none) :
    Filter s (before ++ lvName :: after) pendingPVCs node =
      .ok (false, some .pendingLocalVolume) := by
  apply Filter_of_existing_rejects
  have hlen : ¬ (before ++ lvName :: after).length = 0 := by simp
  simp only [filterForExistingLocalVolumes, hlen, if_false]
  induction before with
  | nil =>
    rw [List.nil_append, existingLocalVolumesLoop]
    simp only [hget, hnil]
  | cons n rest ih =>
    obtain ⟨lv', cfg, hg, hc, hrep⟩ := hbefore n (List.mem_cons_self _ _)
    have hany : cfg.Replicas.any (fun rep => rep.Hostname == node.Name) = true := by
      simpa using hrep
    rw [List.cons_append, existingLocalVolumesLoop]
    simp only [hg, hc, hany, if_true]
    exact ih (fun m hm => hbefore m (List.mem_cons_of_mem _ hm)) (by simp)

/-- C6 at bound volumes `[V, W]` on `n1`: `V` is placed on `n1`, `W` has no config. -/
theorem Filter_rejects_unconfigured_bound_volume_witness :
    Filter (exampleScheduler [{ Name := "n1" }]) (["V"] ++ "W" :: [])
      [exampleClaim "c" "hdd1" 10] ⟨"n1"⟩ = .ok (false, some .pendingLocalVolume) :=
  Filter_rejects_unconfigured_bound_volume (exampleScheduler [{ Name := "n1" }])
    ["V"] [] "W" { Name := "W" } [exampleClaim "c" "hdd1" 10] ⟨"n1"⟩
    (by
      intro n hn
      rw [List.mem_singleton] at hn
      subst hn
      exact ⟨_, _, rfl, rfl, ⟨"n1"⟩, by decide, rfl⟩)
    rfl rfl

/-- C7: with no bound volumes and no pending claims `Filter` returns true and no
error for every node, whatever the cache, the lister and the planner would answer. -/
theorem Filter_no_volumes_no_claims (s : LVMVolumeScheduler) (node : Node) :
    Filter s [] [] node = .ok (true, none) := by
  rfl

/-! ## Score -/

/-- With a storage class that resolves to a pool name, `scoreOneVolume` is the
float64 expression on the pool's free capacity and the claim's request. -/
theorem scoreOneVolume_of_valid (p : Platform) (s : LVMVolumeScheduler)
    (pvc : PersistentVolumeClaim) (node : LocalStorageNode) (scName : String)
    (sc : StorageClass) (poolName : String)
    (hsc : pvc.Spec.StorageClassName = some scName)
    (hget : s.scLister scName = .ok sc)
    (hpool : buildStoragePoolName (sc.param VolumeParameterPoolClassKey) PoolTypeRegular =
      .ok poolName) :
    scoreOneVolume p s pvc node =
      (F64.toInt64 p
        (F64.mul
          (F64.div
            (F64.ofInt64 (wrapInt64 ((node.pool poolName).FreeCapacityBytes - pvc.storageValue)))
            (F64.ofInt64 (node.pool poolName).FreeCapacityBytes))
          (F64.ofInt64 MaxNodeScore)),
       none) := by
  simp only [scoreOneVolume, hsc, hget, hpool]

/-- When every claim scores without error and in `[0, 100]`, the loop of `Score`
returns the sum of the scores (no addition overflows). -/
theorem scoreLoop_sum (p : Platform) (s : LVMVolumeScheduler) (node : LocalStorageNode)
    (pvcs : List PersistentVolumeClaim) (scores : List Int) (acc : Int)
    (hscores : List.Forall₂ (fun pvc sc => scoreOneVolume p s pvc node = (sc, none)) pvcs scores)
    (hrange : ∀ sc ∈ scores, 0 ≤ sc ∧ sc ≤ 100)
    (hacc : 0 ≤ acc) (hbound : acc + 100 * (pvcs.length : Int) < 2 ^ 63) :
    scoreLoop p s node pvcs acc = (acc + scores.sum, none) := by
  induction hscores generalizing acc with
  | nil => simp [scoreLoop]
  | @cons pvc sc pvcs scores hhead _ ih =>
    obtain ⟨h0, h1⟩ := hrange sc (List.mem_cons_self _ _)
    have hlen : ((pvc :: pvcs).length : Int) = (pvcs.length : Int) + 1 := by
      simp
    rw [hlen] at hbound
    have hwrap : wrapInt64 (acc + sc) = acc + sc :=
      wrapInt64_of_range _ (by omega) (by omega)
    rw [scoreLoop]
    simp only [hhead, hwrap]
    rw [ih (acc + sc) (fun x hx => hrange x (List.mem_cons_of_mem _ hx)) (by omega) (by omega)]
    simp [List.sum_cons, add_assoc]

/-- The sum of scores that are each in `[0, 100]`. -/
theorem sum_scores_range (scores : List Int) (hrange : ∀ sc ∈ scores, 0 ≤ sc ∧ sc ≤ 100) :
    0 ≤ scores.sum ∧ scores.sum ≤ 100 * (scores.length : Int) := by
  induction scores with
  | nil => simp
  | cons sc rest ih =>
    obtain ⟨h0, h1⟩ := hrange sc (List.mem_cons_self _ _)
    obtain ⟨i0, i1⟩ := ih (fun x hx => hrange x (List.mem_cons_of_mem _ hx))
    simp only [List.sum_cons, List.length_cons, Nat.cast_add, Nat.cast_one]
    constructor <;> omega

/-- With no pending claims and the node in the cache, `Score` is the platform's
conversion of NaN, with no error. -/
theorem Score_no_claims (p : Platform) (s : LVMVolumeScheduler) (node : String)
    (storageNode : LocalStorageNode)
    (hnode : s.hwameiStorCache.getLocalStorageNode node = .ok storageNode) :
    Score p s [] node = (p.toInt64Invalid F64.nan, none) := by
  have hdiv : F64.div (F64.ofInt64 0) (F64.ofInt64 (wrapInt64 (MaxNodeScore * 0))) = F64.nan := by
    decide!
  simp only [Score, hnode, scoreLoop, List.length_nil, Nat.cast_zero, hdiv, F64.mul,
    F64.toInt64]

/-! ## Claims on Score -/

/-- C8: with no pending claims `Score` divides `0.0` by `0.0` and converts the NaN to
`int64`; on amd64 the result is the smallest `int64`, on arm64 it is 0, and on neither
is it `MaxNodeScore`. -/
theorem Score_no_claims_converts_NaN :
    Score amd64 (exampleScheduler []) [] "n1" = (-9223372036854775808, none) ∧
    Score arm64 (exampleScheduler []) [] "n1" = (0, none) ∧
    F64.div (F64.ofInt64 0) (F64.ofInt64 (wrapInt64 (MaxNodeScore * 0))) = F64.nan := by
  decide!

/-- C9, refuted as stated: a single SSD claim of 12 bytes on node `n2` (17 bytes
free) has the per-claim score 29, and `Score` returns 28, not
`floor(29 / (100 × 1) × 100) = 29`. -/
theorem Score_single_claim_below_its_score :
    scoreOneVolume amd64 (exampleScheduler []) (exampleClaim "c" "ssd1" 12) exampleNode2
      = (29, none) ∧
    Score amd64 (exampleScheduler []) [exampleClaim "c" "ssd1" 12] "n2" = (28, none) ∧
    ⌊(29 : ℚ) / (100 * 1) * 100⌋ = 29 := by
  decide!

/-- C9, amended: for a non-empty list of `n` pending claims (with `100 n` in the
`int64` range) whose per-claim scores on the node are `s_1..s_n`, each in `[0, 100]`,
`Score` returns no error and an integer between `floor(x - 2^-40)` and
`floor(x + 2^-40)` for `x = (Σ s_i) / (100 n) × 100`, the float64 evaluation of the
formula; for one claim it returns `s_1` or `s_1 - 1`. -/
theorem Score_near_exact_mean (p : Platform) (s : LVMVolumeScheduler)
    (pvcs : List PersistentVolumeClaim) (node : String) (storageNode : LocalStorageNode)
    (scores : List Int)
    (hnode : s.hwameiStorCache.getLocalStorageNode node = .ok storageNode)
    (hne : pvcs ≠ [])
    (hlen : MaxNodeScore * (pvcs.length : Int) < 2 ^ 63)
    (hscores : List.Forall₂
      (fun pvc sc => scoreOneVolume p s pvc storageNode = (sc, none)) pvcs scores)
    (hrange : ∀ sc ∈ scores, 0 ≤ sc ∧ sc ≤ 100) :
    ∃ total : Int, Score p s pvcs node = (total, none) ∧
      ⌊(scores.sum : ℚ) / ((MaxNodeScore * (pvcs.length : Int) : Int) : ℚ) * 100 - 1 / 2 ^ 40⌋
        ≤ total ∧
      total ≤
        ⌊(scores.sum : ℚ) / ((MaxNodeScore * (pvcs.length : Int) : Int) : ℚ) * 100 + 1 / 2 ^ 40⌋ ∧
      (pvcs.length = 1 → total = scores.sum ∨ total = scores.sum - 1) := by
  have hlenpos : 0 < pvcs.length := List.length_pos.mpr hne
  have hleneq : scores.length = pvcs.length := hscores.length_eq.symm
  obtain ⟨hs0, hs1⟩ := sum_scores_range scores hrange
  rw [hleneq] at hs1
  have hM : MaxNodeScore = 100 := rfl
  rw [hM] at hlen
  have hb0 : 0 < MaxNodeScore * (pvcs.length : Int) := by
    rw [hM]
    omega
  have hloop := scoreLoop_sum p s storageNode pvcs scores 0 hscores hrange le_rfl (by omega)
  rw [zero_add] at hloop
  have hwrap : wrapInt64 (MaxNodeScore * (pvcs.length : Int)) = MaxNodeScore * (pvcs.length : Int) :=
    wrapInt64_of_range _ (by omega) (by rw [hM]; exact hlen)
  obtain ⟨total, htotal, hlow, hhigh, _, _⟩ := scoreRatio_toInt64 p scores.sum
    (MaxNodeScore * (pvcs.length : Int)) hs0 (by rw [hM]; exact hs1) hb0 (by rw [hM]; exact hlen)
  refine ⟨total, ?_, hlow, hhigh, ?_⟩
  · simp only [Score, hnode, hloop, hwrap, htotal]
  · intro h1
    have hx : (scores.sum : ℚ) / ((MaxNodeScore * (pvcs.length : Int) : Int) : ℚ) * 100
        = (scores.sum : ℚ) := by
      rw [h1, hM]
      push_cast
      ring
    rw [hx] at hlow hhigh
    have hup : total ≤ scores.sum := by
      have h := Int.le_floor.mp hhigh
      have hlt : (total : ℚ) < (scores.sum : ℚ) + 1 := by
        have hd : (1 : ℚ) / 2 ^ 40 < 1 := by norm_num
        linarith
      have : total < scores.sum + 1 := by exact_mod_cast hlt
      omega
    have hdown : scores.sum - 1 ≤ total := by
      refine le_trans ?_ hlow
      rw [Int.le_floor]
      push_cast
      have hd : (1 : ℚ) / 2 ^ 40 ≤ 1 := by norm_num
      linarith
    omega

/-- C9 amended, at the scenario of one HDD claim of 10 bytes against the pool of `n1`
with 80 bytes free: the per-claim score is 87 and `Score` returns 87. -/
theorem Score_near_exact_mean_witness :
    (∃ total : Int,
      Score amd64 (exampleScheduler []) [exampleClaim "c" "hdd1" 10] "n1" = (total, none) ∧
      ⌊(([87] : List Int).sum : ℚ) /
          ((MaxNodeScore * (([exampleClaim "c" "hdd1" 10] : List PersistentVolumeClaim).length
            : Int) : Int) : ℚ) * 100 - 1 / 2 ^ 40⌋ ≤ total ∧
      total ≤ ⌊(([87] : List Int).sum : ℚ) /
          ((MaxNodeScore * (([exampleClaim "c" "hdd1" 10] : List PersistentVolumeClaim).length
            : Int) : Int) : ℚ) * 100 + 1 / 2 ^ 40⌋ ∧
      (([exampleClaim "c" "hdd1" 10] : List PersistentVolumeClaim).length = 1 →
        total = ([87] : List Int).sum ∨ total = ([87] : List Int).sum - 1)) ∧
    Score amd64 (exampleScheduler []) [exampleClaim "c" "hdd1" 10] "n1" = (87, none) ∧
    Score arm64 (exampleScheduler []) [exampleClaim "c" "hdd1" 10] "n1" = (87, none) :=
  ⟨Score_near_exact_mean amd64 (exampleScheduler []) [exampleClaim "c" "hdd1" 10] "n1"
      exampleNode1 [87] rfl (by decide) (by decide)
      (List.Forall₂.cons (by decide!) List.Forall₂.nil) (by decide),
    by decide!, by decide!⟩

/-- C10, refuted as stated: an HDD claim of 71 bytes against the pool of `n2` with 100
bytes free scores 28, not `floor((100 - 71) / 100 × 100) = 29`. -/
theorem scoreOneVolume_below_exact_floor :
    scoreOneVolume amd64 (exampleScheduler []) (exampleClaim "c" "hdd1" 71) exampleNode2
      = (28, none) ∧
    scoreOneVolume arm64 (exampleScheduler []) (exampleClaim "c" "hdd1" 71) exampleNode2
      = (28, none) ∧
    ⌊((100 : ℚ) - 71) / 100 * 100⌋ = 29 := by
  decide!

/-- C10, amended: for a claim with a valid pool class, requested storage `r` and a
node whose pool of that class has free capacity `f` with `0 < f < 2^63` and
`0 ≤ r ≤ f`, `scoreOneVolume` returns no error and the float64 evaluation of
`(f - r) / f × MaxNodeScore` truncated: an integer between `floor(x - 2^-40)` and
`floor(x + 2^-40)` for `x = (f - r) / f × 100`, hence `floor(x)` or a neighbour of
it. -/
theorem scoreOneVolume_near_exact_floor (p : Platform) (s : LVMVolumeScheduler)
    (pvc : PersistentVolumeClaim) (node : LocalStorageNode) (scName : String)
    (sc : StorageClass) (poolName : String)
    (hsc : pvc.Spec.StorageClassName = some scName)
    (hget : s.scLister scName = .ok sc)
    (hpool : buildStoragePoolName (sc.param VolumeParameterPoolClassKey) PoolTypeRegular =
      .ok poolName)
    (hf0 : 0 < (node.pool poolName).FreeCapacityBytes)
    (hf1 : (node.pool poolName).FreeCapacityBytes < 2 ^ 63)
    (hr0 : 0 ≤ pvc.storageValue)
    (hr1 : pvc.storageValue ≤ (node.pool poolName).FreeCapacityBytes) :
    ∃ score : Int, scoreOneVolume p s pvc node = (score, none) ∧
      ⌊(((node.pool poolName).FreeCapacityBytes - pvc.storageValue : Int) : ℚ) /
          ((node.pool poolName).FreeCapacityBytes : ℚ) * 100 - 1 / 2 ^ 40⌋ ≤ score ∧
      score ≤ ⌊(((node.pool poolName).FreeCapacityBytes - pvc.storageValue : Int) : ℚ) /
          ((node.pool poolName).FreeCapacityBytes : ℚ) * 100 + 1 / 2 ^ 40⌋ ∧
      ⌊(((node.pool poolName).FreeCapacityBytes - pvc.storageValue : Int) : ℚ) /
          ((node.pool poolName).FreeCapacityBytes : ℚ) * 100⌋ - 1 ≤ score ∧
      score ≤ ⌊(((node.pool poolName).FreeCapacityBytes - pvc.storageValue : Int) : ℚ) /
          ((node.pool poolName).FreeCapacityBytes : ℚ) * 100⌋ + 1 := by
  have hwrap : wrapInt64 ((node.pool poolName).FreeCapacityBytes - pvc.storageValue)
      = (node.pool poolName).FreeCapacityBytes - pvc.storageValue :=
    wrapInt64_of_range _ (by omega) (by omega)
  obtain ⟨score, hscore, hlow, hhigh, _, _⟩ := scoreRatio_toInt64 p
    ((node.pool poolName).FreeCapacityBytes - pvc.storageValue)
    (node.pool poolName).FreeCapacityBytes (by omega) (by omega) hf0 hf1
  refine ⟨score, ?_, hlow, hhigh, ?_, ?_⟩
  · rw [scoreOneVolume_of_valid p s pvc node scName sc poolName hsc hget hpool, hwrap, hscore]
  · refine le_trans ?_ hlow
    rw [← Int.floor_sub_one]
    apply Int.floor_le_floor
    have hd : (1 : ℚ) / 2 ^ 40 ≤ 1 := by norm_num
    linarith
  · refine le_trans hhigh ?_
    rw [← Int.floor_add_one]
    apply Int.floor_le_floor
    have hd : (1 : ℚ) / 2 ^ 40 ≤ 1 := by norm_num
    linarith

/-- C10 amended, at an HDD claim of 10 bytes against the pool of `n1` with 80 bytes
free: the score is 87. -/
theorem scoreOneVolume_near_exact_floor_witness :
    (∃ score : Int,
      scoreOneVolume amd64 (exampleScheduler []) (exampleClaim "c" "hdd1" 10) exampleNode1
        = (score, none) ∧
      ⌊(((80 : Int) - 10 : Int) : ℚ) / ((80 : Int) : ℚ) * 100 - 1 / 2 ^ 40⌋ ≤ score ∧
      score ≤ ⌊(((80 : Int) - 10 : Int) : ℚ) / ((80 : Int) : ℚ) * 100 + 1 / 2 ^ 40⌋ ∧
      ⌊(((80 : Int) - 10 : Int) : ℚ) / ((80 : Int) : ℚ) * 100⌋ - 1 ≤ score ∧
      score ≤ ⌊(((80 : Int) - 10 : Int) : ℚ) / ((80 : Int) : ℚ) * 100⌋ + 1) ∧
    scoreOneVolume amd64 (exampleScheduler []) (exampleClaim "c" "hdd1" 10) exampleNode1
      = (87, none) :=
  ⟨scoreOneVolume_near_exact_floor amd64 (exampleScheduler []) (exampleClaim "c" "hdd1" 10)
      exampleNode1 "hdd1"
      ⟨[("poolClass", "HDD"), ("poolType", "REGULAR"), ("replicaNumber", "1")]⟩
      "LocalStorage_PoolHDD" rfl rfl rfl (by decide) (by decide) (by decide) (by decide),
    by decide!⟩

/-! ## Score on accepted claims -/

/-- A claim whose class resolves to a pool of the node with free capacity `f`,
`0 < f < 2^63`, and whose request is between 0 and `f` scores without error, in
`[0, 100]`. -/
theorem scoreOneVolume_accepted (p : Platform) (s : LVMVolumeScheduler)
    (pvc : PersistentVolumeClaim) (node : LocalStorageNode)
    (h : ∃ scName sc poolName, pvc.Spec.StorageClassName = some scName ∧
      s.scLister scName = .ok sc ∧
      buildStoragePoolName (sc.param VolumeParameterPoolClassKey) PoolTypeRegular =
        .ok poolName ∧
      (node.pool poolName).FreeCapacityBytes ≠ 0 ∧
      (node.pool poolName).FreeCapacityBytes < 2 ^ 63 ∧
      0 ≤ pvc.storageValue ∧ pvc.storageValue ≤ (node.pool poolName).FreeCapacityBytes) :
    ∃ sc : Int, scoreOneVolume p s pvc node = (sc, none) ∧ 0 ≤ sc ∧ sc ≤ 100 := by
  obtain ⟨scName, sc, poolName, hsc, hget, hpool, hf0, hf1, hr0, hr1⟩ := h
  have hfpos : 0 < (node.pool poolName).FreeCapacityBytes := by omega
  have hwrap : wrapInt64 ((node.pool poolName).FreeCapacityBytes - pvc.storageValue)
      = (node.pool poolName).FreeCapacityBytes - pvc.storageValue :=
    wrapInt64_of_range _ (by omega) (by omega)
  obtain ⟨score, hscore, _, _, h0, h100⟩ := scoreRatio_toInt64 p
    ((node.pool poolName).FreeCapacityBytes - pvc.storageValue)
    (node.pool poolName).FreeCapacityBytes (by omega) (by omega) hfpos hf1
  refine ⟨score, ?_, h0, h100⟩
  rw [scoreOneVolume_of_valid p s pvc node scName sc poolName hsc hget hpool, hwrap, hscore]

/-- The per-claim scores of a list of claims that each score in `[0, 100]`. -/
theorem exists_scores_of_accepted (p : Platform) (s : LVMVolumeScheduler)
    (node : LocalStorageNode) (pvcs : List PersistentVolumeClaim)
    (h : ∀ pvc ∈ pvcs, ∃ sc : Int, scoreOneVolume p s pvc node = (sc, none) ∧ 0 ≤ sc ∧ sc ≤ 100) :
    ∃ scores : List Int,
      List.Forall₂ (fun pvc sc => scoreOneVolume p s pvc node = (sc, none)) pvcs scores ∧
      ∀ sc ∈ scores, 0 ≤ sc ∧ sc ≤ 100 := by
  induction pvcs with
  | nil => exact ⟨[], List.Forall₂.nil, by simp⟩
  | cons pvc rest ih =>
    obtain ⟨sc, hsc, h0, h1⟩ := h pvc (List.mem_cons_self _ _)
    obtain ⟨scores, hall, hrange⟩ := ih (fun x hx => h x (List.mem_cons_of_mem _ hx))
    refine ⟨sc :: scores, List.Forall₂.cons hsc hall, ?_⟩
    intro x hx
    rcases List.mem_cons.mp hx with rfl | hx
    · exact ⟨h0, h1⟩
    · exact hrange x hx

/-- C11: for a node in the cache and a non-empty list of pending claims (short enough
for `MaxNodeScore × n` to be an `int64`) such that, for each claim, the node's pool of
the claim's class has a non-zero free capacity `f` and the claim's request `r`
satisfies `0 ≤ r ≤ f`, `Score` returns no error and a value in `[0, MaxNodeScore]`,
on every platform. -/
theorem Score_in_range_of_accepted (p : Platform) (s : LVMVolumeScheduler)
    (pvcs : List PersistentVolumeClaim) (node : String) (storageNode : LocalStorageNode)
    (hnode : s.hwameiStorCache.getLocalStorageNode node = .ok storageNode)
    (hne : pvcs ≠ [])
    (hlen : MaxNodeScore * (pvcs.length : Int) < 2 ^ 63)
    (hacc : ∀ pvc ∈ pvcs, ∃ scName sc poolName, pvc.Spec.StorageClassName = some scName ∧
      s.scLister scName = .ok sc ∧
      buildStoragePoolName (sc.param VolumeParameterPoolClassKey) PoolTypeRegular =
        .ok poolName ∧
      (storageNode.pool poolName).FreeCapacityBytes ≠ 0 ∧
      (storageNode.pool poolName).FreeCapacityBytes < 2 ^ 63 ∧
      0 ≤ pvc.storageValue ∧
      pvc.storageValue ≤ (storageNode.pool poolName).FreeCapacityBytes) :
    ∃ total : Int, Score p s pvcs node = (total, none) ∧ 0 ≤ total ∧ total ≤ MaxNodeScore := by
  obtain ⟨scores, hscores, hrange⟩ := exists_scores_of_accepted p s storageNode pvcs
    (fun pvc hpvc => scoreOneVolume_accepted p s pvc storageNode (hacc pvc hpvc))
  have hlenpos : 0 < pvcs.length := List.length_pos.mpr hne
  have hleneq : scores.length = pvcs.length := hscores.length_eq.symm
  obtain ⟨hs0, hs1⟩ := sum_scores_range scores hrange
  rw [hleneq] at hs1
  have hM : MaxNodeScore = 100 := rfl
  rw [hM] at hlen
  have hb0 : 0 < MaxNodeScore * (pvcs.length : Int) := by
    rw [hM]
    omega
  have hloop := scoreLoop_sum p s storageNode pvcs scores 0 hscores hrange le_rfl (by omega)
  rw [zero_add] at hloop
  have hwrap : wrapInt64 (MaxNodeScore * (pvcs.length : Int)) = MaxNodeScore * (pvcs.length : Int) :=
    wrapInt64_of_range _ (by omega) (by rw [hM]; exact hlen)
  obtain ⟨total, htotal, _, _, h0, h100⟩ := scoreRatio_toInt64 p scores.sum
    (MaxNodeScore * (pvcs.length : Int)) hs0 (by rw [hM]; exact hs1) hb0 (by rw [hM]; exact hlen)
  refine ⟨total, ?_, h0, by rw [hM]; exact h100⟩
  simp only [Score, hnode, hloop, hwrap, htotal]

/-- C11 at two HDD claims of 10 and 80 bytes on node `n1`, whose HDD pool has 80 bytes
free: the scores are 87 and 0 and `Score` returns 43. -/
theorem Score_in_range_of_accepted_witness :
    (∃ total : Int,
      Score amd64 (exampleScheduler [])
        [exampleClaim "a" "hdd1" 10, exampleClaim "b" "hdd1" 80] "n1" = (total, none) ∧
      0 ≤ total ∧ total ≤ MaxNodeScore) ∧
    Score amd64 (exampleScheduler [])
      [exampleClaim "a" "hdd1" 10, exampleClaim "b" "hdd1" 80] "n1" = (43, none) :=
  ⟨Score_in_range_of_accepted amd64 (exampleScheduler [])
      [exampleClaim "a" "hdd1" 10, exampleClaim "b" "hdd1" 80] "n1" exampleNode1
      rfl (by decide) (by decide)
      (by
        intro pvc hpvc
        refine ⟨"hdd1",
          ⟨[("poolClass", "HDD"), ("poolType", "REGULAR"), ("replicaNumber", "1")]⟩,
          "LocalStorage_PoolHDD", ?_⟩
        rcases List.mem_cons.mp hpvc with rfl | hpvc
        · decide
        · rw [List.mem_singleton] at hpvc
          subst hpvc
          decide),
    by decide!⟩

/-! ## Further claims on Filter and Score -/

/-- C12: a claim whose storage class has the recognised pool class HDD and a pool type
that is missing (`hddNoType`) or not recognised (`hddFast`) is rejected by `Filter`
with the error "invalid pool info", while `Score` returns the score 87 and no error:
`scoreOneVolume` passes the constant `PoolTypeRegular` to `buildStoragePoolName` and
never reads the pool type of the storage class. -/
theorem Score_ignores_pool_type :
    Filter (exampleSchedulerMistyped [{ Name := "n1" }]) []
      [exampleClaim "c" "hddNoType" 10] ⟨"n1"⟩ = .ok (false, some .invalidPoolInfo) ∧
    Score amd64 (exampleSchedulerMistyped [{ Name := "n1" }])
      [exampleClaim "c" "hddNoType" 10] "n1" = (87, none) ∧
    Filter (exampleSchedulerMistyped [{ Name := "n1" }]) []
      [exampleClaim "c" "hddFast" 10] ⟨"n1"⟩ = .ok (false, some .invalidPoolInfo) ∧
    Score amd64 (exampleSchedulerMistyped [{ Name := "n1" }])
      [exampleClaim "c" "hddFast" 10] "n1" = (87, none) ∧
    Filter (exampleSchedulerMistyped [{ Name := "n1" }]) []
      [exampleClaim "c" "hdd1" 10] ⟨"n1"⟩ = .ok (true, none) := by
  decide!

/-- The two embeddings of `buildStoragePoolName` agree: the one with an `Except`
result is the name when there is no error and the error otherwise. -/
theorem buildStoragePoolName_eq_pair (poolClass poolType : String) :
    buildStoragePoolName poolClass poolType =
      match buildStoragePoolNamePair poolClass poolType with
      | (name, none) => .ok name
      | (_, some e) => .error e := by
  unfold buildStoragePoolName buildStoragePoolNamePair
  split
  · rfl
  · split
    · rfl
    · split <;> rfl

/-- C13: `buildStoragePoolName` returns the name `"LocalStorage_Pool"` followed by the
class, with no error, for the class HDD, SSD or NVMe with the type REGULAR, and the
empty name with an error for every other pair of strings; the three names are
pairwise distinct. -/
theorem buildStoragePoolName_three_pairs (poolClass poolType : String) :
    ((poolClass = "HDD" ∨ poolClass = "SSD" ∨ poolClass = "NVMe") ∧ poolType = "REGULAR" →
      buildStoragePoolNamePair poolClass poolType = ("LocalStorage_Pool" ++ poolClass, none)) ∧
    (¬ ((poolClass = "HDD" ∨ poolClass = "SSD" ∨ poolClass = "NVMe") ∧ poolType = "REGULAR") →
      buildStoragePoolNamePair poolClass poolType = ("", some .invalidPoolInfo)) ∧
    (buildStoragePoolNamePair "HDD" "REGULAR").1 ≠ (buildStoragePoolNamePair "SSD" "REGULAR").1 ∧
    (buildStoragePoolNamePair "HDD" "REGULAR").1 ≠ (buildStoragePoolNamePair "NVMe" "REGULAR").1 ∧
    (buildStoragePoolNamePair "SSD" "REGULAR").1 ≠ (buildStoragePoolNamePair "NVMe" "REGULAR").1 := by
  refine ⟨?_, ?_, by decide, by decide, by decide⟩
  · rintro ⟨hclass, rfl⟩
    rcases hclass with rfl | rfl | rfl <;> decide
  · intro h
    have hHDD : ¬ (poolClass = DiskClassNameHDD ∧ poolType = PoolTypeRegular) :=
      fun hc => h ⟨Or.inl hc.1, hc.2⟩
    have hSSD : ¬ (poolClass = DiskClassNameSSD ∧ poolType = PoolTypeRegular) :=
      fun hc => h ⟨Or.inr (Or.inl hc.1), hc.2⟩
    have hNVMe : ¬ (poolClass = DiskClassNameNVMe ∧ poolType = PoolTypeRegular) :=
      fun hc => h ⟨Or.inr (Or.inr hc.1), hc.2⟩
    simp only [buildStoragePoolNamePair, hHDD, hSSD, hNVMe, if_false]

/-- A panic of the construction of a synthetic volume is a nil dereference. -/
theorem constructLocalVolumeForPVC_panic (s : LVMVolumeScheduler) (pvc : PersistentVolumeClaim)
    (pn : Panic) (h : constructLocalVolumeForPVC s pvc = .error pn) :
    pn = .nilPointerDereference ∧ pvc.Spec.StorageClassName = none := by
  unfold constructLocalVolumeForPVC at h
  cases hsc : pvc.Spec.StorageClassName with
  | none =>
    simp only [hsc] at h
    cases h
    exact ⟨rfl, rfl⟩
  | some scName =>
    simp only [hsc] at h
    cases hget : s.scLister scName with
    | error e => simp [hget] at h
    | ok sc =>
      simp only [hget] at h
      cases hb : buildStoragePoolName (sc.param VolumeParameterPoolClassKey)
          (sc.param VolumeParameterPoolTypeKey) with
      | error e => simp [hb] at h
      | ok poolName => simp [hb] at h

/-- A panic of the construction loop is a nil dereference at a claim that names no
storage class. -/
theorem constructLocalVolumes_panic (s : LVMVolumeScheduler)
    (pvcs : List PersistentVolumeClaim) (pn : Panic)
    (h : constructLocalVolumes s pvcs = .error pn) :
    pn = .nilPointerDereference ∧ ∃ pvc ∈ pvcs, pvc.Spec.StorageClassName = none := by
  induction pvcs with
  | nil =>
    rw [constructLocalVolumes] at h
    cases h
  | cons pvc rest ih =>
    rw [constructLocalVolumes] at h
    cases hc : constructLocalVolumeForPVC s pvc with
    | error q =>
      simp only [hc] at h
      cases h
      obtain ⟨h1, h2⟩ := constructLocalVolumeForPVC_panic s pvc _ hc
      exact ⟨h1, pvc, List.mem_cons_self _ _, h2⟩
    | ok r =>
      cases r with
      | error e => simp [hc] at h
      | ok lv =>
        simp only [hc] at h
        cases hr : constructLocalVolumes s rest with
        | error q =>
          simp only [hr] at h
          cases h
          obtain ⟨h1, x, hx, h2⟩ := ih hr
          exact ⟨h1, x, List.mem_cons_of_mem _ hx, h2⟩
        | ok r' =>
          cases r' with
          | error e => simp [hr] at h
          | ok lvs => simp [hr] at h

/-- The outcomes of the pending-claim stage: a panic is a nil dereference at a claim
that names no storage class (the list of synthetic volumes is never indexed out of
range), and an acceptance carries no error. -/
theorem filterForNewPVCs_outcomes (s : LVMVolumeScheduler)
    (pvcs : List PersistentVolumeClaim) (node : Node) :
    (∀ pn, filterForNewPVCs s pvcs node = .error pn →
      pn = .nilPointerDereference ∧ ∃ pvc ∈ pvcs, pvc.Spec.StorageClassName = none) ∧
    (∀ e, filterForNewPVCs s pvcs node = .ok (true, e) → e = none) := by
  unfold filterForNewPVCs
  by_cases hlen : pvcs.length = 0
  · simp [hlen]
  · simp only [hlen, if_false]
    cases hcons : constructLocalVolumes s pvcs with
    | error q =>
      refine ⟨?_, ?_⟩
      · intro pn hpn
        cases hpn
        exact constructLocalVolumes_panic s pvcs _ hcons
      · intro e he
        cases he
    | ok r =>
      cases r with
      | error e => simp
      | ok lvs =>
        cases lvs with
        | nil =>
          have hl := (forall₂_of_constructLocalVolumes s pvcs [] hcons).length_eq
          exact absurd hl hlen
        | cons lv0 rest =>
          simp only
          split
          · simp
          · split <;> simp

/-- An acceptance by `Filter` carries no error. -/
theorem Filter_accepts_without_error (s : LVMVolumeScheduler) (lvs : List String)
    (pendingPVCs : List PersistentVolumeClaim) (node : Node) (e : Option SchedError)
    (h : Filter s lvs pendingPVCs node = .ok (true, e)) : e = none := by
  rcases filterForExistingLocalVolumes_cases s node lvs with hacc | ⟨err, hrej⟩
  · rw [Filter_of_existing_accepts s lvs pendingPVCs node hacc] at h
    exact (filterForNewPVCs_outcomes s pendingPVCs node).2 e h
  · rw [Filter_of_existing_rejects s lvs pendingPVCs node err hrej] at h
    cases h

/-- A claim whose storage class has a pool class other than HDD, SSD and NVMe is
rejected with "invalid pool info" both by the construction of its synthetic volume, for
`Filter`, and by `scoreOneVolume`, for `Score`. -/
theorem unknown_pool_class_rejected (p : Platform) (s : LVMVolumeScheduler)
    (pvc : PersistentVolumeClaim) (node : LocalStorageNode) (scName : String)
    (sc : StorageClass)
    (hsc : pvc.Spec.StorageClassName = some scName)
    (hget : s.scLister scName = .ok sc)
    (hHDD : sc.param VolumeParameterPoolClassKey ≠ DiskClassNameHDD)
    (hSSD : sc.param VolumeParameterPoolClassKey ≠ DiskClassNameSSD)
    (hNVMe : sc.param VolumeParameterPoolClassKey ≠ DiskClassNameNVMe) :
    constructLocalVolumeForPVC s pvc = .ok (.error .invalidPoolInfo) ∧
    scoreOneVolume p s pvc node = (0, some .invalidPoolInfo) := by
  have hb : ∀ poolType, buildStoragePoolName (sc.param VolumeParameterPoolClassKey) poolType
      = .error .invalidPoolInfo := by
    intro poolType
    simp only [buildStoragePoolName, hHDD, hSSD, hNVMe, false_and, if_false]
  constructor
  · simp only [constructLocalVolumeForPVC, hsc, hget, hb]
  · simp only [scoreOneVolume, hsc, hget, hb]

/-- C14: a pending claim that names no storage class makes `Filter` panic with a nil
dereference (`constructLocalVolumeForPVC` reads `*pvc.Spec.StorageClassName` without the
nil check), while `Score` returns the error "storageclass is empty" for the same
claim. -/
theorem Filter_panics_on_missing_storage_class :
    Filter (exampleScheduler [{ Name := "n1" }]) [] [exampleClaimNoClass] ⟨"n1"⟩
      = .error .nilPointerDereference ∧
    Score amd64 (exampleScheduler [{ Name := "n1" }]) [exampleClaimNoClass] "n1"
      = (0, some (.storageClassEmpty "c")) ∧
    exampleClaimNoClass.Spec.StorageClassName = none := by
  decide

/-- C15: with the two qualifying nodes `n1` and `n2` and a claim that needs one
replica, `Filter` on `n3` returns false with a nil error: the pending-claim stage
returns `false, nil` for a node that is not in the list and `Filter` passes it on,
whereas it turns a silent rejection of the bound-volume stage into an error. -/
theorem Filter_rejects_unqualified_node_without_error :
    Filter (exampleScheduler [{ Name := "n1" }, { Name := "n2" }]) []
      [exampleClaim "c" "hdd1" 10] ⟨"n3"⟩ = .ok (false, none) ∧
    Filter (exampleScheduler [{ Name := "n1" }, { Name := "n2" }]) ["V"]
      [exampleClaim "c" "hdd1" 10] ⟨"n3"⟩ = .ok (false, some .notRightNode) := by
  decide

/-- C16, refuted as stated: on node `n1` with a pool of 50 bytes free, after `Reserve`
of a claim of 40 bytes `Filter` accepts a claim of 20 bytes on `n1`, exactly as before
the `Reserve` and as after `Unreserve`. -/
theorem Filter_accepts_after_Reserve :
    Filter (Reserve exampleScheduler50 [exampleClaim "a" "hdd1" 40] "n1").1 []
      [exampleClaim "b" "hdd1" 20] ⟨"n1"⟩ = .ok (true, none) ∧
    Filter exampleScheduler50 [] [exampleClaim "b" "hdd1" 20] ⟨"n1"⟩ = .ok (true, none) ∧
    Filter
      (Unreserve (Reserve exampleScheduler50 [exampleClaim "a" "hdd1" 40] "n1").1
        [exampleClaim "a" "hdd1" 40] "n1").1 []
      [exampleClaim "b" "hdd1" 20] ⟨"n1"⟩ = .ok (true, none) ∧
    (exampleNode50.pool "LocalStorage_PoolHDD").FreeCapacityBytes = 50 := by
  decide

/-- C16, amended: `Reserve` and `Unreserve` return no error and record nothing, so
`Filter` and `Score` return after a `Reserve`, and after the `Unreserve` that follows
it, what they return without them. -/
theorem Reserve_records_nothing (p : Platform) (s : LVMVolumeScheduler)
    (claims : List PersistentVolumeClaim) (node : String) (lvs : List String)
    (pendingPVCs : List PersistentVolumeClaim) (evaluated : Node) :
    (Reserve s claims node).2 = none ∧
    Filter (Reserve s claims node).1 lvs pendingPVCs evaluated
      = Filter s lvs pendingPVCs evaluated ∧
    Filter (Unreserve (Reserve s claims node).1 claims node).1 lvs pendingPVCs evaluated
      = Filter s lvs pendingPVCs evaluated ∧
    Score p (Reserve s claims node).1 pendingPVCs evaluated.Name
      = Score p s pendingPVCs evaluated.Name := by
  exact ⟨rfl, rfl, rfl, rfl⟩

/-- C17: `Reserve` followed by `Unreserve` leaves the scheduler as it was before the
`Reserve`; `Unreserve` returns no error for every input, also without a `Reserve`
before it; and `Unreserve` twice leaves the scheduler as `Unreserve` once. -/
theorem Unreserve_restores_and_is_idempotent (s : LVMVolumeScheduler)
    (claims : List PersistentVolumeClaim) (node : String) :
    (Unreserve (Reserve s claims node).1 claims node).1 = s ∧
    (Unreserve s claims node).2 = none ∧
    (Unreserve (Reserve s claims node).1 claims node).2 = none ∧
    Unreserve (Unreserve s claims node).1 claims node = Unreserve s claims node := by
  exact ⟨rfl, rfl, rfl, rfl⟩

/-! ## The pool map -/

theorem getPool_setPool_self (m : PoolMap) (key : String) (pool : LocalPool) :
    getPool (setPool m key pool) key = some pool := by
  induction m with
  | nil => simp [setPool, getPool]
  | cons e rest ih =>
    obtain ⟨k, v⟩ := e
    by_cases h : k = key
    · simp [setPool, getPool, h]
    · simp [setPool, getPool, h, ih]

theorem getPool_setPool_of_ne (m : PoolMap) (key other : String) (pool : LocalPool)
    (h : key ≠ other) : getPool (setPool m key pool) other = getPool m other := by
  induction m with
  | nil => simp [setPool, getPool, h]
  | cons e rest ih =>
    obtain ⟨k, v⟩ := e
    by_cases hk : k = key
    · subst hk
      simp [setPool, getPool, h]
    · by_cases ho : k = other
      · subst ho
        simp [setPool, getPool, hk]
      · simp [setPool, getPool, hk, ho, ih]

theorem setPool_of_absent (m : PoolMap) (key : String) (pool : LocalPool)
    (h : getPool m key = none) : setPool m key pool = m ++ [(key, pool)] := by
  induction m with
  | nil => rfl
  | cons e rest ih =>
    obtain ⟨k, v⟩ := e
    by_cases hk : k = key
    · simp [getPool, hk] at h
    · simp only [getPool, hk, if_false] at h
      simp [setPool, hk, ih h]

theorem setPool_of_present (m : PoolMap) (key : String) (f : LocalPool → LocalPool)
    (existing : LocalPool) (h : getPool m key = some existing) :
    setPool m key (f existing) = modifyPool key f m := by
  induction m with
  | nil => simp [getPool] at h
  | cons e rest ih =>
    obtain ⟨k, v⟩ := e
    by_cases hk : k = key
    · simp only [getPool, hk, if_true, Option.some.injEq] at h
      subst h
      simp [setPool, modifyPool, hk]
    · simp only [getPool, hk, if_false] at h
      simp [setPool, modifyPool, hk, ih h]

theorem getPool_modifyPool (m : PoolMap) (key other : String) (f : LocalPool → LocalPool) :
    getPool (modifyPool key f m) other =
      if key = other then (getPool m other).map f else getPool m other := by
  induction m with
  | nil => simp [modifyPool, getPool]
  | cons e rest ih =>
    obtain ⟨k, v⟩ := e
    by_cases hk : k = key
    · subst hk
      by_cases ho : k = other
      · simp [modifyPool, getPool, ho]
      · simp [modifyPool, getPool, ho]
    · by_cases ho : k = other
      · subst ho
        have hne : ¬ key = k := fun h => hk h.symm
        simp [modifyPool, getPool, hk, hne]
      · simp [modifyPool, getPool, hk, ho, ih]

theorem getPool_modifyPool_isSome (m : PoolMap) (key other : String)
    (f : LocalPool → LocalPool) :
    (getPool (modifyPool key f m) other).isSome = (getPool m other).isSome := by
  rw [getPool_modifyPool]
  split <;> simp

theorem modifyPool_modifyPool_same (m : PoolMap) (key : String) (f g : LocalPool → LocalPool) :
    modifyPool key f (modifyPool key g m) = modifyPool key (fun pool => f (g pool)) m := by
  induction m with
  | nil => rfl
  | cons e rest ih =>
    obtain ⟨k, v⟩ := e
    by_cases hk : k = key
    · simp [modifyPool, hk]
    · simp [modifyPool, hk, ih]

theorem modifyPool_comm (m : PoolMap) (key other : String) (f g : LocalPool → LocalPool)
    (h : key ≠ other) :
    modifyPool key f (modifyPool other g m) = modifyPool other g (modifyPool key f m) := by
  induction m with
  | nil => rfl
  | cons e rest ih =>
    obtain ⟨k, v⟩ := e
    by_cases hk : k = key
    · subst hk
      simp [modifyPool, h]
    · by_cases ho : k = other
      · subst ho
        simp [modifyPool, hk]
      · simp [modifyPool, hk, ho, ih]

theorem modifyPool_append_of_present (m rest : PoolMap) (key : String)
    (f : LocalPool → LocalPool) (h : (getPool m key).isSome = true) :
    modifyPool key f (m ++ rest) = modifyPool key f m ++ rest := by
  induction m with
  | nil => simp [getPool] at h
  | cons e tail ih =>
    obtain ⟨k, v⟩ := e
    by_cases hk : k = key
    · simp [modifyPool, hk]
    · simp only [getPool, hk, if_false] at h
      simp [modifyPool, hk, ih h]

theorem modifyPool_append_of_absent (m : PoolMap) (key : String) (f : LocalPool → LocalPool)
    (pool : LocalPool) (h : getPool m key = none) :
    modifyPool key f (m ++ [(key, pool)]) = m ++ [(key, f pool)] := by
  induction m with
  | nil => simp [modifyPool]
  | cons e tail ih =>
    obtain ⟨k, v⟩ := e
    by_cases hk : k = key
    · simp [getPool, hk] at h
    · simp only [getPool, hk, if_false] at h
      simp [modifyPool, hk, ih h]

theorem writeDiscovery_writeDiscovery (t : TypesPackage) (disks disks' : List Disk)
    (volumes volumes' : List Volume) (pool : LocalPool) :
    writeDiscovery t disks volumes (writeDiscovery t disks' volumes' pool) =
      writeDiscovery t disks volumes pool := by
  rfl

/-- On a map that has the pool of the device type, an iteration of the rebuild only
rewrites that pool. -/
theorem rebuildLocalPool_of_present (t : TypesPackage) (reg : RegistryManager) (m : PoolMap)
    (devType : String) (h : (getPool m (t.GetLocalDiskPoolName devType)).isSome = true) :
    rebuildLocalPool t reg m devType = rewriteLocalPool t reg m devType := by
  obtain ⟨existing, hex⟩ := Option.isSome_iff_exists.mp h
  unfold rebuildLocalPool rewriteLocalPool
  simp only [hex]
  split
  · rfl
  · exact setPool_of_present m _ _ existing hex

/-- On a map without the pool of a device type that has a disk or a volume, an
iteration of the rebuild adds the pool at the end. -/
theorem rebuildLocalPool_of_absent (t : TypesPackage) (reg : RegistryManager) (m : PoolMap)
    (devType : String) (h : getPool m (t.GetLocalDiskPoolName devType) = none)
    (hne : ¬ ((reg.ListVolumesByType devType).length = 0 ∧
      (reg.ListDisksByType devType).length = 0)) :
    rebuildLocalPool t reg m devType =
      m ++ [(t.GetLocalDiskPoolName devType,
        writeDiscovery t (reg.ListDisksByType devType) (reg.ListVolumesByType devType)
          { Class := devType, PoolType := PoolTypeRegular })] := by
  unfold rebuildLocalPool
  simp only [h, hne, if_false]
  exact setPool_of_absent m _ _ h

theorem rebuildLocalPool_of_empty (t : TypesPackage) (reg : RegistryManager) (m : PoolMap)
    (devType : String)
    (he : (reg.ListVolumesByType devType).length = 0 ∧ (reg.ListDisksByType devType).length = 0) :
    rebuildLocalPool t reg m devType = m := by
  unfold rebuildLocalPool
  simp only [he, and_self, if_true]

theorem rewriteLocalPool_of_empty (t : TypesPackage) (reg : RegistryManager) (m : PoolMap)
    (devType : String)
    (he : (reg.ListVolumesByType devType).length = 0 ∧ (reg.ListDisksByType devType).length = 0) :
    rewriteLocalPool t reg m devType = m := by
  unfold rewriteLocalPool
  simp only [he, and_self, if_true]

theorem rewriteLocalPool_of_nonempty (t : TypesPackage) (reg : RegistryManager) (m : PoolMap)
    (devType : String)
    (hne : ¬ ((reg.ListVolumesByType devType).length = 0 ∧
      (reg.ListDisksByType devType).length = 0)) :
    rewriteLocalPool t reg m devType =
      modifyPool (t.GetLocalDiskPoolName devType)
        (writeDiscovery t (reg.ListDisksByType devType) (reg.ListVolumesByType devType)) m := by
  unfold rewriteLocalPool
  simp only [hne, if_false]

theorem isSome_getPool_rewriteLocalPool (t : TypesPackage) (reg : RegistryManager)
    (m : PoolMap) (devType key : String) :
    (getPool (rewriteLocalPool t reg m devType) key).isSome = (getPool m key).isSome := by
  by_cases he : (reg.ListVolumesByType devType).length = 0 ∧
      (reg.ListDisksByType devType).length = 0
  · rw [rewriteLocalPool_of_empty t reg m devType he]
  · rw [rewriteLocalPool_of_nonempty t reg m devType he]
    exact getPool_modifyPool_isSome m _ key _

theorem isSome_getPool_foldl_rewriteLocalPool (t : TypesPackage) (reg : RegistryManager)
    (devTypes : List String) (m : PoolMap) (key : String) :
    (getPool (devTypes.foldl (rewriteLocalPool t reg) m) key).isSome = (getPool m key).isSome := by
  induction devTypes generalizing m with
  | nil => rfl
  | cons c rest ih =>
    rw [List.foldl_cons, ih, isSome_getPool_rewriteLocalPool]

/-- An iteration of the rebuild removes no pool. -/
theorem isSome_getPool_rebuildLocalPool_mono (t : TypesPackage) (reg : RegistryManager)
    (m : PoolMap) (devType key : String) (h : (getPool m key).isSome = true) :
    (getPool (rebuildLocalPool t reg m devType) key).isSome = true := by
  by_cases hk : t.GetLocalDiskPoolName devType = key
  · subst hk
    rw [rebuildLocalPool_of_present t reg m devType h, isSome_getPool_rewriteLocalPool]
    exact h
  · by_cases he : (reg.ListVolumesByType devType).length = 0 ∧
        (reg.ListDisksByType devType).length = 0
    · rw [rebuildLocalPool_of_empty t reg m devType he]
      exact h
    · unfold rebuildLocalPool
      simp only [he, if_false]
      rw [getPool_setPool_of_ne m _ key _ hk]
      exact h

/-- After an iteration for a device type that has a disk or a volume, its pool is in
the map. -/
theorem isSome_getPool_rebuildLocalPool_self (t : TypesPackage) (reg : RegistryManager)
    (m : PoolMap) (devType : String)
    (hne : ¬ ((reg.ListVolumesByType devType).length = 0 ∧
      (reg.ListDisksByType devType).length = 0)) :
    (getPool (rebuildLocalPool t reg m devType) (t.GetLocalDiskPoolName devType)).isSome
      = true := by
  unfold rebuildLocalPool
  simp only [hne, if_false]
  rw [getPool_setPool_self]
  rfl

theorem isSome_getPool_foldl_rebuildLocalPool_mono (t : TypesPackage) (reg : RegistryManager)
    (devTypes : List String) (m : PoolMap) (key : String)
    (h : (getPool m key).isSome = true) :
    (getPool (devTypes.foldl (rebuildLocalPool t reg) m) key).isSome = true := by
  induction devTypes generalizing m with
  | nil => exact h
  | cons c rest ih =>
    rw [List.foldl_cons]
    exact ih _ (isSome_getPool_rebuildLocalPool_mono t reg m c key h)

/-- After the loop, every device type of the loop that has a disk or a volume has its
pool in the map. -/
theorem isSome_getPool_foldl_rebuildLocalPool (t : TypesPackage) (reg : RegistryManager)
    (devTypes : List String) (m : PoolMap) (devType : String) (hmem : devType ∈ devTypes)
    (hne : ¬ ((reg.ListVolumesByType devType).length = 0 ∧
      (reg.ListDisksByType devType).length = 0)) :
    (getPool (devTypes.foldl (rebuildLocalPool t reg) m)
      (t.GetLocalDiskPoolName devType)).isSome = true := by
  induction devTypes generalizing m with
  | nil => cases hmem
  | cons c rest ih =>
    rw [List.foldl_cons]
    rcases List.mem_cons.mp hmem with rfl | hrest
    · exact isSome_getPool_foldl_rebuildLocalPool_mono t reg rest _ _
        (isSome_getPool_rebuildLocalPool_self t reg m devType hne)
    · exact ih _ hrest

/-- On a map that has the pool of every device type of the loop with a disk or a
volume, the loop only rewrites pools. -/
theorem foldl_rebuildLocalPool_eq_rewrite (t : TypesPackage) (reg : RegistryManager)
    (devTypes : List String) (m : PoolMap)
    (h : ∀ c ∈ devTypes, ¬ ((reg.ListVolumesByType c).length = 0 ∧
      (reg.ListDisksByType c).length = 0) →
      (getPool m (t.GetLocalDiskPoolName c)).isSome = true) :
    devTypes.foldl (rebuildLocalPool t reg) m = devTypes.foldl (rewriteLocalPool t reg) m := by
  induction devTypes generalizing m with
  | nil => rfl
  | cons c rest ih =>
    rw [List.foldl_cons, List.foldl_cons]
    have hstep : rebuildLocalPool t reg m c = rewriteLocalPool t reg m c := by
      by_cases he : (reg.ListVolumesByType c).length = 0 ∧ (reg.ListDisksByType c).length = 0
      · rw [rebuildLocalPool_of_empty t reg m c he, rewriteLocalPool_of_empty t reg m c he]
      · exact rebuildLocalPool_of_present t reg m c (h c (List.mem_cons_self _ _) he)
    rw [hstep]
    apply ih
    intro c' hc' hne'
    rw [isSome_getPool_rewriteLocalPool]
    exact h c' (List.mem_cons_of_mem _ hc') hne'

/-- Rewriting a pool twice, with other rewrites in between, is rewriting it once after
them. -/
theorem rewriteLocalPool_foldl_rewriteLocalPool (t : TypesPackage) (reg : RegistryManager)
    (devTypes : List String) (m : PoolMap) (devType : String) :
    rewriteLocalPool t reg
        (devTypes.foldl (rewriteLocalPool t reg) (rewriteLocalPool t reg m devType)) devType =
      rewriteLocalPool t reg (devTypes.foldl (rewriteLocalPool t reg) m) devType := by
  by_cases he : (reg.ListVolumesByType devType).length = 0 ∧
      (reg.ListDisksByType devType).length = 0
  · rw [rewriteLocalPool_of_empty t reg m devType he]
  · induction devTypes generalizing m with
    | nil =>
      simp only [List.foldl_nil]
      rw [rewriteLocalPool_of_nonempty t reg _ devType he,
        rewriteLocalPool_of_nonempty t reg _ devType he, modifyPool_modifyPool_same]
      rfl
    | cons c rest ih =>
      simp only [List.foldl_cons]
      by_cases hc : (reg.ListVolumesByType c).length = 0 ∧ (reg.ListDisksByType c).length = 0
      · rw [rewriteLocalPool_of_empty t reg _ c hc, rewriteLocalPool_of_empty t reg _ c hc]
        exact ih m
      · by_cases hk : t.GetLocalDiskPoolName c = t.GetLocalDiskPoolName devType
        · have habsorb : rewriteLocalPool t reg (rewriteLocalPool t reg m devType) c =
              rewriteLocalPool t reg m c := by
            rw [rewriteLocalPool_of_nonempty t reg _ c hc,
              rewriteLocalPool_of_nonempty t reg _ devType he,
              rewriteLocalPool_of_nonempty t reg _ c hc, hk, modifyPool_modifyPool_same]
            rfl
          rw [habsorb]
        · have hcomm : rewriteLocalPool t reg (rewriteLocalPool t reg m devType) c =
              rewriteLocalPool t reg (rewriteLocalPool t reg m c) devType := by
            rw [rewriteLocalPool_of_nonempty t reg _ c hc,
              rewriteLocalPool_of_nonempty t reg _ devType he,
              rewriteLocalPool_of_nonempty t reg _ devType he,
              rewriteLocalPool_of_nonempty t reg _ c hc]
            exact modifyPool_comm m _ _ _ _ hk
          rw [hcomm]
          exact ih (rewriteLocalPool t reg m c)

/-- Rewrites of pools that are in the map leave what is appended to it alone. -/
theorem foldl_rewriteLocalPool_append (t : TypesPackage) (reg : RegistryManager)
    (devTypes : List String) (m extra : PoolMap)
    (h : ∀ c ∈ devTypes, ¬ ((reg.ListVolumesByType c).length = 0 ∧
      (reg.ListDisksByType c).length = 0) →
      (getPool m (t.GetLocalDiskPoolName c)).isSome = true) :
    devTypes.foldl (rewriteLocalPool t reg) (m ++ extra) =
      devTypes.foldl (rewriteLocalPool t reg) m ++ extra := by
  induction devTypes generalizing m with
  | nil => rfl
  | cons c rest ih =>
    simp only [List.foldl_cons]
    have hstep : rewriteLocalPool t reg (m ++ extra) c = rewriteLocalPool t reg m c ++ extra := by
      by_cases hc : (reg.ListVolumesByType c).length = 0 ∧ (reg.ListDisksByType c).length = 0
      · rw [rewriteLocalPool_of_empty t reg _ c hc, rewriteLocalPool_of_empty t reg _ c hc]
      · rw [rewriteLocalPool_of_nonempty t reg _ c hc, rewriteLocalPool_of_nonempty t reg _ c hc]
        exact modifyPool_append_of_present m extra _ _ (h c (List.mem_cons_self _ _) hc)
    rw [hstep]
    apply ih
    intro c' hc' hne'
    rw [isSome_getPool_rewriteLocalPool]
    exact h c' (List.mem_cons_of_mem _ hc') hne'

/-- After the loop of the rebuild, rewriting the pools of the same device types changes
nothing. -/
theorem foldl_rewriteLocalPool_foldl_rebuildLocalPool (t : TypesPackage)
    (reg : RegistryManager) (devTypes : List String) (m : PoolMap) :
    devTypes.foldl (rewriteLocalPool t reg) (devTypes.foldl (rebuildLocalPool t reg) m) =
      devTypes.foldl (rebuildLocalPool t reg) m := by
  induction devTypes using List.reverseRecOn with
  | nil => rfl
  | append_singleton rest c ih =>
    simp only [List.foldl_append, List.foldl_cons, List.foldl_nil]
    set y := rest.foldl (rebuildLocalPool t reg) m with hy
    by_cases hc : (reg.ListVolumesByType c).length = 0 ∧ (reg.ListDisksByType c).length = 0
    · rw [rebuildLocalPool_of_empty t reg y c hc, rewriteLocalPool_of_empty t reg _ c hc]
      exact ih
    · by_cases hp : (getPool y (t.GetLocalDiskPoolName c)).isSome = true
      · rw [rebuildLocalPool_of_present t reg y c hp,
          rewriteLocalPool_foldl_rewriteLocalPool t reg rest y c, ih]
      · have habs : getPool y (t.GetLocalDiskPoolName c) = none := by
          simpa using hp
        rw [rebuildLocalPool_of_absent t reg y c habs hc,
          foldl_rewriteLocalPool_append t reg rest y _
            (fun c' hc' hne' => isSome_getPool_foldl_rebuildLocalPool t reg rest m c' hc' hne'),
          ih, rewriteLocalPool_of_nonempty t reg _ c hc,
          modifyPool_append_of_absent y _ _ _ habs]
        rfl

/-- The loop of the rebuild, run again on its own result, changes nothing. -/
theorem foldl_rebuildLocalPool_idempotent (t : TypesPackage) (reg : RegistryManager)
    (devTypes : List String) (m : PoolMap) :
    devTypes.foldl (rebuildLocalPool t reg) (devTypes.foldl (rebuildLocalPool t reg) m) =
      devTypes.foldl (rebuildLocalPool t reg) m := by
  rw [foldl_rebuildLocalPool_eq_rewrite t reg devTypes _
    (fun c hc hne => isSome_getPool_foldl_rebuildLocalPool t reg devTypes m c hc hne)]
  exact foldl_rewriteLocalPool_foldl_rebuildLocalPool t reg devTypes m

theorem wrapInt64_wrapInt64_add (x y : Int) : wrapInt64 (wrapInt64 x + y) = wrapInt64 (x + y) := by
  unfold wrapInt64
  omega

/-- A running `int64` sum from 0 is the exact sum wrapped once. -/
theorem foldl_wrapInt64_add {α : Type} (f : α → Int) (l : List α) (acc : Int) :
    l.foldl (fun a x => wrapInt64 (a + f x)) (wrapInt64 acc) = wrapInt64 (acc + (l.map f).sum) := by
  induction l generalizing acc with
  | nil => simp
  | cons x rest ih =>
    simp only [List.foldl_cons, List.map_cons, List.sum_cons]
    rw [wrapInt64_wrapInt64_add, ih, add_assoc]

theorem totalCapacityOf_eq (disks : List Disk) :
    totalCapacityOf disks = wrapInt64 ((disks.map (fun d => d.Capacity)).sum) := by
  have h := foldl_wrapInt64_add (fun d : Disk => d.Capacity) disks 0
  have h0 : wrapInt64 0 = 0 := by decide
  rw [h0, zero_add] at h
  exact h

theorem usedCapacityOf_eq (volumes : List Volume) :
    usedCapacityOf volumes = wrapInt64 ((volumes.map (fun v => v.Capacity)).sum) := by
  have h := foldl_wrapInt64_add (fun v : Volume => v.Capacity) volumes 0
  have h0 : wrapInt64 0 = 0 := by decide
  rw [h0, zero_add] at h
  exact h

/-- The running maximum is at least its start and every capacity, and it is the start
or one of the capacities. -/
theorem foldl_maxCapacity (disks : List Disk) (start : Int) :
    start ≤ disks.foldl (fun maxCapacity classDisk =>
        if maxCapacity < classDisk.Capacity then classDisk.Capacity else maxCapacity) start ∧
    (∀ d ∈ disks, d.Capacity ≤ disks.foldl (fun maxCapacity classDisk =>
        if maxCapacity < classDisk.Capacity then classDisk.Capacity else maxCapacity) start) ∧
    (disks.foldl (fun maxCapacity classDisk =>
        if maxCapacity < classDisk.Capacity then classDisk.Capacity else maxCapacity) start = start ∨
      ∃ d ∈ disks, d.Capacity = disks.foldl (fun maxCapacity classDisk =>
        if maxCapacity < classDisk.Capacity then classDisk.Capacity else maxCapacity) start) := by
  induction disks generalizing start with
  | nil => simp
  | cons d rest ih =>
    simp only [List.foldl_cons]
    obtain ⟨h1, h2, h3⟩ := ih (if start < d.Capacity then d.Capacity else start)
    have hstart : start ≤ (if start < d.Capacity then d.Capacity else start) := by
      split <;> omega
    have hd : d.Capacity ≤ (if start < d.Capacity then d.Capacity else start) := by
      split <;> omega
    refine ⟨hstart.trans h1, ?_, ?_⟩
    · intro x hx
      rcases List.mem_cons.mp hx with rfl | hx
      · exact hd.trans h1
      · exact h2 x hx
    · rcases h3 with h3 | ⟨x, hx, hxe⟩
      · by_cases hlt : start < d.Capacity
        · right
          refine ⟨d, List.mem_cons_self _ _, ?_⟩
          rw [h3]
          simp [hlt]
        · left
          rw [h3]
          simp [hlt]
      · exact Or.inr ⟨x, List.mem_cons_of_mem _ hx, hxe⟩

/-- With non-negative capacities the limit of a pool is the largest capacity of its
disks, and 0 without disks. -/
theorem maxCapacityOf_spec (disks : List Disk) (hnonneg : ∀ d ∈ disks, 0 ≤ d.Capacity) :
    (∀ d ∈ disks, d.Capacity ≤ maxCapacityOf disks) ∧
    (disks = [] → maxCapacityOf disks = 0) ∧
    (disks ≠ [] → ∃ d ∈ disks, d.Capacity = maxCapacityOf disks) := by
  obtain ⟨h1, h2, h3⟩ := foldl_maxCapacity disks 0
  refine ⟨h2, ?_, ?_⟩
  · intro he
    subst he
    rfl
  · intro hne
    rcases h3 with h3 | h3
    · obtain ⟨d, rest, rfl⟩ := List.exists_cons_of_ne_nil hne
      refine ⟨d, List.mem_cons_self _ _, ?_⟩
      have hle := h2 d (List.mem_cons_self _ _)
      have hge := hnonneg d (List.mem_cons_self _ _)
      unfold maxCapacityOf
      rw [h3] at hle ⊢
      omega
    · exact h3

/-- After the loop, the pool of a device type of the loop that has a disk or a volume,
and whose pool name no other device type of the loop shares, holds what was discovered
for it. -/
theorem getPool_foldl_rebuildLocalPool (t : TypesPackage) (reg : RegistryManager)
    (devTypes : List String) (m : PoolMap) (devType : String)
    (hname : ∀ c ∈ devTypes,
      t.GetLocalDiskPoolName c = t.GetLocalDiskPoolName devType → c = devType)
    (hne : ¬ ((reg.ListVolumesByType devType).length = 0 ∧
      (reg.ListDisksByType devType).length = 0))
    (h : devType ∈ devTypes ∨ ∃ base, getPool m (t.GetLocalDiskPoolName devType) =
      some (writeDiscovery t (reg.ListDisksByType devType) (reg.ListVolumesByType devType) base)) :
    ∃ base, getPool (devTypes.foldl (rebuildLocalPool t reg) m) (t.GetLocalDiskPoolName devType) =
      some (writeDiscovery t (reg.ListDisksByType devType) (reg.ListVolumesByType devType) base) := by
  induction devTypes generalizing m with
  | nil =>
    rcases h with h | h
    · cases h
    · exact h
  | cons c rest ih =>
    rw [List.foldl_cons]
    apply ih _ (fun c' hc' => hname c' (List.mem_cons_of_mem _ hc'))
    by_cases hc : c = devType
    · subst hc
      right
      unfold rebuildLocalPool
      simp only [hne, if_false]
      exact ⟨_, getPool_setPool_self _ _ _⟩
    · have hkey : t.GetLocalDiskPoolName c ≠ t.GetLocalDiskPoolName devType :=
        fun heq => hc (hname c (List.mem_cons_self _ _) heq)
      rcases h with h | ⟨base, hbase⟩
      · rcases List.mem_cons.mp h with h | h
        · exact absurd h.symm hc
        · exact Or.inl h
      · right
        refine ⟨base, ?_⟩
        by_cases he : (reg.ListVolumesByType c).length = 0 ∧ (reg.ListDisksByType c).length = 0
        · rw [rebuildLocalPool_of_empty t reg m c he]
          exact hbase
        · unfold rebuildLocalPool
          simp only [he, if_false]
          rw [getPool_setPool_of_ne _ _ _ _ hkey]
          exact hbase

/-! ## Claims on the rebuild of the pools -/

/-- C18: after `rebuildLocalPools`, the pool of a device type that the rebuild iterates
and that has a disk or a volume (its capacities non-negative for the disks and their
sums within `int64`, its pool name shared by no other device type) has
`TotalCapacityBytes` the sum of the capacities of its disks, `VolumeCapacityBytesLimit`
their maximum (0 without disks), `UsedCapacityBytes` the sum of the capacities of its
volumes, `Volumes` the names of its volumes and `Disks` its disks, both in the order of
the registry. -/
theorem rebuildLocalPools_pool_of_class (t : TypesPackage) (m : nodeManager)
    (devType : String) (hmem : devType ∈ t.DefaultDevTypes)
    (hname : ∀ c ∈ t.DefaultDevTypes,
      t.GetLocalDiskPoolName c = t.GetLocalDiskPoolName devType → c = devType)
    (hcontent : m.registryManager.ListDisksByType devType ≠ [] ∨
      m.registryManager.ListVolumesByType devType ≠ [])
    (hnonneg : ∀ d ∈ m.registryManager.ListDisksByType devType, 0 ≤ d.Capacity)
    (htotal : ((m.registryManager.ListDisksByType devType).map (fun d => d.Capacity)).sum
      < 2 ^ 63)
    (hused : -(2 ^ 63) ≤
        ((m.registryManager.ListVolumesByType devType).map (fun v => v.Capacity)).sum ∧
      ((m.registryManager.ListVolumesByType devType).map (fun v => v.Capacity)).sum < 2 ^ 63) :
    ∃ pool, getPool (rebuildLocalPools t m).pools (t.GetLocalDiskPoolName devType) = some pool ∧
      pool.TotalCapacityBytes =
        ((m.registryManager.ListDisksByType devType).map (fun d => d.Capacity)).sum ∧
      (∀ d ∈ m.registryManager.ListDisksByType devType,
        d.Capacity ≤ pool.VolumeCapacityBytesLimit) ∧
      (m.registryManager.ListDisksByType devType = [] → pool.VolumeCapacityBytesLimit = 0) ∧
      (m.registryManager.ListDisksByType devType ≠ [] →
        ∃ d ∈ m.registryManager.ListDisksByType devType,
          d.Capacity = pool.VolumeCapacityBytesLimit) ∧
      pool.UsedCapacityBytes =
        ((m.registryManager.ListVolumesByType devType).map (fun v => v.Capacity)).sum ∧
      pool.Volumes = (m.registryManager.ListVolumesByType devType).map (fun v => v.Name) ∧
      pool.Disks = (m.registryManager.ListDisksByType devType).map
        (fun d => { DevPath := d.DevPath, Class := d.DiskType, CapacityBytes := d.Capacity }) := by
  have hne : ¬ ((m.registryManager.ListVolumesByType devType).length = 0 ∧
      (m.registryManager.ListDisksByType devType).length = 0) := by
    rintro ⟨hv, hd⟩
    rcases hcontent with h | h
    · exact h (List.length_eq_zero.mp hd)
    · exact h (List.length_eq_zero.mp hv)
  obtain ⟨base, hbase⟩ := getPool_foldl_rebuildLocalPool t m.registryManager t.DefaultDevTypes
    m.pools devType hname hne (Or.inl hmem)
  have hsum0 : 0 ≤ ((m.registryManager.ListDisksByType devType).map (fun d => d.Capacity)).sum := by
    apply List.sum_nonneg
    intro x hx
    obtain ⟨d, hd, rfl⟩ := List.mem_map.mp hx
    exact hnonneg d hd
  obtain ⟨hmax1, hmax2, hmax3⟩ := maxCapacityOf_spec _ hnonneg
  refine ⟨_, hbase, ?_, hmax1, hmax2, hmax3, ?_, rfl, rfl⟩
  · show totalCapacityOf _ = _
    rw [totalCapacityOf_eq]
    exact wrapInt64_of_range _ (by omega) htotal
  · show usedCapacityOf _ = _
    rw [usedCapacityOf_eq]
    exact wrapInt64_of_range _ hused.1 hused.2

/-- C18 at the registry with HDD disks of 100 and 200 bytes and HDD replicas of 30 and
40 bytes: total 300, used 70, free 230, limit 200, two volumes. -/
theorem rebuildLocalPools_pool_of_class_witness :
    (∃ pool,
      getPool (rebuildLocalPools specTypes { registryManager := exampleRegistry }).pools
        (specTypes.GetLocalDiskPoolName "HDD") = some pool ∧
      pool.TotalCapacityBytes =
        ((exampleRegistry.ListDisksByType "HDD").map (fun d => d.Capacity)).sum ∧
      (∀ d ∈ exampleRegistry.ListDisksByType "HDD", d.Capacity ≤ pool.VolumeCapacityBytesLimit) ∧
      (exampleRegistry.ListDisksByType "HDD" = [] → pool.VolumeCapacityBytesLimit = 0) ∧
      (exampleRegistry.ListDisksByType "HDD" ≠ [] →
        ∃ d ∈ exampleRegistry.ListDisksByType "HDD", d.Capacity = pool.VolumeCapacityBytesLimit) ∧
      pool.UsedCapacityBytes =
        ((exampleRegistry.ListVolumesByType "HDD").map (fun v => v.Capacity)).sum ∧
      pool.Volumes = (exampleRegistry.ListVolumesByType "HDD").map (fun v => v.Name) ∧
      pool.Disks = (exampleRegistry.ListDisksByType "HDD").map
        (fun d => { DevPath := d.DevPath, Class := d.DiskType, CapacityBytes := d.Capacity })) ∧
    getPool (rebuildLocalPools specTypes { registryManager := exampleRegistry }).pools
        "LocalStorage_PoolHDD" =
      some { Class := "HDD", PoolType := "REGULAR", TotalCapacityBytes := 300,
             UsedCapacityBytes := 70, VolumeCapacityBytesLimit := 200,
             FreeCapacityBytes := 230, TotalVolumeCount := 1000, UsedVolumeCount := 2,
             FreeVolumeCount := 998,
             Disks := [{ DevPath := "/dev/sda", Class := "HDD", CapacityBytes := 100 },
                       { DevPath := "/dev/sdb", Class := "HDD", CapacityBytes := 200 }],
             Volumes := ["replica-1", "replica-2"] } :=
  ⟨rebuildLocalPools_pool_of_class specTypes { registryManager := exampleRegistry } "HDD"
      (by decide) (by decide) (by decide) (by decide) (by decide) (by decide),
    by decide⟩

/-- C19: a pool that an earlier rebuild created stays in the map when the registry no
longer lists a disk or a volume of its class: after a rebuild on the registry with HDD
disks and replicas and a second rebuild on an empty registry, the HDD pool is still
there, with the capacities of the disks that are gone. -/
theorem rebuildLocalPools_keeps_stale_pool :
    emptyRegistry.ListDisksByType "HDD" = [] ∧
    emptyRegistry.ListVolumesByType "HDD" = [] ∧
    (rebuildLocalPools specTypes { registryManager := exampleRegistry }).pools =
      [("LocalStorage_PoolHDD",
        { Class := "HDD", PoolType := "REGULAR", TotalCapacityBytes := 300,
          UsedCapacityBytes := 70, VolumeCapacityBytesLimit := 200,
          FreeCapacityBytes := 230, TotalVolumeCount := 1000, UsedVolumeCount := 2,
          FreeVolumeCount := 998,
          Disks := [{ DevPath := "/dev/sda", Class := "HDD", CapacityBytes := 100 },
                    { DevPath := "/dev/sdb", Class := "HDD", CapacityBytes := 200 }],
          Volumes := ["replica-1", "replica-2"] })] ∧
    (rebuildLocalPools specTypes
      { registryManager := emptyRegistry
        pools := (rebuildLocalPools specTypes { registryManager := exampleRegistry }).pools }).pools =
      (rebuildLocalPools specTypes { registryManager := exampleRegistry }).pools := by
  decide

/-- C20: `rebuildLocalPools` run twice on an unchanged registry leaves the manager, and
so the pool map entry for entry and field for field, as one run leaves it, from every
starting pool map. -/
theorem rebuildLocalPools_idempotent (t : TypesPackage) (m : nodeManager) :
    rebuildLocalPools t (rebuildLocalPools t m) = rebuildLocalPools t m := by
  unfold rebuildLocalPools
  simp only [foldl_rebuildLocalPool_idempotent]

/-! ## Monotonicity of the binary64 rounding -/

/-- The nearest integer lies between the floor and the floor plus one. -/
theorem roundHalfEven_bounds (t : ℚ) : ⌊t⌋ ≤ roundHalfEven t ∧ roundHalfEven t ≤ ⌊t⌋ + 1 := by
  unfold roundHalfEven
  simp only [qfloor_eq_floor]
  split
  · omega
  · split
    · omega
    · split <;> omega

/-- An integer rounds to itself. -/
theorem roundHalfEven_intCast (n : ℤ) : roundHalfEven (n : ℚ) = n := by
  unfold roundHalfEven
  simp only [qfloor_eq_floor, Int.floor_intCast, sub_self]
  norm_num

/-- Rounding to the nearest integer is monotone. -/
theorem roundHalfEven_mono (t u : ℚ) (h : t ≤ u) : roundHalfEven t ≤ roundHalfEven u := by
  have hfl : ⌊t⌋ ≤ ⌊u⌋ := Int.floor_le_floor h
  rcases lt_or_eq_of_le hfl with hlt | heq
  · have h1 := (roundHalfEven_bounds t).2
    have h2 := (roundHalfEven_bounds u).1
    omega
  · unfold roundHalfEven
    simp only [qfloor_eq_floor, heq]
    have hr : t - ⌊u⌋ ≤ u - ⌊u⌋ := by linarith
    by_cases h1 : t - (⌊u⌋ : ℚ) < 1 / 2
    · simp only [h1, if_true]
      split
      · exact le_rfl
      · split
        · omega
        · split <;> omega
    · simp only [h1, if_false]
      have h1u : ¬ (u - (⌊u⌋ : ℚ) < 1 / 2) := by
        intro hc
        exact h1 (lt_of_le_of_lt hr hc)
      simp only [h1u, if_false]
      by_cases h2 : 1 / 2 < t - (⌊u⌋ : ℚ)
      · have h2u : 1 / 2 < u - (⌊u⌋ : ℚ) := lt_of_lt_of_le h2 hr
        simp only [h2, h2u, if_true]
        exact le_rfl
      · simp only [h2, if_false]
        by_cases hev : ⌊u⌋ % 2 = 0
        · simp only [hev, if_true]
          split <;> omega
        · simp only [hev, if_false]
          split <;> omega
/-- Rounding to binary64 in the range of the normal numbers, written out: the nearest
integer multiple of `2 ^ (ilog2 q - 52)`. -/
theorem F64.round_eq_of_normal (q : ℚ) (hlo : (2 : ℚ) ^ (-1022 : ℤ) ≤ |q|)
    (hhi : |q| ≤ (2 : ℚ) ^ (1023 : ℤ)) :
    F64.round q =
      .fin ((roundHalfEven (q / (2 : ℚ) ^ (ilog2 q - 52)) : ℚ) * (2 : ℚ) ^ (ilog2 q - 52)) := by
  obtain ⟨v, hv, _⟩ := F64.round_near q hlo hhi
  have hq : q ≠ 0 := by
    intro h
    rw [h, abs_zero] at hlo
    exact absurd hlo (not_le.mpr (by positivity))
  obtain ⟨_, hu⟩ := ilog2_spec q hq
  have he0 : -1022 ≤ ilog2 q := by
    by_contra hcon
    have hlt : ilog2 q + 1 ≤ -1022 := by omega
    have : (2 : ℚ) ^ (ilog2 q + 1) ≤ (2 : ℚ) ^ (-1022 : ℤ) :=
      zpow_le_zpow_right₀ (by norm_num) hlt
    linarith
  have hmax : max (ilog2 q - 52) (-1074) = ilog2 q - 52 := max_eq_left (by omega)
  unfold F64.round at hv ⊢
  simp only [hq, if_false, hmax, pow2_eq_zpow] at hv ⊢
  by_cases hbig : (2 : ℚ) ^ (1024 : ℤ) ≤
      |(roundHalfEven (q / (2 : ℚ) ^ (ilog2 q - 52)) : ℚ) * (2 : ℚ) ^ (ilog2 q - 52)|
  · simp only [hbig, if_true] at hv
    cases hv
  · simp only [hbig, if_false]

/-- Rounding to binary64 is monotone on the positive rationals of moderate size. -/
theorem F64.round_mono_pos (q r : ℚ) (hlo : 1 / 2 ^ 70 ≤ q) (hqr : q ≤ r) (hhi : r ≤ 2 ^ 70) :
    ∃ v w, F64.round q = .fin v ∧ F64.round r = .fin w ∧ v ≤ w := by
  have hqpos : 0 < q := lt_of_lt_of_le (by positivity) hlo
  have hrpos : 0 < r := lt_of_lt_of_le hqpos hqr
  have hrange : ∀ x : ℚ, 1 / 2 ^ 70 ≤ x → x ≤ 2 ^ 70 →
      (2 : ℚ) ^ (-1022 : ℤ) ≤ |x| ∧ |x| ≤ (2 : ℚ) ^ (1023 : ℤ) := by
    intro x h1 h2
    have hx : 0 < x := lt_of_lt_of_le (by positivity) h1
    rw [abs_of_pos hx]
    constructor
    · refine le_trans ?_ h1
      have : (1 : ℚ) / 2 ^ 70 = (2 : ℚ) ^ (-70 : ℤ) := by
        rw [zpow_neg, one_div]
        norm_cast
      rw [this]
      exact zpow_le_zpow_right₀ (by norm_num) (by norm_num)
    · refine le_trans h2 ?_
      have : (2 : ℚ) ^ 70 = (2 : ℚ) ^ (70 : ℤ) := by norm_cast
      rw [this]
      exact zpow_le_zpow_right₀ (by norm_num) (by norm_num)
  obtain ⟨hq1, hq2⟩ := hrange q hlo (hqr.trans hhi)
  obtain ⟨hr1, hr2⟩ := hrange r (hlo.trans hqr) hhi
  refine ⟨_, _, F64.round_eq_of_normal q hq1 hq2, F64.round_eq_of_normal r hr1 hr2, ?_⟩
  obtain ⟨hql, hqu⟩ := ilog2_spec q hqpos.ne'
  obtain ⟨hrl, hru⟩ := ilog2_spec r hrpos.ne'
  rw [abs_of_pos hqpos] at hql hqu
  rw [abs_of_pos hrpos] at hrl hru
  have hle : ilog2 q ≤ ilog2 r := by
    by_contra hcon
    have : ilog2 r + 1 ≤ ilog2 q := by omega
    have : (2 : ℚ) ^ (ilog2 r + 1) ≤ (2 : ℚ) ^ ilog2 q :=
      zpow_le_zpow_right₀ (by norm_num) this
    linarith
  rcases eq_or_lt_of_le hle with heq | hlt
  · rw [heq]
    have hp : (0 : ℚ) < (2 : ℚ) ^ (ilog2 r - 52) := by positivity
    apply mul_le_mul_of_nonneg_right _ hp.le
    have : roundHalfEven (q / (2 : ℚ) ^ (ilog2 r - 52)) ≤
        roundHalfEven (r / (2 : ℚ) ^ (ilog2 r - 52)) :=
      roundHalfEven_mono _ _ (div_le_div_of_nonneg_right hqr hp.le)
    exact_mod_cast this
  · -- the lower value rounds to at most `2 ^ (ilog2 q + 1)`, the upper to at least `2 ^ ilog2 r`
    have hpq : (0 : ℚ) < (2 : ℚ) ^ (ilog2 q - 52) := by positivity
    have hpr : (0 : ℚ) < (2 : ℚ) ^ (ilog2 r - 52) := by positivity
    have hsplitq : (2 : ℚ) ^ (ilog2 q + 1) = 2 ^ 53 * (2 : ℚ) ^ (ilog2 q - 52) := by
      rw [show ilog2 q + 1 = 53 + (ilog2 q - 52) by ring, zpow_add₀ (by norm_num : (2 : ℚ) ≠ 0)]
      norm_cast
    have hsplitr : (2 : ℚ) ^ ilog2 r = 2 ^ 52 * (2 : ℚ) ^ (ilog2 r - 52) := by
      conv_lhs => rw [show ilog2 r = 52 + (ilog2 r - 52) by ring]
      rw [zpow_add₀ (by norm_num : (2 : ℚ) ≠ 0)]
      norm_cast
    have htq : q / (2 : ℚ) ^ (ilog2 q - 52) < 2 ^ 53 := by
      rw [div_lt_iff₀ hpq]
      linarith
    have htr : (2 : ℚ) ^ 52 ≤ r / (2 : ℚ) ^ (ilog2 r - 52) := by
      rw [le_div_iff₀ hpr]
      linarith
    have hmq : roundHalfEven (q / (2 : ℚ) ^ (ilog2 q - 52)) ≤ 2 ^ 53 := by
      have hb := (roundHalfEven_bounds (q / (2 : ℚ) ^ (ilog2 q - 52))).2
      have : ⌊q / (2 : ℚ) ^ (ilog2 q - 52)⌋ < 2 ^ 53 := by
        rw [Int.floor_lt]
        exact_mod_cast htq
      omega
    have hmr : 2 ^ 52 ≤ roundHalfEven (r / (2 : ℚ) ^ (ilog2 r - 52)) := by
      have hb := (roundHalfEven_bounds (r / (2 : ℚ) ^ (ilog2 r - 52))).1
      have : (2 : ℤ) ^ 52 ≤ ⌊r / (2 : ℚ) ^ (ilog2 r - 52)⌋ := by
        rw [Int.le_floor]
        exact_mod_cast htr
      omega
    have hmqQ : (roundHalfEven (q / (2 : ℚ) ^ (ilog2 q - 52)) : ℚ) ≤ 2 ^ 53 := by
      exact_mod_cast hmq
    have hmrQ : (2 : ℚ) ^ 52 ≤ (roundHalfEven (r / (2 : ℚ) ^ (ilog2 r - 52)) : ℚ) := by
      exact_mod_cast hmr
    have hstep : (2 : ℚ) ^ (ilog2 q + 1) ≤ (2 : ℚ) ^ ilog2 r :=
      zpow_le_zpow_right₀ (by norm_num) (by omega)
    calc (roundHalfEven (q / (2 : ℚ) ^ (ilog2 q - 52)) : ℚ) * (2 : ℚ) ^ (ilog2 q - 52)
        ≤ 2 ^ 53 * (2 : ℚ) ^ (ilog2 q - 52) := mul_le_mul_of_nonneg_right hmqQ hpq.le
      _ = (2 : ℚ) ^ (ilog2 q + 1) := hsplitq.symm
      _ ≤ (2 : ℚ) ^ ilog2 r := hstep
      _ = 2 ^ 52 * (2 : ℚ) ^ (ilog2 r - 52) := hsplitr
      _ ≤ _ := mul_le_mul_of_nonneg_right hmrQ hpr.le

/-- The conversion `float64(i)` is exact for `0 ≤ i ≤ 2 ^ 53`. -/
theorem F64.ofInt64_exact (i : Int) (h0 : 0 ≤ i) (h1 : i ≤ 2 ^ 53) :
    F64.ofInt64 i = .fin (i : ℚ) := by
  rcases eq_or_lt_of_le h0 with hz | hpos
  · subst hz
    simp [F64.ofInt64, F64.round_zero]
  rcases eq_or_lt_of_le h1 with htop | hlt
  · subst htop
    decide!
  have hiQ1 : (1 : ℚ) ≤ (i : ℚ) := by exact_mod_cast hpos
  have hiQ2 : (i : ℚ) < 2 ^ 53 := by exact_mod_cast hlt
  have hipos : (0 : ℚ) < (i : ℚ) := by linarith
  have hq1 : (2 : ℚ) ^ (-1022 : ℤ) ≤ |(i : ℚ)| := by
    rw [abs_of_pos hipos]
    refine le_trans ?_ hiQ1
    exact zpow_le_one_of_nonpos₀ (by norm_num) (by norm_num)
  have hq2 : |(i : ℚ)| ≤ (2 : ℚ) ^ (1023 : ℤ) := by
    rw [abs_of_pos hipos]
    refine le_trans hiQ2.le ?_
    have : (2 : ℚ) ^ 53 = (2 : ℚ) ^ (53 : ℤ) := by norm_cast
    rw [this]
    exact zpow_le_zpow_right₀ (by norm_num) (by norm_num)
  obtain ⟨hl, _⟩ := ilog2_spec (i : ℚ) hipos.ne'
  rw [abs_of_pos hipos] at hl
  have he : ilog2 (i : ℚ) ≤ 52 := by
    by_contra hcon
    have : (2 : ℚ) ^ (53 : ℤ) ≤ (2 : ℚ) ^ ilog2 (i : ℚ) :=
      zpow_le_zpow_right₀ (by norm_num) (by omega)
    have h53 : (2 : ℚ) ^ 53 = (2 : ℚ) ^ (53 : ℤ) := by norm_cast
    linarith
  obtain ⟨k, hk⟩ := Int.eq_ofNat_of_zero_le (by omega : 0 ≤ 52 - ilog2 (i : ℚ))
  have hek : ilog2 (i : ℚ) - 52 = -(k : ℤ) := by omega
  rw [F64.ofInt64, F64.round_eq_of_normal (i : ℚ) hq1 hq2, hek]
  have hdiv : (i : ℚ) / (2 : ℚ) ^ (-(k : ℤ)) = ((i * 2 ^ k : ℤ) : ℚ) := by
    rw [zpow_neg, zpow_natCast]
    push_cast
    field_simp
  rw [hdiv, roundHalfEven_intCast, zpow_neg, zpow_natCast]
  push_cast
  field_simp

/-- Rounding to binary64 is monotone on zero and the positive rationals of moderate
size, and keeps a value within a factor 2. -/
theorem F64.round_mono_nonneg (q r : ℚ) (hq : q = 0 ∨ 1 / 2 ^ 70 ≤ q)
    (hr : r = 0 ∨ 1 / 2 ^ 70 ≤ r) (hqr : q ≤ r) (hhi : r ≤ 2 ^ 70) :
    ∃ v w, F64.round q = .fin v ∧ F64.round r = .fin w ∧ v ≤ w ∧
      q / 2 ≤ v ∧ (q = 0 → v = 0) ∧ r / 2 ≤ w ∧ (r = 0 → w = 0) ∧ w ≤ 2 * r := by
  rcases hr with hr0 | hrpos
  · have hq0 : q = 0 := by
      rcases hq with h | h
      · exact h
      · have : (0 : ℚ) < 1 / 2 ^ 70 := by positivity
        linarith
    subst hr0
    subst hq0
    exact ⟨0, 0, F64.round_zero, F64.round_zero, le_rfl, by norm_num, fun _ => rfl,
      by norm_num, fun _ => rfl, by norm_num⟩
  have hr0 : 0 < r := lt_of_lt_of_le (by positivity) hrpos
  rcases hq with hq0 | hqpos
  · subst hq0
    obtain ⟨w, hw, hw1, hw2⟩ := F64.round_pos_bounds r hrpos hhi
    have h53 : (1 : ℚ) / 2 ^ 53 ≤ 1 / 2 := by norm_num
    have hwlow : r / 2 ≤ w := by nlinarith
    refine ⟨0, w, F64.round_zero, hw, by linarith, by norm_num, fun _ => rfl, hwlow,
      fun h => absurd h hr0.ne', by nlinarith⟩
  · have hq0 : 0 < q := lt_of_lt_of_le (by positivity) hqpos
    obtain ⟨v, w, hv, hw, hvw⟩ := F64.round_mono_pos q r hqpos hqr hhi
    obtain ⟨v2, hv2, hv3, _⟩ := F64.round_pos_bounds q hqpos (hqr.trans hhi)
    obtain ⟨w2, hw2, hw3, hw4⟩ := F64.round_pos_bounds r hrpos hhi
    rw [hv] at hv2
    rw [hw] at hw2
    cases hv2
    cases hw2
    have h53 : (1 : ℚ) / 2 ^ 53 ≤ 1 / 2 := by norm_num
    refine ⟨v, w, hv, hw, hvw, by nlinarith, fun h => absurd h hq0.ne', by nlinarith,
      fun h => absurd h hr0.ne', by nlinarith⟩

/-- The float64 expression `float64(a) / float64(b) * float64(MaxNodeScore)` converted
to `int64` is monotone in the exact ratio `a / b`, for integers `0 ≤ a ≤ b` and
`0 < b ≤ 2 ^ 53`, which `float64` holds exactly. -/
theorem scoreRatio_mono (p : Platform) (a b c d : Int)
    (ha : 0 ≤ a) (hab : a ≤ b) (hb0 : 0 < b) (hb : b ≤ 2 ^ 53)
    (hc : 0 ≤ c) (hcd : c ≤ d) (hd0 : 0 < d) (hd : d ≤ 2 ^ 53)
    (h : (a : ℚ) / b ≤ (c : ℚ) / d) :
    F64.toInt64 p (F64.mul (F64.div (F64.ofInt64 a) (F64.ofInt64 b)) (F64.ofInt64 MaxNodeScore))
      ≤ F64.toInt64 p
          (F64.mul (F64.div (F64.ofInt64 c) (F64.ofInt64 d)) (F64.ofInt64 MaxNodeScore)) := by
  have hbQ : (0 : ℚ) < b := by exact_mod_cast hb0
  have hdQ : (0 : ℚ) < d := by exact_mod_cast hd0
  have hbQ2 : (b : ℚ) ≤ 2 ^ 53 := by exact_mod_cast hb
  have hdQ2 : (d : ℚ) ≤ 2 ^ 53 := by exact_mod_cast hd
  have hratio : ∀ x y : Int, 0 ≤ x → x ≤ y → 0 < y → y ≤ 2 ^ 53 →
      ((x : ℚ) / y = 0 ∨ 1 / 2 ^ 53 ≤ (x : ℚ) / y) ∧ (x : ℚ) / y ≤ 1 := by
    intro x y hx hxy hy0 hy
    have hyQ : (0 : ℚ) < y := by exact_mod_cast hy0
    have hyQ2 : (y : ℚ) ≤ 2 ^ 53 := by exact_mod_cast hy
    constructor
    · rcases eq_or_lt_of_le hx with h0 | hpos
      · left
        rw [← h0]
        simp
      · right
        have hxQ : (1 : ℚ) ≤ x := by exact_mod_cast hpos
        rw [div_le_div_iff₀ (by positivity) hyQ]
        nlinarith
    · rw [div_le_one hyQ]
      exact_mod_cast hxy
  obtain ⟨hq, hq1⟩ := hratio a b ha hab hb0 hb
  obtain ⟨hr, hr1⟩ := hratio c d hc hcd hd0 hd
  have hlift : ∀ z : ℚ, (z = 0 ∨ 1 / 2 ^ 53 ≤ z) → (z = 0 ∨ 1 / 2 ^ 70 ≤ z) := by
    intro z hz
    rcases hz with h0 | hz
    · exact Or.inl h0
    · exact Or.inr (le_trans (by norm_num) hz)
  obtain ⟨x, y, hx, hy, hxy, hxlow, hx0, hylow, hy0, hyhi⟩ :=
    F64.round_mono_nonneg _ _ (hlift _ hq) (hlift _ hr) h (hr1.trans (by norm_num))
  have hx100 : x * 100 = 0 ∨ 1 / 2 ^ 70 ≤ x * 100 := by
    rcases hq with h0 | hpos
    · left
      rw [hx0 h0, zero_mul]
    · right
      have : (1 : ℚ) / 2 ^ 53 / 2 ≤ x := le_trans (by linarith) hxlow
      have h2 : (1 : ℚ) / 2 ^ 70 ≤ 1 / 2 ^ 53 / 2 * 100 := by norm_num
      linarith
  have hy100 : y * 100 = 0 ∨ 1 / 2 ^ 70 ≤ y * 100 := by
    rcases hr with h0 | hpos
    · left
      rw [hy0 h0, zero_mul]
    · right
      have : (1 : ℚ) / 2 ^ 53 / 2 ≤ y := le_trans (by linarith) hylow
      have h2 : (1 : ℚ) / 2 ^ 70 ≤ 1 / 2 ^ 53 / 2 * 100 := by norm_num
      linarith
  have hxnonneg : 0 ≤ x := by
    rcases hq with h0 | hpos
    · rw [hx0 h0]
    · have : (0 : ℚ) < 1 / 2 ^ 53 := by positivity
      linarith
  have hy2 : y ≤ 2 := by linarith
  obtain ⟨P, Q, hP, hQ, hPQ, hPlow, _, _, _, hQhi⟩ :=
    F64.round_mono_nonneg (x * 100) (y * 100) hx100 hy100 (by linarith)
      (le_trans (by linarith : y * 100 ≤ 200) (by norm_num))
  have hP0 : 0 ≤ P := le_trans (by positivity) hPlow
  have hQ400 : Q ≤ 400 := by linarith
  have hform : ∀ (u v : Int) (z Z : ℚ), 0 ≤ u → u ≤ v → 0 < v → v ≤ 2 ^ 53 →
      F64.round ((u : ℚ) / v) = .fin z → F64.round (z * 100) = .fin Z →
      F64.mul (F64.div (F64.ofInt64 u) (F64.ofInt64 v)) (F64.ofInt64 MaxNodeScore) = .fin Z := by
    intro u v z Z hu huv hv0 hv hz hZ
    have hvQ : (v : ℚ) ≠ 0 := by
      have : (0 : ℚ) < v := by exact_mod_cast hv0
      exact this.ne'
    rw [F64.ofInt64_MaxNodeScore, F64.ofInt64_exact u hu (by omega),
      F64.ofInt64_exact v (by omega) hv]
    simp only [F64.div, hvQ, if_false, hz, F64.mul, hZ]
  rw [hform a b x P ha hab hb0 hb hx hP, hform c d y Q hc hcd hd0 hd hy hQ,
    F64.toInt64_fin_nonneg p P hP0 (lt_of_le_of_lt (hPQ.trans hQ400) (by norm_num)),
    F64.toInt64_fin_nonneg p Q (hP0.trans hPQ) (lt_of_le_of_lt hQ400 (by norm_num))]
  exact Int.floor_le_floor hPQ

/-- C25, refuted as stated: an HDD claim of 900719925474099 bytes against the pool of
`n3` with `2 ^ 53 + 3` bytes free has a ratio below `10 / 100` and scores 89, while a
claim of 10 bytes against the pool of `n2` with 100 bytes free scores 90: the
conversion of `2 ^ 53 + 3` to `float64` rounds it up. -/
theorem scoreOneVolume_not_monotone_beyond_2_pow_53 :
    (900719925474099 : ℚ) / 9007199254740995 ≤ (10 : ℚ) / 100 ∧
    scoreOneVolume amd64 (exampleScheduler []) (exampleClaim "c" "hdd1" 900719925474099)
      exampleNodeHuge = (89, none) ∧
    scoreOneVolume arm64 (exampleScheduler []) (exampleClaim "c" "hdd1" 900719925474099)
      exampleNodeHuge = (89, none) ∧
    scoreOneVolume amd64 (exampleScheduler []) (exampleClaim "c" "hdd1" 10) exampleNode2
      = (90, none) ∧
    scoreOneVolume arm64 (exampleScheduler []) (exampleClaim "c" "hdd1" 10) exampleNode2
      = (90, none) := by
  decide!

/-- C25, amended: for two claims with a valid pool class, requested storage `r1`, `r2`
and pools of free capacity `f1`, `f2` with `0 < f1, f2 ≤ 2 ^ 53`, `0 ≤ r1 ≤ f1`,
`0 ≤ r2 ≤ f2` and `r1 / f1 ≤ r2 / f2`, both scores are returned without error and
`scoreOneVolume(r1, f1) ≥ scoreOneVolume(r2, f2)`. -/
theorem scoreOneVolume_monotone_in_ratio (p : Platform) (s : LVMVolumeScheduler)
    (pvc1 pvc2 : PersistentVolumeClaim) (node1 node2 : LocalStorageNode)
    (scName1 scName2 : String) (sc1 sc2 : StorageClass) (poolName1 poolName2 : String)
    (hsc1 : pvc1.Spec.StorageClassName = some scName1)
    (hget1 : s.scLister scName1 = .ok sc1)
    (hpool1 : buildStoragePoolName (sc1.param VolumeParameterPoolClassKey) PoolTypeRegular =
      .ok poolName1)
    (hsc2 : pvc2.Spec.StorageClassName = some scName2)
    (hget2 : s.scLister scName2 = .ok sc2)
    (hpool2 : buildStoragePoolName (sc2.param VolumeParameterPoolClassKey) PoolTypeRegular =
      .ok poolName2)
    (hf1 : 0 < (node1.pool poolName1).FreeCapacityBytes)
    (hf1max : (node1.pool poolName1).FreeCapacityBytes ≤ 2 ^ 53)
    (hr1 : 0 ≤ pvc1.storageValue)
    (hr1f : pvc1.storageValue ≤ (node1.pool poolName1).FreeCapacityBytes)
    (hf2 : 0 < (node2.pool poolName2).FreeCapacityBytes)
    (hf2max : (node2.pool poolName2).FreeCapacityBytes ≤ 2 ^ 53)
    (hr2 : 0 ≤ pvc2.storageValue)
    (hr2f : pvc2.storageValue ≤ (node2.pool poolName2).FreeCapacityBytes)
    (hratio : (pvc1.storageValue : ℚ) / ((node1.pool poolName1).FreeCapacityBytes : ℚ) ≤
      (pvc2.storageValue : ℚ) / ((node2.pool poolName2).FreeCapacityBytes : ℚ)) :
    (scoreOneVolume p s pvc1 node1).2 = none ∧ (scoreOneVolume p s pvc2 node2).2 = none ∧
      (scoreOneVolume p s pvc2 node2).1 ≤ (scoreOneVolume p s pvc1 node1).1 := by
  have hw1 : wrapInt64 ((node1.pool poolName1).FreeCapacityBytes - pvc1.storageValue)
      = (node1.pool poolName1).FreeCapacityBytes - pvc1.storageValue :=
    wrapInt64_of_range _ (by omega) (by omega)
  have hw2 : wrapInt64 ((node2.pool poolName2).FreeCapacityBytes - pvc2.storageValue)
      = (node2.pool poolName2).FreeCapacityBytes - pvc2.storageValue :=
    wrapInt64_of_range _ (by omega) (by omega)
  rw [scoreOneVolume_of_valid p s pvc1 node1 scName1 sc1 poolName1 hsc1 hget1 hpool1,
    scoreOneVolume_of_valid p s pvc2 node2 scName2 sc2 poolName2 hsc2 hget2 hpool2, hw1, hw2]
  refine ⟨rfl, rfl, ?_⟩
  have hf1Q : (0 : ℚ) < ((node1.pool poolName1).FreeCapacityBytes : ℚ) := by exact_mod_cast hf1
  have hf2Q : (0 : ℚ) < ((node2.pool poolName2).FreeCapacityBytes : ℚ) := by exact_mod_cast hf2
  apply scoreRatio_mono p _ _ _ _ (by omega) (by omega) hf2 hf2max (by omega) (by omega)
    hf1 hf1max
  push_cast
  rw [sub_div, sub_div, div_self hf1Q.ne', div_self hf2Q.ne']
  linarith

/-- C25 amended, at a claim of 10 bytes against 100 bytes free (score 90) and a claim
of 10 bytes against 80 bytes free (score 87). -/
theorem scoreOneVolume_monotone_in_ratio_witness :
    (scoreOneVolume amd64 (exampleScheduler []) (exampleClaim "c" "hdd1" 10) exampleNode2).2
      = none ∧
    (scoreOneVolume amd64 (exampleScheduler []) (exampleClaim "d" "hdd1" 10) exampleNode1).2
      = none ∧
    (scoreOneVolume amd64 (exampleScheduler []) (exampleClaim "d" "hdd1" 10) exampleNode1).1 ≤
      (scoreOneVolume amd64 (exampleScheduler []) (exampleClaim "c" "hdd1" 10) exampleNode2).1 :=
  scoreOneVolume_monotone_in_ratio amd64 (exampleScheduler []) (exampleClaim "c" "hdd1" 10)
    (exampleClaim "d" "hdd1" 10) exampleNode2 exampleNode1 "hdd1" "hdd1"
    ⟨[("poolClass", "HDD"), ("poolType", "REGULAR"), ("replicaNumber", "1")]⟩
    ⟨[("poolClass", "HDD"), ("poolType", "REGULAR"), ("replicaNumber", "1")]⟩
    "LocalStorage_PoolHDD" "LocalStorage_PoolHDD" rfl rfl rfl rfl rfl rfl
    (by decide) (by decide) (by decide) (by decide) (by decide) (by decide) (by decide)
    (by decide) (by decide!)

/-! ## Further claims on the pending-claim stage and the score -/

/-- When every claim scores without error, the loop of `Score` returns the exact sum
of the scores wrapped once to `int64`, whatever the order of the additions. -/
theorem scoreLoop_wrapped_sum (p : Platform) (s : LVMVolumeScheduler) (node : LocalStorageNode)
    (pvcs : List PersistentVolumeClaim) (acc : Int)
    (hok : ∀ pvc ∈ pvcs, (scoreOneVolume p s pvc node).2 = none) :
    scoreLoop p s node pvcs (wrapInt64 acc) =
      (wrapInt64 (acc + (pvcs.map (fun pvc => (scoreOneVolume p s pvc node).1)).sum), none) := by
  induction pvcs generalizing acc with
  | nil => simp [scoreLoop]
  | cons pvc rest ih =>
    have hhead := hok pvc (List.mem_cons_self _ _)
    have hpair : scoreOneVolume p s pvc node = ((scoreOneVolume p s pvc node).1, none) := by
      rw [← hhead]
    rw [scoreLoop, hpair]
    simp only [wrapInt64_wrapInt64_add]
    rw [ih _ (fun x hx => hok x (List.mem_cons_of_mem _ hx))]
    simp [List.sum_cons, add_assoc]

/-- C28: `Score` does not depend on the order of the pending claims. -/
theorem Score_permutation_invariant (p : Platform) (s : LVMVolumeScheduler)
    (pvcs pvcs' : List PersistentVolumeClaim) (node : String)
    (hperm : pvcs'.Perm pvcs)
    (hok : ∀ storageNode, s.hwameiStorCache.getLocalStorageNode node = .ok storageNode →
      ∀ pvc ∈ pvcs, (scoreOneVolume p s pvc storageNode).2 = none) :
    Score p s pvcs' node = Score p s pvcs node := by
  unfold Score
  cases hget : s.hwameiStorCache.getLocalStorageNode node with
  | error e => rfl
  | ok storageNode =>
    have h1 := hok storageNode hget
    have h2 : ∀ pvc ∈ pvcs', (scoreOneVolume p s pvc storageNode).2 = none :=
      fun pvc hmem => h1 pvc (hperm.mem_iff.mp hmem)
    have hw0 : wrapInt64 0 = 0 := by decide
    have e1 := scoreLoop_wrapped_sum p s storageNode pvcs 0 h1
    have e2 := scoreLoop_wrapped_sum p s storageNode pvcs' 0 h2
    rw [hw0] at e1 e2
    have hsum : (pvcs'.map (fun pvc => (scoreOneVolume p s pvc storageNode).1)).sum =
        (pvcs.map (fun pvc => (scoreOneVolume p s pvc storageNode).1)).sum :=
      (hperm.map _).sum_eq
    simp only [e1, e2, hsum, hperm.length_eq]

theorem Score_permutation_invariant_witness :
    Score amd64 (exampleScheduler [])
        [exampleClaim "b" "ssd1" 12, exampleClaim "a" "hdd1" 71] "n2" =
      Score amd64 (exampleScheduler [])
        [exampleClaim "a" "hdd1" 71, exampleClaim "b" "ssd1" 12] "n2" ∧
    Score amd64 (exampleScheduler [])
        [exampleClaim "a" "hdd1" 71, exampleClaim "b" "ssd1" 12] "n2" = (28, none) :=
  ⟨Score_permutation_invariant amd64 (exampleScheduler [])
      [exampleClaim "a" "hdd1" 71, exampleClaim "b" "ssd1" 12]
      [exampleClaim "b" "ssd1" 12, exampleClaim "a" "hdd1" 71] "n2"
      (List.Perm.swap _ _ _)
      (fun storageNode hget => by
        have hnode : exampleNode2 = storageNode := Except.ok.inj hget
        subst hnode
        decide!),
    by decide!⟩

/-- C24, refuted as stated: a pending HDD claim that requests 0 bytes is accepted on
`n1` when the planner answers with `n1`. -/
theorem Filter_accepts_zero_capacity_claim :
    (exampleClaim "c" "hdd1" 0).storageValue = 0 ∧
    Filter (exampleScheduler [exampleNode1]) [] [exampleClaim "c" "hdd1" 0] ⟨"n1"⟩
      = .ok (true, none) := by
  decide

/-- C24, amended: `Filter` has no check of the requested storage. For a pending claim
that requests 0 bytes and whose storage class resolves to a pool,
`constructLocalVolumeForPVC` builds the volume with `RequiredCapacityBytes = 0` and no
error, and `Filter` (no bound volumes) returns Ok exactly when the planner's answer
for that volume is at least as long as the replica number and holds the node. -/
theorem Filter_zero_capacity_left_to_planner (s : LVMVolumeScheduler)
    (pvc : PersistentVolumeClaim) (node : Node) (scName : String) (sc : StorageClass)
    (poolName : String)
    (hsc : pvc.Spec.StorageClassName = some scName)
    (hget : s.scLister scName = .ok sc)
    (hpool : buildStoragePoolName (sc.param VolumeParameterPoolClassKey)
      (sc.param VolumeParameterPoolTypeKey) = .ok poolName)
    (hzero : pvc.storageValue = 0) :
    ∃ lv, constructLocalVolumeForPVC s pvc = .ok (.ok lv) ∧
      lv.Spec.RequiredCapacityBytes = 0 ∧
      (Filter s [] [pvc] node = .ok (true, none) ↔
        lv.Spec.ReplicaNumber ≤ ((s.replicaScheduler [lv]).length : Int) ∧
        ∃ qn ∈ s.replicaScheduler [lv], qn.Name = node.Name) := by
  have hc : constructLocalVolumeForPVC s pvc = .ok (.ok
      { Name := ""
        Spec :=
          { PersistentVolumeClaimName := pvc.Name
            PersistentVolumeClaimNamespace := pvc.Namespace
            PoolName := poolName
            RequiredCapacityBytes := pvc.storageValue
            ReplicaNumber := (atoi (sc.param VolumeParameterReplicaNumberKey)).1
            Config := none } }) := by
    simp only [constructLocalVolumeForPVC, hsc, hget, hpool]
  refine ⟨_, hc, hzero, ?_⟩
  have hcons := constructLocalVolumes_of_forall₂ s _ _ (List.Forall₂.cons hc List.Forall₂.nil)
  rw [Filter_of_existing_accepts s [] [pvc] node rfl,
    filterForNewPVCs_of_constructed s [pvc] node _ [] (List.cons_ne_nil _ _) hcons]
  split
  · next hlt =>
    constructor
    · intro h
      simp at h
    · intro h
      omega
  · next hge =>
    split
    · next hany =>
      constructor
      · intro _
        refine ⟨by omega, ?_⟩
        simpa [List.any_eq_true] using hany
      · intro _
        rfl
    · next hany =>
      constructor
      · intro h
        simp at h
      · intro h
        exfalso
        apply hany
        simpa [List.any_eq_true] using h.2

/-- C24 amended, at an HDD claim of 0 bytes with one replica when the planner answers
with `n1`: the claim is accepted on `n1`. -/
theorem Filter_zero_capacity_left_to_planner_witness :
    ∃ lv, constructLocalVolumeForPVC (exampleScheduler [exampleNode1])
        (exampleClaim "c" "hdd1" 0) = .ok (.ok lv) ∧
      lv.Spec.RequiredCapacityBytes = 0 ∧
      (Filter (exampleScheduler [exampleNode1]) [] [exampleClaim "c" "hdd1" 0] ⟨"n1"⟩
          = .ok (true, none) ↔
        lv.Spec.ReplicaNumber ≤
          (((exampleScheduler [exampleNode1]).replicaScheduler [lv]).length : Int) ∧
        ∃ qn ∈ (exampleScheduler [exampleNode1]).replicaScheduler [lv], qn.Name = "n1") :=
  Filter_zero_capacity_left_to_planner (exampleScheduler [exampleNode1])
    (exampleClaim "c" "hdd1" 0) ⟨"n1"⟩ "hdd1"
    ⟨[("poolClass", "HDD"), ("poolType", "REGULAR"), ("replicaNumber", "1")]⟩
    "LocalStorage_PoolHDD" rfl rfl rfl (by decide)

/-- C26: `scoreOneVolume` has no guard on a free capacity of 0. On `n2`, which has no
NVMe pool, and on `n4`, whose HDD pool has nothing free, a claim of 10 bytes divides
`-10` by `0`: the quotient is the negative infinity, no error is returned and the
score is the smallest `int64`. A claim of 0 bytes divides `0` by `0`: the quotient is
NaN and the score is the platform's answer (the smallest `int64` on amd64, 0 on
arm64). -/
theorem scoreOneVolume_divides_by_zero :
    exampleNode2.pool "LocalStorage_PoolNVMe" = {} ∧
    F64.div (F64.ofInt64 (-10)) (F64.ofInt64 0) = .inf true ∧
    F64.div (F64.ofInt64 0) (F64.ofInt64 0) = .nan ∧
    scoreOneVolume amd64 (exampleScheduler []) (exampleClaim "c" "nvme3" 10) exampleNode2
      = (-(2 ^ 63), none) ∧
    scoreOneVolume arm64 (exampleScheduler []) (exampleClaim "c" "nvme3" 10) exampleNode2
      = (-(2 ^ 63), none) ∧
    scoreOneVolume amd64 (exampleScheduler []) (exampleClaim "c" "hdd1" 10) exampleNodeFull
      = (-(2 ^ 63), none) ∧
    scoreOneVolume arm64 (exampleScheduler []) (exampleClaim "c" "hdd1" 10) exampleNodeFull
      = (-(2 ^ 63), none) ∧
    scoreOneVolume amd64 (exampleScheduler []) (exampleClaim "c" "hdd1" 0) exampleNodeFull
      = (-(2 ^ 63), none) ∧
    scoreOneVolume arm64 (exampleScheduler []) (exampleClaim "c" "hdd1" 0) exampleNodeFull
      = (0, none) := by
  decide!

/-! ## `strconv.Atoi` and the replica number -/

theorem digitVal_digitChar (d : Nat) (hd : d < 10) : digitVal (Nat.digitChar d) = some d := by
  interval_cases d <;> rfl

theorem digitChar_ne_sign (d : Nat) (hd : d < 10) :
    Nat.digitChar d ≠ '-' ∧ Nat.digitChar d ≠ '+' := by
  interval_cases d <;> decide

theorem digitChar_of_digitVal (c : Char) (d : Nat) (h : digitVal c = some d) :
    d < 10 ∧ Nat.digitChar d = c := by
  unfold digitVal at h
  split at h
  · next hc =>
    cases h
    obtain ⟨h0, h9⟩ := hc
    have h0n : 48 ≤ c.toNat := h0
    have h9n : c.toNat ≤ 57 := h9
    have hc : c = Char.ofNat c.toNat := (Char.ofNat_toNat c).symm
    have hval : '0'.toNat = 48 := rfl
    rw [hval]
    obtain ⟨k, hk⟩ : ∃ k, c.toNat = 48 + k := ⟨c.toNat - 48, by omega⟩
    have hk10 : k < 10 := by omega
    rw [hk, Nat.add_sub_cancel_left]
    refine ⟨hk10, ?_⟩
    rw [hc, hk]
    interval_cases k <;> rfl
  · cases h

/-- The digits of a decimal numeral, most significant first, parse to its value. -/
theorem parseDigits_digits (ds : List Nat) (acc : Nat) (hds : ∀ d ∈ ds, d < 10) :
    parseDigits (ds.map Nat.digitChar) acc =
      some (acc * 10 ^ ds.length + Nat.ofDigits 10 ds.reverse) := by
  induction ds generalizing acc with
  | nil => simp [parseDigits]
  | cons d rest ih =>
    have hd := hds d (List.mem_cons_self _ _)
    rw [List.map_cons, parseDigits, digitVal_digitChar d hd]
    simp only
    rw [ih _ (fun x hx => hds x (List.mem_cons_of_mem _ hx)), List.reverse_cons,
      Nat.ofDigits_append, Nat.ofDigits_singleton, List.length_reverse, List.length_cons]
    congr 1
    ring

/-- Characters that parse are the digits of a decimal numeral. -/
theorem parseDigits_some (cs : List Char) (acc un : Nat) (h : parseDigits cs acc = some un) :
    ∃ ds : List Nat, (∀ d ∈ ds, d < 10) ∧ cs = ds.map Nat.digitChar := by
  induction cs generalizing acc with
  | nil => exact ⟨[], by simp, rfl⟩
  | cons c rest ih =>
    rw [parseDigits] at h
    cases hc : digitVal c with
    | none => simp [hc] at h
    | some d =>
      simp only [hc] at h
      obtain ⟨ds, hds, hrest⟩ := ih _ h
      obtain ⟨hd, hchar⟩ := digitChar_of_digitVal c d hc
      refine ⟨d :: ds, ?_, ?_⟩
      · intro x hx
        rcases List.mem_cons.mp hx with rfl | hx
        · exact hd
        · exact hds x hx
      · rw [List.map_cons, hchar, hrest]

/-- The sign that `atoi` takes off a string that starts with neither `-` nor `+`:
none. -/
theorem atoi_of_unsigned (cs : List Char) (hm : ∀ rest, cs ≠ '-' :: rest)
    (hp : ∀ rest, cs ≠ '+' :: rest) :
    atoi (String.mk cs) =
      if cs.isEmpty then (0, false)
      else
        match parseDigits cs 0 with
        | none => (0, false)
        | some un => if 2 ^ 63 ≤ un then (2 ^ 63 - 1, false) else ((un : Int), true) := by
  unfold atoi
  split
  next neg digits heq =>
  split at heq
  · next rest hdata => exact absurd hdata (hm rest)
  · next rest hdata => exact absurd hdata (hp rest)
  · cases heq
    simp

/-- `atoi` on a decimal numeral: an optional sign and one or more digits, most
significant first, whose value is in the `int64` range. -/
theorem atoi_decimal (sign : List Char) (ds : List Nat)
    (hsign : sign = [] ∨ sign = ['+'] ∨ sign = ['-']) (hne : ds ≠ [])
    (hds : ∀ d ∈ ds, d < 10)
    (hlo : -(2 ^ 63) ≤ (if sign = ['-'] then -1 else 1) * ((Nat.ofDigits 10 ds.reverse : ℕ) : Int))
    (hhi : (if sign = ['-'] then -1 else 1) * ((Nat.ofDigits 10 ds.reverse : ℕ) : Int) < 2 ^ 63) :
    atoi (String.mk (sign ++ ds.map Nat.digitChar)) =
      ((if sign = ['-'] then -1 else 1) * ((Nat.ofDigits 10 ds.reverse : ℕ) : Int), true) := by
  have hparse := parseDigits_digits ds 0 hds
  rw [zero_mul, zero_add] at hparse
  have hempty : (ds.map Nat.digitChar).isEmpty = false := by
    cases ds with
    | nil => exact absurd rfl hne
    | cons d rest => rfl
  rcases hsign with h | h | h
  · subst h
    have hne2 : ([] : List Char) ≠ ['-'] := by decide
    simp only [hne2, if_false, one_mul] at hlo hhi ⊢
    have hfirst : ∀ c rest, ds.map Nat.digitChar = c :: rest → c ≠ '-' ∧ c ≠ '+' := by
      intro c rest hc
      cases ds with
      | nil => exact absurd rfl hne
      | cons d ds' =>
        rw [List.map_cons, List.cons.injEq] at hc
        rw [← hc.1]
        exact digitChar_ne_sign d (hds d (List.mem_cons_self _ _))
    rw [List.nil_append, atoi_of_unsigned _ (fun rest hc => (hfirst _ _ hc).1 rfl)
      (fun rest hc => (hfirst _ _ hc).2 rfl)]
    simp only [hempty, hparse]
    have : ¬ (2 : ℕ) ^ 63 ≤ Nat.ofDigits 10 ds.reverse := by omega
    simp only [Bool.false_eq_true, if_false, this]
  · subst h
    have hne2 : ['+'] ≠ ['-'] := by decide
    simp only [hne2, if_false, one_mul] at hlo hhi ⊢
    simp only [atoi, List.singleton_append, hempty, hparse]
    have : ¬ (2 : ℕ) ^ 63 ≤ Nat.ofDigits 10 ds.reverse := by omega
    simp
    omega
  · subst h
    simp only [if_true] at hlo hhi ⊢
    simp only [atoi, List.singleton_append, hempty, hparse]
    have : ¬ (2 : ℕ) ^ 63 < Nat.ofDigits 10 ds.reverse := by omega
    simp
    omega

/-- `atoi` on a string that is not a decimal numeral: the value is 0, with an error. -/
theorem atoi_not_decimal (str : String)
    (h : ∀ (sign : List Char) (ds : List Nat), (sign = [] ∨ sign = ['+'] ∨ sign = ['-']) →
      ds ≠ [] → (∀ d ∈ ds, d < 10) → str ≠ String.mk (sign ++ ds.map Nat.digitChar)) :
    atoi str = (0, false) := by
  have key : ∀ (sign cs : List Char), (sign = [] ∨ sign = ['+'] ∨ sign = ['-']) →
      str.data = sign ++ cs → cs.isEmpty = false → parseDigits cs 0 = none := by
    intro sign cs hsign hdata hcs
    cases hp : parseDigits cs 0 with
    | none => rfl
    | some un =>
      exfalso
      obtain ⟨ds, hds, hmap⟩ := parseDigits_some cs 0 un hp
      have hne : ds ≠ [] := by
        intro hnil
        rw [hmap, hnil] at hcs
        simp at hcs
      apply h sign ds hsign hne hds
      rw [← hmap, ← hdata]
  unfold atoi
  split
  next neg digits heq =>
  by_cases hcs : digits.isEmpty = true
  · simp [hcs]
  · have hsome : parseDigits digits 0 = none := by
      split at heq
      · next rest hdata =>
        cases heq
        exact key ['-'] _ (Or.inr (Or.inr rfl)) (by simpa using hdata) (by simpa using hcs)
      · next rest hdata =>
        cases heq
        exact key ['+'] _ (Or.inr (Or.inl rfl)) (by simpa using hdata) (by simpa using hcs)
      · cases heq
        exact key [] _ (Or.inl rfl) rfl (by simpa using hcs)
    simp [hcs, hsome]

/-- `atoi` on a decimal numeral whose value is beyond the `int64` range: the nearest
bound of the range, with an error. -/
theorem atoi_decimal_out_of_range (sign : List Char) (ds : List Nat)
    (hsign : sign = [] ∨ sign = ['+'] ∨ sign = ['-']) (hne : ds ≠ [])
    (hds : ∀ d ∈ ds, d < 10) :
    (2 ^ 63 ≤ (if sign = ['-'] then -1 else 1) * ((Nat.ofDigits 10 ds.reverse : ℕ) : Int) →
      atoi (String.mk (sign ++ ds.map Nat.digitChar)) = (2 ^ 63 - 1, false)) ∧
    ((if sign = ['-'] then -1 else 1) * ((Nat.ofDigits 10 ds.reverse : ℕ) : Int) < -(2 ^ 63) →
      atoi (String.mk (sign ++ ds.map Nat.digitChar)) = (-(2 ^ 63), false)) := by
  have hparse := parseDigits_digits ds 0 hds
  rw [zero_mul, zero_add] at hparse
  have hempty : (ds.map Nat.digitChar).isEmpty = false := by
    cases ds with
    | nil => exact absurd rfl hne
    | cons d rest => rfl
  rcases hsign with h | h | h
  · subst h
    have hne2 : ([] : List Char) ≠ ['-'] := by decide
    simp only [hne2, if_false, one_mul]
    have hfirst : ∀ c rest, ds.map Nat.digitChar = c :: rest → c ≠ '-' ∧ c ≠ '+' := by
      intro c rest hc
      cases ds with
      | nil => exact absurd rfl hne
      | cons d ds' =>
        rw [List.map_cons, List.cons.injEq] at hc
        rw [← hc.1]
        exact digitChar_ne_sign d (hds d (List.mem_cons_self _ _))
    rw [List.nil_append, atoi_of_unsigned _ (fun rest hc => (hfirst _ _ hc).1 rfl)
      (fun rest hc => (hfirst _ _ hc).2 rfl)]
    simp only [hempty, hparse]
    constructor
    · intro hbig
      have : (2 : ℕ) ^ 63 ≤ Nat.ofDigits 10 ds.reverse := by omega
      simp only [Bool.false_eq_true, if_false, this, if_true]
    · intro hsmall
      omega
  · subst h
    have hne2 : ['+'] ≠ ['-'] := by decide
    simp only [hne2, if_false, one_mul]
    simp only [atoi, List.singleton_append, hempty, hparse]
    constructor
    · intro hbig
      have : (2 : ℕ) ^ 63 ≤ Nat.ofDigits 10 ds.reverse := by omega
      simp
      omega
    · intro hsmall
      omega
  · subst h
    simp only [if_true]
    simp only [atoi, List.singleton_append, hempty, hparse]
    constructor
    · intro hbig
      omega
    · intro hsmall
      have : (2 : ℕ) ^ 63 < Nat.ofDigits 10 ds.reverse := by omega
      simp
      omega

/-- C27, refuted as stated: for the storage class `hddHuge`, whose `replicaNumber` is
the decimal integer string of twenty nines, the volume built has the replica number
`2 ^ 63 - 1`, not the integer value of the parameter, and `Filter` on the single
pending claim returns the insufficient-topology error. -/
theorem constructLocalVolumeForPVC_clamps_replica_number :
    (exampleClassesReplica "hddHuge").map (fun sc => sc.param VolumeParameterReplicaNumberKey)
      = .ok "99999999999999999999" ∧
    (constructLocalVolumeForPVC (exampleSchedulerReplica []) (exampleClaim "c" "hddHuge" 10)).map
      (fun r => r.map (fun lv => lv.Spec.ReplicaNumber)) = .ok (.ok 9223372036854775807) ∧
    (9223372036854775807 : Int) ≠ 99999999999999999999 ∧
    Filter (exampleSchedulerReplica []) [] [exampleClaim "c" "hddHuge" 10] ⟨"n1"⟩
      = .ok (false, some (.needNodes 9223372036854775807 0)) ∧
    Filter (exampleSchedulerReplica [exampleNode1]) [] [exampleClaim "c" "hddHuge" 10] ⟨"n1"⟩
      = .ok (false, some (.needNodes 9223372036854775807 1)) := by
  decide

/-- C27, amended: the volume that `constructLocalVolumeForPVC` builds has the replica
number that the storage class's `replicaNumber` parameter denotes when the parameter
is a decimal numeral (an optional sign and one or more digits) with a value in the
`int64` range, the nearest bound of the range (`2 ^ 63 - 1` or `-2 ^ 63`) when the
numeral's value is beyond it, and the replica number 0 when the parameter is not a
decimal numeral or is missing, in every case with no error. With the replica number
0, `Filter` on the single pending claim (no bound volumes) never returns the
insufficient-topology error, and returns false with a nil error when the planner's
answer is empty. -/
theorem constructLocalVolumeForPVC_replica_number (s : LVMVolumeScheduler)
    (pvc : PersistentVolumeClaim) (lv : LocalVolume) (node : Node) (scName : String)
    (sc : StorageClass)
    (hsc : pvc.Spec.StorageClassName = some scName)
    (hget : s.scLister scName = .ok sc)
    (hc : constructLocalVolumeForPVC s pvc = .ok (.ok lv)) :
    (∀ (sign : List Char) (ds : List Nat),
      (sign = [] ∨ sign = ['+'] ∨ sign = ['-']) → ds ≠ [] → (∀ d ∈ ds, d < 10) →
      sc.param VolumeParameterReplicaNumberKey = String.mk (sign ++ ds.map Nat.digitChar) →
      -(2 ^ 63) ≤ (if sign = ['-'] then -1 else 1) * ((Nat.ofDigits 10 ds.reverse : ℕ) : Int) →
      (if sign = ['-'] then -1 else 1) * ((Nat.ofDigits 10 ds.reverse : ℕ) : Int) < 2 ^ 63 →
      lv.Spec.ReplicaNumber =
        (if sign = ['-'] then -1 else 1) * ((Nat.ofDigits 10 ds.reverse : ℕ) : Int)) ∧
    (∀ (sign : List Char) (ds : List Nat),
      (sign = [] ∨ sign = ['+'] ∨ sign = ['-']) → ds ≠ [] → (∀ d ∈ ds, d < 10) →
      sc.param VolumeParameterReplicaNumberKey = String.mk (sign ++ ds.map Nat.digitChar) →
      (2 ^ 63 ≤ (if sign = ['-'] then -1 else 1) * ((Nat.ofDigits 10 ds.reverse : ℕ) : Int) →
        lv.Spec.ReplicaNumber = 2 ^ 63 - 1) ∧
      ((if sign = ['-'] then -1 else 1) * ((Nat.ofDigits 10 ds.reverse : ℕ) : Int) < -(2 ^ 63) →
        lv.Spec.ReplicaNumber = -(2 ^ 63))) ∧
    ((∀ (sign : List Char) (ds : List Nat),
        (sign = [] ∨ sign = ['+'] ∨ sign = ['-']) → ds ≠ [] → (∀ d ∈ ds, d < 10) →
        sc.param VolumeParameterReplicaNumberKey ≠ String.mk (sign ++ ds.map Nat.digitChar)) →
      lv.Spec.ReplicaNumber = 0) ∧
    (sc.Parameters.lookup VolumeParameterReplicaNumberKey = none →
      lv.Spec.ReplicaNumber = 0) ∧
    (lv.Spec.ReplicaNumber = 0 →
      (∀ need found : Int,
        Filter s [] [pvc] node ≠ .ok (false, some (.needNodes need found))) ∧
      (s.replicaScheduler [lv] = [] → Filter s [] [pvc] node = .ok (false, none))) := by
  have hrn : lv.Spec.ReplicaNumber = (atoi (sc.param VolumeParameterReplicaNumberKey)).1 := by
    simp only [constructLocalVolumeForPVC, hsc, hget] at hc
    split at hc
    · cases hc
    · cases hc
      rfl
  refine ⟨?_, ?_, ?_, ?_, ?_⟩
  · intro sign ds hsign hne hds hparam hlo hhi
    rw [hrn, hparam, atoi_decimal sign ds hsign hne hds hlo hhi]
  · intro sign ds hsign hne hds hparam
    obtain ⟨habove, hbelow⟩ := atoi_decimal_out_of_range sign ds hsign hne hds
    constructor
    · intro h
      rw [hrn, hparam, habove h]
    · intro h
      rw [hrn, hparam, hbelow h]
  · intro hnot
    rw [hrn, atoi_not_decimal _ hnot]
  · intro hnone
    have hparam : sc.param VolumeParameterReplicaNumberKey = "" := by
      simp [StorageClass.param, hnone]
    rw [hrn, hparam]
    rfl
  · intro hzero
    have hcons := constructLocalVolumes_of_forall₂ s _ _ (List.Forall₂.cons hc List.Forall₂.nil)
    have hnew := filterForNewPVCs_of_constructed s [pvc] node lv [] (List.cons_ne_nil _ _) hcons
    have hlen : ¬ ((s.replicaScheduler [lv]).length : Int) < lv.Spec.ReplicaNumber := by
      rw [hzero]
      omega
    simp only [hlen, if_false] at hnew
    rw [Filter_of_existing_accepts s [] [pvc] node rfl, hnew]
    constructor
    · intro need found
      split <;> simp
    · intro hempty
      rw [hempty]
      rfl

/-- C27 amended, at an HDD claim whose storage class has the replica number `two`, with an
empty answer of the planner: the volume has the replica number 0 and `Filter` returns
false with a nil error. -/
theorem constructLocalVolumeForPVC_replica_number_witness :
    Filter (exampleSchedulerReplica []) [] [exampleClaim "c" "hddTwo" 10] ⟨"n1"⟩
      = .ok (false, none) ∧
    Filter (exampleSchedulerReplica []) [] [exampleClaim "c" "hddNone" 10] ⟨"n1"⟩
      = .ok (false, none) ∧
    Filter (exampleSchedulerReplica []) [] [exampleClaim "c" "hddPlus2" 10] ⟨"n1"⟩
      = .ok (false, some (.needNodes 2 0)) :=
  ⟨((constructLocalVolumeForPVC_replica_number (exampleSchedulerReplica [])
    (exampleClaim "c" "hddTwo" 10)
    { Spec := { PersistentVolumeClaimName := "c", PersistentVolumeClaimNamespace := "default",
                PoolName := "LocalStorage_PoolHDD", RequiredCapacityBytes := 10,
                ReplicaNumber := 0 } }
    ⟨"n1"⟩ "hddTwo"
    ⟨[("poolClass", "HDD"), ("poolType", "REGULAR"), ("replicaNumber", "two")]⟩
    rfl rfl (by decide)).2.2.2.2 rfl).2 rfl, by decide, by decide⟩

/-! ## Invariants of the pools over a sequence of rebuilds -/

/-- An entry of a map after a write is an entry of the map before or holds the value
written. -/
theorem mem_setPool (m : PoolMap) (key : String) (pool : LocalPool) (k : String)
    (p : LocalPool) (h : (k, p) ∈ setPool m key pool) : (k, p) ∈ m ∨ p = pool := by
  induction m with
  | nil =>
    simp only [setPool, List.mem_singleton, Prod.mk.injEq] at h
    exact Or.inr h.2
  | cons e rest ih =>
    obtain ⟨k', v⟩ := e
    by_cases hk : k' = key
    · simp only [setPool, hk, if_true, List.mem_cons, Prod.mk.injEq] at h
      rcases h with h | h
      · exact Or.inr h.2
      · exact Or.inl (List.mem_cons_of_mem _ h)
    · simp only [setPool, hk, if_false, List.mem_cons] at h
      rcases h with h | h
      · exact Or.inl (by rw [h]; exact List.mem_cons_self _ _)
      · rcases ih h with h' | h'
        · exact Or.inl (List.mem_cons_of_mem _ h')
        · exact Or.inr h'

/-- A property of the pools that every pool written by `writeDiscovery` has is kept by
one iteration of the loop of `rebuildLocalPools`. -/
theorem rebuildLocalPool_preserves (P : LocalPool → Prop) (t : TypesPackage)
    (hwrite : ∀ disks volumes pool, P (writeDiscovery t disks volumes pool))
    (registryManager : RegistryManager) (pools : PoolMap) (devType : String)
    (h : ∀ k p, (k, p) ∈ pools → P p) :
    ∀ k p, (k, p) ∈ rebuildLocalPool t registryManager pools devType → P p := by
  intro k p hmem
  unfold rebuildLocalPool at hmem
  by_cases hempty : (registryManager.ListVolumesByType devType).length = 0 ∧
      (registryManager.ListDisksByType devType).length = 0
  · simp only [hempty, and_self, if_true] at hmem
    exact h k p hmem
  · simp only [hempty, if_false] at hmem
    rcases mem_setPool _ _ _ _ _ hmem with h' | h'
    · exact h k p h'
    · rw [h']
      exact hwrite _ _ _

/-- The same for `rebuildLocalPools`, over the device types. -/
theorem foldl_rebuildLocalPool_preserves (P : LocalPool → Prop) (t : TypesPackage)
    (hwrite : ∀ disks volumes pool, P (writeDiscovery t disks volumes pool))
    (registryManager : RegistryManager) (devTypes : List String) (pools : PoolMap)
    (h : ∀ k p, (k, p) ∈ pools → P p) :
    ∀ k p, (k, p) ∈ devTypes.foldl (rebuildLocalPool t registryManager) pools → P p := by
  induction devTypes generalizing pools with
  | nil => exact h
  | cons c rest ih =>
    rw [List.foldl_cons]
    exact ih _ (rebuildLocalPool_preserves P t hwrite registryManager pools c h)

/-- The same for a sequence of registry changes, each followed by `rebuildLocalPools`. -/
theorem foldl_rebuildLocalPools_preserves (P : LocalPool → Prop) (t : TypesPackage)
    (hwrite : ∀ disks volumes pool, P (writeDiscovery t disks volumes pool))
    (regs : List RegistryManager) (m : nodeManager)
    (h : ∀ k p, (k, p) ∈ m.pools → P p) :
    ∀ k p, (k, p) ∈ (regs.foldl (fun m reg =>
      rebuildLocalPools t { m with registryManager := reg }) m).pools → P p := by
  induction regs generalizing m with
  | nil => exact h
  | cons reg rest ih =>
    rw [List.foldl_cons]
    apply ih
    exact foldl_rebuildLocalPool_preserves P t hwrite reg t.DefaultDevTypes m.pools h

/-- C21: from the empty pool map of a new manager, after any sequence of registry
changes each followed by `rebuildLocalPools`, every pool in the map has
`FreeCapacityBytes = TotalCapacityBytes - UsedCapacityBytes` and
`FreeVolumeCount = MaxLimitVolume - UsedVolumeCount` as `int64` differences, which are
the exact differences whenever these are in the `int64` range,
`UsedVolumeCount` the number of entries of `Volumes` and
`TotalVolumeCount = MaxLimitVolume`. -/
theorem rebuildLocalPools_pool_invariants (t : TypesPackage) (m0 : nodeManager)
    (regs : List RegistryManager) (hnew : m0.pools = []) :
    ∀ key pool, (key, pool) ∈ (regs.foldl (fun m reg =>
        rebuildLocalPools t { m with registryManager := reg }) m0).pools →
      pool.FreeCapacityBytes = wrapInt64 (pool.TotalCapacityBytes - pool.UsedCapacityBytes) ∧
      (-(2 ^ 63) ≤ pool.TotalCapacityBytes - pool.UsedCapacityBytes →
        pool.TotalCapacityBytes - pool.UsedCapacityBytes < 2 ^ 63 →
        pool.FreeCapacityBytes = pool.TotalCapacityBytes - pool.UsedCapacityBytes) ∧
      pool.UsedVolumeCount = (pool.Volumes.length : Int) ∧
      pool.TotalVolumeCount = t.MaxLimitVolume ∧
      pool.FreeVolumeCount = wrapInt64 (t.MaxLimitVolume - pool.UsedVolumeCount) ∧
      (-(2 ^ 63) ≤ t.MaxLimitVolume - pool.UsedVolumeCount →
        t.MaxLimitVolume - pool.UsedVolumeCount < 2 ^ 63 →
        pool.FreeVolumeCount = t.MaxLimitVolume - pool.UsedVolumeCount) := by
  refine foldl_rebuildLocalPools_preserves
    (fun pool =>
      pool.FreeCapacityBytes = wrapInt64 (pool.TotalCapacityBytes - pool.UsedCapacityBytes) ∧
      (-(2 ^ 63) ≤ pool.TotalCapacityBytes - pool.UsedCapacityBytes →
        pool.TotalCapacityBytes - pool.UsedCapacityBytes < 2 ^ 63 →
        pool.FreeCapacityBytes = pool.TotalCapacityBytes - pool.UsedCapacityBytes) ∧
      pool.UsedVolumeCount = (pool.Volumes.length : Int) ∧
      pool.TotalVolumeCount = t.MaxLimitVolume ∧
      pool.FreeVolumeCount = wrapInt64 (t.MaxLimitVolume - pool.UsedVolumeCount) ∧
      (-(2 ^ 63) ≤ t.MaxLimitVolume - pool.UsedVolumeCount →
        t.MaxLimitVolume - pool.UsedVolumeCount < 2 ^ 63 →
        pool.FreeVolumeCount = t.MaxLimitVolume - pool.UsedVolumeCount))
    t ?_ regs m0 ?_
  · intro disks volumes pool
    refine ⟨rfl, ?_, ?_, rfl, rfl, ?_⟩
    · intro h0 h1
      exact wrapInt64_of_range _ h0 h1
    · simp [writeDiscovery]
    · intro h0 h1
      exact wrapInt64_of_range _ h0 h1
  · intro k p hmem
    rw [hnew] at hmem
    cases hmem

/-- C21 at a new manager, a rebuild on the registry with HDD disks and replicas and a
rebuild on an empty registry: the HDD pool that stays has free 230 = 300 - 70, 2 used
volumes and 998 = 1000 - 2 free ones. -/
theorem rebuildLocalPools_pool_invariants_witness :
    (∀ key pool, (key, pool) ∈ ([exampleRegistry, emptyRegistry].foldl (fun m reg =>
        rebuildLocalPools specTypes { m with registryManager := reg })
        { registryManager := emptyRegistry }).pools →
      pool.FreeCapacityBytes = wrapInt64 (pool.TotalCapacityBytes - pool.UsedCapacityBytes) ∧
      (-(2 ^ 63) ≤ pool.TotalCapacityBytes - pool.UsedCapacityBytes →
        pool.TotalCapacityBytes - pool.UsedCapacityBytes < 2 ^ 63 →
        pool.FreeCapacityBytes = pool.TotalCapacityBytes - pool.UsedCapacityBytes) ∧
      pool.UsedVolumeCount = (pool.Volumes.length : Int) ∧
      pool.TotalVolumeCount = specTypes.MaxLimitVolume ∧
      pool.FreeVolumeCount = wrapInt64 (specTypes.MaxLimitVolume - pool.UsedVolumeCount) ∧
      (-(2 ^ 63) ≤ specTypes.MaxLimitVolume - pool.UsedVolumeCount →
        specTypes.MaxLimitVolume - pool.UsedVolumeCount < 2 ^ 63 →
        pool.FreeVolumeCount = specTypes.MaxLimitVolume - pool.UsedVolumeCount)) ∧
    (([exampleRegistry, emptyRegistry].foldl (fun m reg =>
        rebuildLocalPools specTypes { m with registryManager := reg })
        { registryManager := emptyRegistry }).pools.map
      (fun e => (e.2.TotalCapacityBytes, e.2.UsedCapacityBytes, e.2.FreeCapacityBytes,
        e.2.UsedVolumeCount, e.2.FreeVolumeCount))) = [(300, 70, 230, 2, 998)] :=
  ⟨rebuildLocalPools_pool_invariants specTypes { registryManager := emptyRegistry }
      [exampleRegistry, emptyRegistry] rfl,
    by decide⟩

/-! ## The loop of `syncNodeResources` -/

/-- Writing the entries of a map with distinct keys, none of them in the map yet, adds
them at the end in their order. -/
theorem foldl_setPool_of_nodup (l acc : PoolMap) (hl : (l.map Prod.fst).Nodup)
    (hnew : ∀ k ∈ l.map Prod.fst, getPool acc k = none) :
    l.foldl (fun a e => setPool a e.1 e.2) acc = acc ++ l := by
  induction l generalizing acc with
  | nil => simp
  | cons e rest ih =>
    obtain ⟨k, v⟩ := e
    rw [List.map_cons, List.nodup_cons] at hl
    have hk : getPool acc k = none := hnew k (by simp)
    rw [List.foldl_cons, ih (setPool acc k v) hl.2, setPool_of_absent acc k v hk]
    · simp
    · intro k' hk'
      have hne : k ≠ k' := by
        intro h
        subst h
        exact hl.1 hk'
      rw [getPool_setPool_of_ne _ _ _ _ hne]
      exact hnew k' (List.mem_cons_of_mem _ hk')

/-- The four variables of the loop of `syncNodeResources` after the entries `l`: the
written map and the three running `int64` sums. -/
theorem foldl_syncLoopStep (l : PoolMap) (st : SyncLoopState) :
    (l.foldl syncLoopStep st).localPools = l.foldl (fun a e => setPool a e.1 e.2) st.localPools ∧
    (l.foldl syncLoopStep st).totalDisk =
      l.foldl (fun a e => wrapInt64 (a + (e.2.Disks.length : Int))) st.totalDisk ∧
    (l.foldl syncLoopStep st).totalCapacity =
      l.foldl (fun a e => wrapInt64 (a + e.2.TotalCapacityBytes)) st.totalCapacity ∧
    (l.foldl syncLoopStep st).freeCapacity =
      l.foldl (fun a e => wrapInt64 (a + e.2.FreeCapacityBytes)) st.freeCapacity := by
  induction l generalizing st with
  | nil => simp
  | cons e rest ih =>
    simp only [List.foldl_cons]
    exact ih (syncLoopStep st e)

/-- The loop of `syncNodeResources` from its initial state, on a map with distinct
keys: the written map is the map, and each sum is the exact sum wrapped once to
`int64`. -/
theorem foldl_syncLoopStep_init (l : PoolMap) (hl : (l.map Prod.fst).Nodup) :
    (l.foldl syncLoopStep {}).localPools = l ∧
    (l.foldl syncLoopStep {}).totalDisk =
      wrapInt64 ((l.map (fun e => (e.2.Disks.length : Int))).sum) ∧
    (l.foldl syncLoopStep {}).totalCapacity =
      wrapInt64 ((l.map (fun e => e.2.TotalCapacityBytes)).sum) ∧
    (l.foldl syncLoopStep {}).freeCapacity =
      wrapInt64 ((l.map (fun e => e.2.FreeCapacityBytes)).sum) := by
  obtain ⟨h1, h2, h3, h4⟩ := foldl_syncLoopStep l {}
  have h0 : wrapInt64 0 = 0 := by decide
  have hsum : ∀ f : String × LocalPool → Int,
      l.foldl (fun a e => wrapInt64 (a + f e)) 0 = wrapInt64 ((l.map f).sum) := by
    intro f
    have h := foldl_wrapInt64_add f l 0
    rw [h0, zero_add] at h
    exact h
  refine ⟨?_, ?_, ?_, ?_⟩
  · rw [h1, foldl_setPool_of_nodup l [] hl (fun _ _ => rfl)]
    simp
  · rw [h2]
    exact hsum _
  · rw [h3]
    exact hsum _
  · rw [h4]
    exact hsum _

/-- The loop of `syncNodeResources` does not depend on the order in which the entries
of the map are taken: another order writes the same entries and the same sums. -/
theorem foldl_syncLoopStep_perm (l l' : PoolMap) (hl : (l.map Prod.fst).Nodup)
    (hperm : l'.Perm l) :
    (l'.foldl syncLoopStep {}).localPools.Perm (l.foldl syncLoopStep {}).localPools ∧
    (l'.foldl syncLoopStep {}).totalDisk = (l.foldl syncLoopStep {}).totalDisk ∧
    (l'.foldl syncLoopStep {}).totalCapacity = (l.foldl syncLoopStep {}).totalCapacity ∧
    (l'.foldl syncLoopStep {}).freeCapacity = (l.foldl syncLoopStep {}).freeCapacity := by
  have hl' : (l'.map Prod.fst).Nodup := ((hperm.map Prod.fst).nodup_iff).mpr hl
  obtain ⟨a1, a2, a3, a4⟩ := foldl_syncLoopStep_init l hl
  obtain ⟨b1, b2, b3, b4⟩ := foldl_syncLoopStep_init l' hl'
  rw [a1, a2, a3, a4, b1, b2, b3, b4]
  exact ⟨hperm, by rw [(hperm.map _).sum_eq], by rw [(hperm.map _).sum_eq],
    by rw [(hperm.map _).sum_eq]⟩

/-! ## Claims on `syncNodeResources` -/

/-- C22: when `Get` and `Update` succeed, `syncNodeResources` passes to `Update` (once)
the node object it got with `Status.Pools` replaced by the manager's pool map,
whatever pools the object held, `TotalDisk` the number of disks over the pools,
`TotalCapacity` the sum of the pools' `TotalCapacityBytes` and `FreeCapacity` the sum
of their `FreeCapacityBytes` (the pool map a map, its keys distinct; the three sums
within `int64`), and returns no error. -/
theorem syncNodeResources_publishes_pool_map {σ : Type} (k8sClient : K8sClient σ)
    (store store1 : σ) (m : nodeManager) (diskNode : LocalDiskNode)
    (hget : k8sClient.Get store m.nodeName = (.ok diskNode, store1))
    (hupdate : ∀ obj, (k8sClient.Update store1 obj).1 = none)
    (hkeys : (m.pools.map Prod.fst).Nodup)
    (hdisk : (m.pools.map (fun e => (e.2.Disks.length : Int))).sum < 2 ^ 63)
    (hcap : -(2 ^ 63) ≤ (m.pools.map (fun e => e.2.TotalCapacityBytes)).sum ∧
      (m.pools.map (fun e => e.2.TotalCapacityBytes)).sum < 2 ^ 63)
    (hfree : -(2 ^ 63) ≤ (m.pools.map (fun e => e.2.FreeCapacityBytes)).sum ∧
      (m.pools.map (fun e => e.2.FreeCapacityBytes)).sum < 2 ^ 63) :
    ∃ written : LocalDiskNode,
      (syncNodeResources k8sClient store m).calls = [.get m.nodeName, .update written] ∧
      (syncNodeResources k8sClient store m).err = none ∧
      (syncNodeResources k8sClient store m).store = (k8sClient.Update store1 written).2 ∧
      written.Status.Pools = m.pools ∧
      written.Status.TotalDisk = (m.pools.map (fun e => (e.2.Disks.length : Int))).sum ∧
      written.Status.TotalCapacity = (m.pools.map (fun e => e.2.TotalCapacityBytes)).sum ∧
      written.Status.FreeCapacity = (m.pools.map (fun e => e.2.FreeCapacityBytes)).sum ∧
      written.Name = diskNode.Name ∧ written.AttachNode = diskNode.AttachNode := by
  obtain ⟨h1, h2, h3, h4⟩ := foldl_syncLoopStep_init m.pools hkeys
  have hdisk0 : 0 ≤ (m.pools.map (fun e => (e.2.Disks.length : Int))).sum := by
    apply List.sum_nonneg
    intro x hx
    obtain ⟨e, _, rfl⟩ := List.mem_map.mp hx
    exact Int.natCast_nonneg _
  refine ⟨{ diskNode with
      Status :=
        { diskNode.Status with
          Pools := (m.pools.foldl syncLoopStep {}).localPools
          TotalDisk := (m.pools.foldl syncLoopStep {}).totalDisk
          TotalCapacity := (m.pools.foldl syncLoopStep {}).totalCapacity
          FreeCapacity := (m.pools.foldl syncLoopStep {}).freeCapacity } },
    ?_, ?_, ?_, h1, ?_, ?_, ?_, rfl, rfl⟩
  · simp only [syncNodeResources, hget]
  · simp only [syncNodeResources, hget]
    exact hupdate _
  · simp only [syncNodeResources, hget]
  · show (m.pools.foldl syncLoopStep {}).totalDisk = _
    rw [h2]
    exact wrapInt64_of_range _ (by omega) hdisk
  · show (m.pools.foldl syncLoopStep {}).totalCapacity = _
    rw [h3]
    exact wrapInt64_of_range _ hcap.1 hcap.2
  · show (m.pools.foldl syncLoopStep {}).freeCapacity = _
    rw [h4]
    exact wrapInt64_of_range _ hfree.1 hfree.2

/-- C22 at the manager with one HDD pool (two disks, 300 bytes, 230 free) and a store
that holds the node object with a stale SSD pool: the object written has the HDD pool
alone, 2 disks, total 300 and free 230. -/
theorem syncNodeResources_publishes_pool_map_witness :
    (∃ written : LocalDiskNode,
      (syncNodeResources scriptedClient { node := exampleDiskNode } exampleManager).calls =
        [.get exampleManager.nodeName, .update written] ∧
      (syncNodeResources scriptedClient { node := exampleDiskNode } exampleManager).err = none ∧
      (syncNodeResources scriptedClient { node := exampleDiskNode } exampleManager).store =
        (scriptedClient.Update { node := exampleDiskNode } written).2 ∧
      written.Status.Pools = exampleManager.pools ∧
      written.Status.TotalDisk =
        (exampleManager.pools.map (fun e => (e.2.Disks.length : Int))).sum ∧
      written.Status.TotalCapacity =
        (exampleManager.pools.map (fun e => e.2.TotalCapacityBytes)).sum ∧
      written.Status.FreeCapacity =
        (exampleManager.pools.map (fun e => e.2.FreeCapacityBytes)).sum ∧
      written.Name = exampleDiskNode.Name ∧ written.AttachNode = exampleDiskNode.AttachNode) ∧
    (syncNodeResources scriptedClient { node := exampleDiskNode } exampleManager).store.node =
      { Name := "n1", AttachNode := "n1",
        Status := { Pools := exampleManager.pools, TotalDisk := 2, TotalCapacity := 300,
                    FreeCapacity := 230 } } :=
  ⟨syncNodeResources_publishes_pool_map scriptedClient { node := exampleDiskNode }
      { node := exampleDiskNode } exampleManager exampleDiskNode rfl (fun _ => rfl)
      (by decide) (by decide) (by decide) (by decide),
    by decide⟩

/-- C23, refuted as stated: against a store that answers the first update with a
version conflict and accepts every later one, `syncNodeResources` returns the
conflict after one `Get` and one `Update`; the stored object is unchanged, and the
store would have accepted the next update, as the second call shows. -/
theorem syncNodeResources_gives_up_at_first_conflict :
    (syncNodeResources scriptedClient
      { node := exampleDiskNode, replies := [some .conflict] } exampleManager).err
      = some .conflict ∧
    (syncNodeResources scriptedClient
      { node := exampleDiskNode, replies := [some .conflict] } exampleManager).calls.length
      = 2 ∧
    (syncNodeResources scriptedClient
      { node := exampleDiskNode, replies := [some .conflict] } exampleManager).store
      = { node := exampleDiskNode, replies := [] } ∧
    (syncNodeResources scriptedClient { node := exampleDiskNode, replies := [] }
      exampleManager).err = none := by
  decide

/-- C23, amended: `syncNodeResources` has no retry. It makes one `Get`; when the `Get`
fails it returns that error and makes no other call; otherwise it makes one `Update`
and returns what the `Update` answers, an error (a version conflict or any other) as
it is, leaving the store as that one `Update` left it. -/
theorem syncNodeResources_single_attempt {σ : Type} (k8sClient : K8sClient σ) (store : σ)
    (m : nodeManager) :
    (∀ err store1, k8sClient.Get store m.nodeName = (.error err, store1) →
      (syncNodeResources k8sClient store m).calls = [.get m.nodeName] ∧
      (syncNodeResources k8sClient store m).err = some err ∧
      (syncNodeResources k8sClient store m).store = store1) ∧
    (∀ diskNode store1, k8sClient.Get store m.nodeName = (.ok diskNode, store1) →
      ∃ written : LocalDiskNode,
        (syncNodeResources k8sClient store m).calls = [.get m.nodeName, .update written] ∧
        (syncNodeResources k8sClient store m).err = (k8sClient.Update store1 written).1 ∧
        (syncNodeResources k8sClient store m).store = (k8sClient.Update store1 written).2) ∧
    (syncNodeResources k8sClient store m).calls.length ≤ 2 := by
  refine ⟨?_, ?_, ?_⟩
  · intro err store1 hget
    simp only [syncNodeResources, hget, and_self]
  · intro diskNode store1 hget
    simp only [syncNodeResources, hget]
    exact ⟨_, rfl, rfl, rfl⟩
  · rcases hget : k8sClient.Get store m.nodeName with ⟨r, store1⟩
    cases r with
    | error err => simp [syncNodeResources, hget]
    | ok diskNode => simp [syncNodeResources, hget]

/-- C29: `syncNodeResources` leaves the manager, and so its pool map, as it was,
whatever the store answers; when `Get` fails it returns that error and passes no
object to `Update`. -/
theorem syncNodeResources_leaves_pool_map {σ : Type} (k8sClient : K8sClient σ) (store : σ)
    (m : nodeManager) :
    (syncNodeResources k8sClient store m).manager.pools = m.pools ∧
    (∀ err store1, k8sClient.Get store m.nodeName = (.error err, store1) →
      (syncNodeResources k8sClient store m).err = some err ∧
      ∀ obj, StoreCall.update obj ∉ (syncNodeResources k8sClient store m).calls) := by
  constructor
  · rcases hget : k8sClient.Get store m.nodeName with ⟨r, store1⟩
    cases r with
    | error err => simp [syncNodeResources, hget]
    | ok diskNode => simp [syncNodeResources, hget]
  · intro err store1 hget
    simp [syncNodeResources, hget]

end Hwameistor
